import Mathlib

/-!
# wati-go: a verification development of the WATI REST client

The client in `wati.go` builds an HTTP request (method, URL, headers, query
string, body), hands it to the HTTP transport and returns the raw response
bytes.  This file embeds the client together with the parts of the Go
standard library it calls (`net/url`, `net/http`, `encoding/json`,
`mime/multipart`, `path/filepath`, `unicode/utf8`) and proves the contract
of the endpoint methods.

Conventions of the embedding:

* a Go `string` and a Go `[]byte` are sequences of bytes: `List Byte`;
* a Go slice that may be `nil` is an `Option (List _)`, `none` being `nil`;
* a Go `error` that may be `nil` is an `Option Error`;
* the HTTP round trip `c.http.Do` is a parameter of the client (a function
  from the request to what the transport answers), and every call records
  the requests it handed to the transport;
* a nil-pointer dereference is the outcome `Outcome.panicked`.
-/

namespace Wati

/-! ## Bytes and strings -/

/-- A byte. -/
abbrev Byte := Fin 256

/-- A Go `string`: an immutable sequence of bytes (not necessarily UTF-8). -/
abbrev GoString := List Byte

/-- A Go `[]byte` value that is not nil. -/
abbrev Bytes := List Byte

/-- The byte of an ASCII character literal such as `'a'`. -/
@[reducible] def ch (c : Char) : Byte := Fin.ofNat c.toNat

/-- Go `utf8.AppendRune` on a valid rune `r` (not a surrogate, at most
U+10FFFF); any other value encodes as U+FFFD, as in Go. -/
def utf8.EncodeRune (r : Nat) : List Byte :=
  if r < 0x80 then [Fin.ofNat r]
  else if r < 0x800 then [Fin.ofNat (0xC0 + r / 64), Fin.ofNat (0x80 + r % 64)]
  else if 0x10FFFF < r ∨ (0xD800 ≤ r ∧ r ≤ 0xDFFF) then [0xEF, 0xBF, 0xBD]
  else if r < 0x10000 then
    [Fin.ofNat (0xE0 + r / 4096), Fin.ofNat (0x80 + r / 64 % 64), Fin.ofNat (0x80 + r % 64)]
  else
    [Fin.ofNat (0xF0 + r / 262144), Fin.ofNat (0x80 + r / 4096 % 64),
     Fin.ofNat (0x80 + r / 64 % 64), Fin.ofNat (0x80 + r % 64)]

/-- A Go string literal: the UTF-8 bytes of the text. -/
def str (s : String) : GoString := s.data.flatMap (fun c => utf8.EncodeRune c.toNat)

/-- A Go `error` value. -/
inductive Error
  | text (msg : String)
  | escape (s : GoString)
  | invalidHost (s : GoString)
  | url (op : String) (url : GoString) (err : Error)
  deriving DecidableEq, Repr

deriving instance DecidableEq for Except

/-! ## Package `strings` -/

/-- Go `strings.HasPrefix`. -/
def strings.HasPrefix (s p : GoString) : Bool := p.isPrefixOf s

/-- Go `strings.HasSuffix`. -/
def strings.HasSuffix (s p : GoString) : Bool := p.isSuffixOf s

/-- Go `strings.Index`: the index of the first instance of `sep` in `s`. -/
def strings.Index (s sep : GoString) : Option Nat :=
  match s with
  | [] => if sep = [] then some 0 else none
  | c :: rest =>
    if sep.isPrefixOf (c :: rest) then some 0
    else (strings.Index rest sep).map (· + 1)

/-- Go `strings.Contains`. -/
def strings.Contains (s sep : GoString) : Bool := (strings.Index s sep).isSome

/-- Go `strings.IndexByte`. -/
def strings.IndexByte (s : GoString) (c : Byte) : Option Nat :=
  match s with
  | [] => none
  | x :: rest => if x = c then some 0 else (strings.IndexByte rest c).map (· + 1)

/-- Go `strings.LastIndexByte` (the code calls `strings.LastIndex` with a
one-byte separator). -/
def strings.LastIndexByte (s : GoString) (c : Byte) : Option Nat :=
  match s with
  | [] => none
  | x :: rest =>
    match strings.LastIndexByte rest c with
    | some i => some (i + 1)
    | none => if x = c then some 0 else none

/-- Go `strings.Cut` with a one-byte separator: the text before and after the
first instance of `c`, and whether `c` was found. -/
def strings.Cut (s : GoString) (c : Byte) : GoString × GoString × Bool :=
  match s with
  | [] => ([], [], false)
  | x :: rest =>
    if x = c then ([], rest, true)
    else
      let r := strings.Cut rest c
      (x :: r.1, r.2.1, r.2.2)

/-- Go `strings.Count` with a one-byte separator. -/
def strings.Count (s : GoString) (c : Byte) : Nat := s.count c

/-- Go `strings.ToLower` on a string of ASCII bytes (the only use is on a URL
scheme, which `getScheme` restricts to ASCII letters, digits, `+`, `-`, `.`). -/
def strings.ToLower (s : GoString) : GoString :=
  s.map (fun c => if ch 'A' ≤ c ∧ c ≤ ch 'Z' then c + 32 else c)

/-- Go `strings.TrimSuffix` with a one-byte suffix. -/
def strings.TrimSuffix (s : GoString) (c : Byte) : GoString :=
  if s.getLast? = some c then s.dropLast else s

/-- Go string comparison `a < b`: lexicographic on bytes. -/
def strings.Less : GoString → GoString → Bool
  | [], [] => false
  | [], _ :: _ => true
  | _ :: _, [] => false
  | a :: as, b :: bs => if a < b then true else if b < a then false else strings.Less as bs

/-! ## Package `net/url` -/

/-- Go `url.encoding`: the part of a URL a string is escaped for. -/
inductive url.encoding
  | encodePath
  | encodePathSegment
  | encodeHost
  | encodeZone
  | encodeUserPassword
  | encodeQueryComponent
  | encodeFragment
  deriving DecidableEq, Repr

open url.encoding

/-- Go `url.ishex`. -/
def url.ishex (c : Byte) : Bool :=
  (ch '0' ≤ c && c ≤ ch '9') || (ch 'a' ≤ c && c ≤ ch 'f') || (ch 'A' ≤ c && c ≤ ch 'F')

/-- Go `url.unhex`. -/
def url.unhex (c : Byte) : Byte :=
  if ch '0' ≤ c ∧ c ≤ ch '9' then c - ch '0'
  else if ch 'a' ≤ c ∧ c ≤ ch 'f' then c - ch 'a' + 10
  else if ch 'A' ≤ c ∧ c ≤ ch 'F' then c - ch 'A' + 10
  else 0

/-- Go `upperhex[n]` for `n < 16`: the table `"0123456789ABCDEF"`. -/
def url.upperhex (n : Byte) : Byte :=
  if n < 10 then ch '0' + n else ch 'A' + (n - 10)

/-- Go `url.shouldEscape`: whether byte `c` must be percent-escaped in the
given part of a URL. -/
def url.shouldEscape (c : Byte) (mode : url.encoding) : Bool :=
  if (ch 'a' ≤ c ∧ c ≤ ch 'z') ∨ (ch 'A' ≤ c ∧ c ≤ ch 'Z') ∨ (ch '0' ≤ c ∧ c ≤ ch '9') then false
  else if (mode = encodeHost ∨ mode = encodeZone) ∧
      c ∈ [ch '!', ch '$', ch '&', ch '\'', ch '(', ch ')', ch '*', ch '+', ch ',', ch ';',
           ch '=', ch ':', ch '[', ch ']', ch '<', ch '>', ch '"'] then false
  else if c ∈ [ch '-', ch '_', ch '.', ch '~'] then false
  else if c ∈ [ch '$', ch '&', ch '+', ch ',', ch '/', ch ':', ch ';', ch '=', ch '?', ch '@'] ∧
      (mode = encodePath ∨ mode = encodePathSegment ∨ mode = encodeUserPassword ∨
       mode = encodeQueryComponent ∨ mode = encodeFragment) then
    match mode with
    | encodePath => c = ch '?'
    | encodePathSegment => c = ch '/' || c = ch ';' || c = ch ',' || c = ch '?'
    | encodeUserPassword => c = ch '@' || c = ch '/' || c = ch '?' || c = ch ':'
    | encodeQueryComponent => true
    | _ => false
  else if mode = encodeFragment ∧ c ∈ [ch '!', ch '(', ch ')', ch '*'] then false
  else true

/-- Go `url.unescape`: decode `%XX` (and `+` in a query component); an
error at the first malformed escape or, in a host, the first invalid byte. -/
def url.unescape (s : GoString) (mode : url.encoding) : Except Error GoString :=
  match s with
  | [] => .ok []
  | c :: rest =>
    if c = ch '%' then
      match rest with
      | h1 :: h2 :: rest2 =>
        if !url.ishex h1 || !url.ishex h2 then .error (.escape [c, h1, h2])
        else if mode = encodeHost ∧ url.unhex h1 < 8 ∧ [c, h1, h2] ≠ str "%25" then
          .error (.escape [c, h1, h2])
        else if mode = encodeZone ∧ [c, h1, h2] ≠ str "%25" ∧
            url.unhex h1 * 16 + url.unhex h2 ≠ ch ' ' ∧
            url.shouldEscape (url.unhex h1 * 16 + url.unhex h2) encodeHost then
          .error (.escape [c, h1, h2])
        else
          match url.unescape rest2 mode with
          | .ok t => .ok ((url.unhex h1 * 16 + url.unhex h2) :: t)
          | .error e => .error e
      | _ => .error (.escape (c :: rest))
    else if c = ch '+' then
      match url.unescape rest mode with
      | .ok t => .ok ((if mode = encodeQueryComponent then ch ' ' else ch '+') :: t)
      | .error e => .error e
    else if (mode = encodeHost ∨ mode = encodeZone) ∧ c < 0x80 ∧ url.shouldEscape c encodeHost then
      .error (.invalidHost [c])
    else
      match url.unescape rest mode with
      | .ok t => .ok (c :: t)
      | .error e => .error e

/-- Go `url.escape`. -/
def url.escape (s : GoString) (mode : url.encoding) : GoString :=
  s.flatMap (fun c =>
    if c = ch ' ' ∧ mode = encodeQueryComponent then [ch '+']
    else if url.shouldEscape c mode then [ch '%', url.upperhex (c / 16), url.upperhex (c % 16)]
    else [c])

/-- Go `url.QueryEscape`. -/
def url.QueryEscape (s : GoString) : GoString := url.escape s encodeQueryComponent

/-- Go `url.QueryUnescape`. -/
def url.QueryUnescape (s : GoString) : Except Error GoString := url.unescape s encodeQueryComponent

/-- Go `url.Userinfo`. -/
structure url.Userinfo where
  username : GoString
  password : GoString
  passwordSet : Bool
  deriving DecidableEq, Repr

/-- Go `url.URL`. -/
structure url.URL where
  Scheme : GoString := []
  Opaque : GoString := []
  User : Option url.Userinfo := none
  Host : GoString := []
  Path : GoString := []
  RawPath : GoString := []
  OmitHost : Bool := false
  ForceQuery : Bool := false
  RawQuery : GoString := []
  Fragment : GoString := []
  RawFragment : GoString := []
  deriving DecidableEq, Repr

/-- The loop of Go `url.getScheme` from index `i` on, `rest` being
`rawURL[i:]`. -/
def url.getSchemeLoop (rawURL : GoString) : Nat → GoString → Except Error (GoString × GoString)
  | _, [] => .ok ([], rawURL)
  | i, c :: rest =>
    if (ch 'a' ≤ c ∧ c ≤ ch 'z') ∨ (ch 'A' ≤ c ∧ c ≤ ch 'Z') then
      url.getSchemeLoop rawURL (i + 1) rest
    else if (ch '0' ≤ c ∧ c ≤ ch '9') ∨ c = ch '+' ∨ c = ch '-' ∨ c = ch '.' then
      if i = 0 then .ok ([], rawURL) else url.getSchemeLoop rawURL (i + 1) rest
    else if c = ch ':' then
      if i = 0 then .error (.text "missing protocol scheme")
      else .ok (rawURL.take i, rawURL.drop (i + 1))
    else .ok ([], rawURL)

/-- Go `url.getScheme`: split off a leading `scheme:`. -/
def url.getScheme (rawURL : GoString) : Except Error (GoString × GoString) :=
  url.getSchemeLoop rawURL 0 rawURL

/-- Go `url.stringContainsCTLByte`. -/
def url.stringContainsCTLByte (s : GoString) : Bool :=
  s.any (fun b => b < ch ' ' || b = 0x7f)

/-- Go `url.validOptionalPort`. -/
def url.validOptionalPort (port : GoString) : Bool :=
  match port with
  | [] => true
  | c :: digits => c = ch ':' && digits.all (fun b => ch '0' ≤ b && b ≤ ch '9')

/-- Go `url.validUserinfo`.  The Go loop ranges over runes; a byte outside
ASCII starts a rune that is not in the allowed set, so the test is the same
on bytes. -/
def url.validUserinfo (s : GoString) : Bool :=
  s.all (fun r =>
    (ch 'A' ≤ r && r ≤ ch 'Z') || (ch 'a' ≤ r && r ≤ ch 'z') || (ch '0' ≤ r && r ≤ ch '9') ||
    decide (r ∈ [ch '-', ch '.', ch '_', ch ':', ch '~', ch '!', ch '$', ch '&', ch '\'',
         ch '(', ch ')', ch '*', ch '+', ch ',', ch ';', ch '=', ch '%', ch '@']))

/-- Go `url.parseHost`. -/
def url.parseHost (host : GoString) : Except Error GoString :=
  if strings.HasPrefix host (str "[") then
    match strings.LastIndexByte host (ch ']') with
    | none => .error (.text "missing ']' in host")
    | some i =>
      let colonPort := host.drop (i + 1)
      if !url.validOptionalPort colonPort then .error (.text "invalid port after host")
      else
        match strings.Index (host.take i) (str "%25") with
        | some zone =>
          match url.unescape (host.take zone) encodeHost with
          | .error e => .error e
          | .ok host1 =>
            match url.unescape ((host.take i).drop zone) encodeZone with
            | .error e => .error e
            | .ok host2 =>
              match url.unescape (host.drop i) encodeHost with
              | .error e => .error e
              | .ok host3 => .ok (host1 ++ host2 ++ host3)
        | none => url.unescape host encodeHost
  else
    match strings.LastIndexByte host (ch ':') with
    | some i =>
      if !url.validOptionalPort (host.drop i) then .error (.text "invalid port after host")
      else url.unescape host encodeHost
    | none => url.unescape host encodeHost

/-- Go `url.parseAuthority`. -/
def url.parseAuthority (authority : GoString) : Except Error (Option url.Userinfo × GoString) :=
  match strings.LastIndexByte authority (ch '@') with
  | none =>
    match url.parseHost authority with
    | .error e => .error e
    | .ok host => .ok (none, host)
  | some i =>
    match url.parseHost (authority.drop (i + 1)) with
    | .error e => .error e
    | .ok host =>
      let userinfo := authority.take i
      if !url.validUserinfo userinfo then .error (.text "net/url: invalid userinfo")
      else if !strings.Contains userinfo (str ":") then
        match url.unescape userinfo encodeUserPassword with
        | .error e => .error e
        | .ok username => .ok (some ⟨username, [], false⟩, host)
      else
        let c := strings.Cut userinfo (ch ':')
        match url.unescape c.1 encodeUserPassword with
        | .error e => .error e
        | .ok username =>
          match url.unescape c.2.1 encodeUserPassword with
          | .error e => .error e
          | .ok password => .ok (some ⟨username, password, true⟩, host)

/-- Go `URL.setPath`. -/
def url.URL.setPath (u : url.URL) (p : GoString) : Except Error url.URL :=
  match url.unescape p encodePath with
  | .error e => .error e
  | .ok path =>
    .ok { u with Path := path, RawPath := if p = url.escape path encodePath then [] else p }

/-- Go `URL.setFragment`. -/
def url.URL.setFragment (u : url.URL) (f : GoString) : Except Error url.URL :=
  match url.unescape f encodeFragment with
  | .error e => .error e
  | .ok frag =>
    .ok { u with Fragment := frag,
                 RawFragment := if f = url.escape frag encodeFragment then [] else f }

/-- The second half of Go `url.parse`, from the test of the leading slash on:
`u` holds the scheme and the query, `rest` is what stands between them. -/
def url.parseHier (viaRequest : Bool) (u : url.URL) (rest : GoString) : Except Error url.URL :=
  if !strings.HasPrefix rest (str "/") ∧ u.Scheme ≠ [] then
    .ok { u with Opaque := rest }
  else if !strings.HasPrefix rest (str "/") ∧ viaRequest then
    .error (.text "invalid URI for request")
  else if !strings.HasPrefix rest (str "/") ∧
      strings.Contains (strings.Cut rest (ch '/')).1 (str ":") then
    .error (.text "first path segment in URL cannot contain colon")
  else if (u.Scheme ≠ [] ∨ (!viaRequest ∧ !strings.HasPrefix rest (str "///"))) ∧
      strings.HasPrefix rest (str "//") then
    let authority0 := rest.drop 2
    let authority := match strings.IndexByte authority0 (ch '/') with
      | some i => authority0.take i
      | none => authority0
    let rest := match strings.IndexByte authority0 (ch '/') with
      | some i => authority0.drop i
      | none => []
    match url.parseAuthority authority with
    | .error e => .error e
    | .ok (user, host) => url.URL.setPath { u with User := user, Host := host } rest
  else if u.Scheme ≠ [] ∧ strings.HasPrefix rest (str "/") then
    url.URL.setPath { u with OmitHost := true } rest
  else url.URL.setPath u rest

/-- Go `url.parse` (the unexported worker of `url.Parse`), `rawURL` already
without its fragment: the control-byte test, the scheme and the query are
split off here, the rest is `url.parseHier`. -/
def url.parse (rawURL : GoString) (viaRequest : Bool) : Except Error url.URL :=
  if url.stringContainsCTLByte rawURL then
    .error (.text "net/url: invalid control character in URL")
  else if rawURL = [] ∧ viaRequest then .error (.text "empty url")
  else if rawURL = str "*" then .ok { Path := str "*" }
  else
    match url.getScheme rawURL with
    | .error e => .error e
    | .ok (scheme, rest0) =>
      let forceQuery := strings.HasSuffix rest0 (str "?") && strings.Count rest0 (ch '?') == 1
      let rest := if forceQuery then rest0.dropLast else (strings.Cut rest0 (ch '?')).1
      let rawQuery := if forceQuery then [] else (strings.Cut rest0 (ch '?')).2.1
      url.parseHier viaRequest
        { Scheme := strings.ToLower scheme, ForceQuery := forceQuery, RawQuery := rawQuery } rest

/-- Go `url.Parse`. -/
def url.Parse (rawURL : GoString) : Except Error url.URL :=
  let c := strings.Cut rawURL (ch '#')
  match url.parse c.1 false with
  | .error e => .error (.url "parse" c.1 e)
  | .ok u =>
    if c.2.1 = [] then .ok u
    else
      match url.URL.setFragment u c.2.1 with
      | .error e => .error (.url "parse" rawURL e)
      | .ok u => .ok u

/-- Go `url.Values`: a map from a key to its list of values, kept as an
association list without repeated keys. -/
abbrev url.Values := List (GoString × List GoString)

/-- The map lookup `v[key]` (nil when the key is absent). -/
def url.Values.lookup (v : url.Values) (key : GoString) : List GoString :=
  match v with
  | [] => []
  | (k, vs) :: rest => if k = key then vs else url.Values.lookup rest key

/-- The map assignment `v[key] = vs`. -/
def url.Values.store (v : url.Values) (key : GoString) (vs : List GoString) : url.Values :=
  match v with
  | [] => [(key, vs)]
  | (k, old) :: rest =>
    if k = key then (k, vs) :: rest else (k, old) :: url.Values.store rest key vs

/-- Go `Values.Set`: `v[key] = []string{value}`. -/
def url.Values.Set (v : url.Values) (key value : GoString) : url.Values :=
  url.Values.store v key [value]

/-- Go `Values.Add`: `v[key] = append(v[key], value)`. -/
def url.Values.Add (v : url.Values) (key value : GoString) : url.Values :=
  url.Values.store v key (url.Values.lookup v key ++ [value])

/-- The pieces the loop of Go `url.parseQuery` visits: it cuts the query at
each `&` until the rest is empty. -/
def url.querySegments (query : GoString) : List GoString :=
  match query with
  | [] => []
  | c :: rest =>
    if c = ch '&' then [] :: url.querySegments rest
    else
      match url.querySegments rest with
      | [] => [[c]]
      | seg :: segs => (c :: seg) :: segs

/-- One turn of the loop of Go `url.parseQuery` on the piece `key`. -/
def url.parseQueryStep (st : url.Values × Option Error) (key : GoString) :
    url.Values × Option Error :=
  if strings.Contains key (str ";") then
    (st.1, some (.text "invalid semicolon separator in query"))
  else if key = [] then st
  else
    let c := strings.Cut key (ch '=')
    match url.QueryUnescape c.1 with
    | .error err1 => (st.1, if st.2 = none then some err1 else st.2)
    | .ok key =>
      match url.QueryUnescape c.2.1 with
      | .error err1 => (st.1, if st.2 = none then some err1 else st.2)
      | .ok value => (url.Values.Add st.1 key value, st.2)

/-- Go `url.ParseQuery`: the values parsed, and the first error met. -/
def url.ParseQuery (query : GoString) : url.Values × Option Error :=
  (url.querySegments query).foldl url.parseQueryStep ([], none)

/-- Go `URL.Query`: `ParseQuery(u.RawQuery)` with the error dropped. -/
def url.URL.Query (u : url.URL) : url.Values := (url.ParseQuery u.RawQuery).1

/-- Go `Values.Encode`: the pairs in the order of the sorted keys,
`key=value` escaped and joined by `&`. -/
def url.Values.Encode (v : url.Values) : GoString :=
  let keys := (v.map Prod.fst).insertionSort (fun a b => strings.Less b a = false)
  keys.foldl (fun buf k =>
    (url.Values.lookup v k).foldl (fun buf val =>
      (if buf.length > 0 then buf ++ [ch '&'] else buf)
        ++ url.QueryEscape k ++ [ch '='] ++ url.QueryEscape val) buf) []

/-- Pieces joined by `&`. -/
def url.joinAmp : List GoString → GoString
  | [] => []
  | [s] => s
  | s :: t :: rest => s ++ ch '&' :: url.joinAmp (t :: rest)

/-- The key/value pairs of `v` in the order `Values.Encode` writes them: by
sorted key, the values of a key in their order. -/
def url.Values.pairs (v : url.Values) : List (GoString × GoString) :=
  ((v.map Prod.fst).insertionSort (fun a b => strings.Less b a = false)).flatMap
    (fun k => (url.Values.lookup v k).map (fun val => (k, val)))

/-- The piece `key=value` of an encoded query. -/
def url.encodePair (p : GoString × GoString) : GoString :=
  url.QueryEscape p.1 ++ ch '=' :: url.QueryEscape p.2

/-! ## Package `unicode/utf8` -/

/-- Go `utf8.RuneError`, U+FFFD. -/
def utf8.RuneError : Nat := 0xFFFD

/-- Go `utf8.DecodeRuneInString` / `utf8.DecodeRune`: the first rune of `s`
and its width in bytes; `(RuneError, 1)` when `s` does not start with a
well-formed encoding, `(RuneError, 0)` when `s` is empty.  The masks and
shifts of the source are written as `%`, `*` and `+`. -/
def utf8.DecodeRune (s : GoString) : Nat × Nat :=
  match s with
  | [] => (utf8.RuneError, 0)
  | s0 :: t =>
    if s0 < 0x80 then (s0.val, 1)
    else if s0 < 0xC2 ∨ 0xF4 < s0 then (utf8.RuneError, 1)
    else
      let sz : Nat := if s0 < 0xE0 then 2 else if s0 < 0xF0 then 3 else 4
      let lo : Byte := if s0 = 0xE0 then 0xA0 else if s0 = 0xF0 then 0x90 else 0x80
      let hi : Byte := if s0 = 0xED then 0x9F else if s0 = 0xF4 then 0x8F else 0xBF
      if s.length < sz then (utf8.RuneError, 1)
      else
        match t with
        | [] => (utf8.RuneError, 1)
        | s1 :: t1 =>
          if s1 < lo ∨ hi < s1 then (utf8.RuneError, 1)
          else if sz ≤ 2 then (s0.val % 32 * 64 + s1.val % 64, 2)
          else
            match t1 with
            | [] => (utf8.RuneError, 1)
            | s2 :: t2 =>
              if s2 < 0x80 ∨ 0xBF < s2 then (utf8.RuneError, 1)
              else if sz ≤ 3 then (s0.val % 16 * 4096 + s1.val % 64 * 64 + s2.val % 64, 3)
              else
                match t2 with
                | [] => (utf8.RuneError, 1)
                | s3 :: _ =>
                  if s3 < 0x80 ∨ 0xBF < s3 then (utf8.RuneError, 1)
                  else (s0.val % 8 * 262144 + s1.val % 64 * 4096 + s2.val % 64 * 64
                          + s3.val % 64, 4)

/-- Go `utf8.ValidString`. -/
def utf8.ValidString : GoString → Bool
  | [] => true
  | b :: rest =>
    if b < 0x80 then utf8.ValidString rest
    else
      match (utf8.DecodeRune (b :: rest)).2, rest with
      | 2, _ :: t => utf8.ValidString t
      | 3, _ :: _ :: t => utf8.ValidString t
      | 4, _ :: _ :: _ :: t => utf8.ValidString t
      | _, _ => false

/-! ## Package `encoding/json`: the encoder -/

/-- A JSON text as a tree.  A Go value is encoded through this tree: a
string as `string`, a struct as `object` with its tagged fields in
declaration order, a nil slice as `null`, any other slice as `array`. -/
inductive JSON
  | null
  | bool (b : Bool)
  | number (text : GoString)
  | string (s : GoString)
  | array (xs : List JSON)
  | object (kvs : List (GoString × JSON))
  deriving Repr

/-- The table `hex` of `encoding/json`: `"0123456789abcdef"`. -/
def json.hex (n : Byte) : Byte :=
  if n < 10 then ch '0' + n else ch 'a' + (n - 10)

/-- Go `htmlSafeSet[b]` for an ASCII byte: printable and none of
`"`, `&`, `<`, `>`, `\`. -/
def json.htmlSafe (b : Byte) : Bool :=
  0x20 ≤ b && b ≠ ch '"' && b ≠ ch '&' && b ≠ ch '<' && b ≠ ch '>' && b ≠ ch '\\'

/-- What Go `appendString` (with `escapeHTML` set, as `json.Marshal` does)
writes for the ASCII byte `b`. -/
def json.appendByte (b : Byte) : GoString :=
  if json.htmlSafe b then [b]
  else if b = ch '\\' ∨ b = ch '"' then [ch '\\', b]
  else if b = 0x08 then str "\\b"
  else if b = 0x0C then str "\\f"
  else if b = ch '\n' then str "\\n"
  else if b = ch '\r' then str "\\r"
  else if b = ch '\t' then str "\\t"
  else str "\\u00" ++ [json.hex (b / 16), json.hex (b % 16)]

/-- The loop of Go `appendString`: what is written between the quotes for
the string `s`. -/
def json.appendStringBody : GoString → GoString
  | [] => []
  | b :: rest =>
    if b < 0x80 then json.appendByte b ++ json.appendStringBody rest
    else
      let invalid := str "\\ufffd" ++ json.appendStringBody rest
      match utf8.DecodeRune (b :: rest), rest with
      | (_, 2), s1 :: t => [b, s1] ++ json.appendStringBody t
      | (c, 3), s1 :: s2 :: t =>
        if c = 0x2028 ∨ c = 0x2029 then
          str "\\u202" ++ [json.hex (Fin.ofNat (c % 16))] ++ json.appendStringBody t
        else [b, s1, s2] ++ json.appendStringBody t
      | (_, 4), s1 :: s2 :: s3 :: t => [b, s1, s2, s3] ++ json.appendStringBody t
      | _, _ => invalid

/-- Go `appendString`: the JSON string literal for `s`. -/
def json.appendString (s : GoString) : GoString :=
  [ch '"'] ++ json.appendStringBody s ++ [ch '"']

mutual
/-- The compact JSON text Go's encoder writes for a tree. -/
def JSON.render : JSON → Bytes
  | .null => str "null"
  | .bool b => if b then str "true" else str "false"
  | .number text => text
  | .string s => json.appendString s
  | .array xs => [ch '['] ++ JSON.renderElems xs ++ [ch ']']
  | .object kvs => [0x7B] ++ JSON.renderFields kvs ++ [0x7D]
/-- The elements of an array, separated by commas. -/
def JSON.renderElems : List JSON → Bytes
  | [] => []
  | [x] => JSON.render x
  | x :: y :: rest => JSON.render x ++ [ch ','] ++ JSON.renderElems (y :: rest)
/-- The members of an object, `"key":value` separated by commas. -/
def JSON.renderFields : List (GoString × JSON) → Bytes
  | [] => []
  | [(k, v)] => json.appendString k ++ [ch ':'] ++ JSON.render v
  | (k, v) :: y :: rest =>
    json.appendString k ++ [ch ':'] ++ JSON.render v ++ [ch ','] ++ JSON.renderFields (y :: rest)
end

/-- Go `json.Marshal` on a value whose encoding tree is `v`.  The payloads
of this package hold only strings, structs and slices, for which the encoder
has no error. -/
def json.Marshal (v : JSON) : Except Error Bytes := .ok (JSON.render v)

/-- The encoding of a Go slice: `null` when nil, else the array of its
elements. -/
def json.slice {α : Type} (enc : α → JSON) : Option (List α) → JSON
  | none => .null
  | some xs => .array (xs.map enc)

/-! ## Package `encoding/json`: the decoder -/

/-- The bytes `json.Marshal` keeps of a string: each byte that is not part of
a well-formed UTF-8 sequence becomes U+FFFD (`EF BF BD`). -/
def json.coerceUTF8 : GoString → GoString
  | [] => []
  | b :: rest =>
    if b < 0x80 then b :: json.coerceUTF8 rest
    else
      let invalid := [0xEF, 0xBF, 0xBD] ++ json.coerceUTF8 rest
      match utf8.DecodeRune (b :: rest), rest with
      | (_, 2), s1 :: t => b :: s1 :: json.coerceUTF8 t
      | (_, 3), s1 :: s2 :: t => b :: s1 :: s2 :: json.coerceUTF8 t
      | (_, 4), s1 :: s2 :: s3 :: t => b :: s1 :: s2 :: s3 :: json.coerceUTF8 t
      | _, _ => invalid

/-- Go `json.isSpace`. -/
def json.isSpace (c : Byte) : Bool :=
  c = ch ' ' || c = ch '\t' || c = ch '\r' || c = ch '\n'

/-- Skip the white space the scanner skips between tokens. -/
def json.skipSpace : GoString → GoString
  | [] => []
  | c :: rest => if json.isSpace c then json.skipSpace rest else c :: rest

/-- The value of a hexadecimal digit, as in Go `json.getu4`. -/
def json.hexVal (c : Byte) : Option Nat :=
  if ch '0' ≤ c ∧ c ≤ ch '9' then some (c.val - 48)
  else if ch 'a' ≤ c ∧ c ≤ ch 'f' then some (c.val - 97 + 10)
  else if ch 'A' ≤ c ∧ c ≤ ch 'F' then some (c.val - 65 + 10)
  else none

/-- Go `json.getu4` on the four digits after `\u`. -/
def json.getu4 (a b c d : Byte) : Option Nat :=
  match json.hexVal a, json.hexVal b, json.hexVal c, json.hexVal d with
  | some x, some y, some z, some w => some (((x * 16 + y) * 16 + z) * 16 + w)
  | _, _, _, _ => none

/-- The byte a one-letter escape stands for, for the letters the scanner
accepts after a backslash (`u` apart). -/
def json.simpleEscape (e : Byte) : Option Byte :=
  if e = ch '"' ∨ e = ch '\\' ∨ e = ch '/' then some e
  else if e = ch 'b' then some 0x08
  else if e = ch 'f' then some 0x0C
  else if e = ch 'n' then some (ch '\n')
  else if e = ch 'r' then some (ch '\r')
  else if e = ch 't' then some (ch '\t')
  else none

/-- Go `utf16.DecodeRune` on a pair of `\u` escapes: the rune of a valid
surrogate pair. -/
def json.surrogatePair (r1 r2 : Nat) : Option Nat :=
  if 0xD800 ≤ r1 ∧ r1 < 0xDC00 ∧ 0xDC00 ≤ r2 ∧ r2 < 0xE000 then
    some ((r1 - 0xD800) * 1024 + (r2 - 0xDC00) + 0x10000)
  else none

/-- The scanner and Go `json.unquoteBytes` in one pass over a string literal
whose opening quote has been read: the string the literal stands for and the
text after the closing quote; `none` for a literal the scanner rejects (no
closing quote, a control byte, a malformed escape).  `fuel` bounds the number
of steps; every step reads at least one byte, so the length of the text plus
one is enough. -/
def json.parseStringBody : Nat → GoString → Option (GoString × GoString)
  | 0, _ => none
  | _ + 1, [] => none
  | fuel + 1, c :: rest =>
    if c = ch '"' then some ([], rest)
    else if c = ch '\\' then
      match rest with
      | [] => none
      | e :: rest1 =>
        if e = ch 'u' then
          match rest1 with
          | h1 :: h2 :: h3 :: h4 :: rest5 =>
            match json.getu4 h1 h2 h3 h4 with
            | none => none
            | some rr =>
              let single :=
                (json.parseStringBody fuel rest5).map
                  (fun r => (utf8.EncodeRune
                    (if 0xD800 ≤ rr ∧ rr < 0xE000 then utf8.RuneError else rr) ++ r.1, r.2))
              if 0xD800 ≤ rr ∧ rr < 0xE000 then
                match rest5 with
                | b1 :: u1 :: g1 :: g2 :: g3 :: g4 :: rest11 =>
                  if b1 = ch '\\' ∧ u1 = ch 'u' then
                    match json.getu4 g1 g2 g3 g4 with
                    | none => single
                    | some rr1 =>
                      match json.surrogatePair rr rr1 with
                      | some dec =>
                        (json.parseStringBody fuel rest11).map
                          (fun r => (utf8.EncodeRune dec ++ r.1, r.2))
                      | none => single
                  else single
                | _ => single
              else single
          | _ => none
        else
          match json.simpleEscape e with
          | none => none
          | some b => (json.parseStringBody fuel rest1).map (fun r => (b :: r.1, r.2))
    else if c < 0x20 then none
    else if c < 0x80 then (json.parseStringBody fuel rest).map (fun r => (c :: r.1, r.2))
    else
      let invalid :=
        (json.parseStringBody fuel rest).map (fun r => ([0xEF, 0xBF, 0xBD] ++ r.1, r.2))
      match utf8.DecodeRune (c :: rest), rest with
      | (rr, 2), _ :: t =>
        (json.parseStringBody fuel t).map (fun r => (utf8.EncodeRune rr ++ r.1, r.2))
      | (rr, 3), _ :: _ :: t =>
        (json.parseStringBody fuel t).map (fun r => (utf8.EncodeRune rr ++ r.1, r.2))
      | (rr, 4), _ :: _ :: _ :: t =>
        (json.parseStringBody fuel t).map (fun r => (utf8.EncodeRune rr ++ r.1, r.2))
      | _, _ => invalid

/-- The string literal whose opening quote has been read, with the fuel its
text needs. -/
def json.parseString (s : GoString) : Option (GoString × GoString) :=
  json.parseStringBody (s.length + 1) s

/-- The decimal digits at the start of a text, and the rest. -/
def json.takeDigits : GoString → GoString × GoString
  | [] => ([], [])
  | c :: rest =>
    if ch '0' ≤ c ∧ c ≤ ch '9' then
      let r := json.takeDigits rest
      (c :: r.1, r.2)
    else ([], c :: rest)

/-- The number literal at the start of a text, as the scanner reads it: an
optional minus, `0` or digits without a leading zero, an optional fraction
and an optional exponent. -/
def json.parseNumber (s : GoString) : Option (GoString × GoString) :=
  let sign : GoString := if strings.HasPrefix s (str "-") then str "-" else []
  let s1 := s.drop sign.length
  let int := json.takeDigits s1
  if int.1 = [] ∨ (int.1.length > 1 ∧ strings.HasPrefix int.1 (str "0")) then
    match s1 with
    | c :: rest => if c = ch '0' then some (sign ++ [c], rest) else none
    | [] => none
  else
    let afterFrac : Option (GoString × GoString) :=
      match int.2 with
      | c :: rest =>
        if c = ch '.' then
          let d := json.takeDigits rest
          if d.1 = [] then none else some (int.1 ++ [c] ++ d.1, d.2)
        else some (int.1, int.2)
      | [] => some (int.1, [])
    match afterFrac with
    | none => none
    | some (text, rest) =>
      match rest with
      | e :: rest1 =>
        if e = ch 'e' ∨ e = ch 'E' then
          let sg : GoString := match rest1 with
            | c :: _ => if c = ch '+' ∨ c = ch '-' then [c] else []
            | [] => []
          let d := json.takeDigits (rest1.drop sg.length)
          if d.1 = [] then none else some (sign ++ text ++ [e] ++ sg ++ d.1, d.2)
        else some (sign ++ text, rest)
      | [] => some (sign ++ text, [])

mutual
/-- The scanner and the decoder on one JSON value: the tree of the value at
the start of the text and the text after it.  `fuel` bounds the number of
nested calls. -/
def json.parseValue : Nat → GoString → Option (JSON × GoString)
  | 0, _ => none
  | fuel + 1, s =>
    match json.skipSpace s with
    | [] => none
    | c :: t =>
      if c = ch '"' then (json.parseString t).map (fun r => (JSON.string r.1, r.2))
      else if c = 0x7B then
        match json.skipSpace t with
        | [] => none
        | d :: t1 =>
          if d = 0x7D then some (JSON.object [], t1)
          else (json.parseMembers fuel (d :: t1)).map (fun r => (JSON.object r.1, r.2))
      else if c = ch '[' then
        match json.skipSpace t with
        | [] => none
        | d :: t1 =>
          if d = ch ']' then some (JSON.array [], t1)
          else (json.parseElems fuel (d :: t1)).map (fun r => (JSON.array r.1, r.2))
      else if strings.HasPrefix (c :: t) (str "null") then some (JSON.null, (c :: t).drop 4)
      else if strings.HasPrefix (c :: t) (str "true") then some (JSON.bool true, (c :: t).drop 4)
      else if strings.HasPrefix (c :: t) (str "false") then
        some (JSON.bool false, (c :: t).drop 5)
      else (json.parseNumber (c :: t)).map (fun r => (JSON.number r.1, r.2))
/-- The elements of an array from the start of an element to the closing
bracket. -/
def json.parseElems : Nat → GoString → Option (List JSON × GoString)
  | 0, _ => none
  | fuel + 1, s =>
    match json.parseValue fuel s with
    | none => none
    | some (v, r) =>
      match json.skipSpace r with
      | [] => none
      | c :: t =>
        if c = ch ',' then (json.parseElems fuel t).map (fun q => (v :: q.1, q.2))
        else if c = ch ']' then some ([v], t)
        else none
/-- The members of an object from the start of a key to the closing brace. -/
def json.parseMembers : Nat → GoString → Option (List (GoString × JSON) × GoString)
  | 0, _ => none
  | fuel + 1, s =>
    match json.skipSpace s with
    | [] => none
    | q :: t =>
      if q = ch '"' then
        match json.parseString t with
        | none => none
        | some (k, r) =>
          match json.skipSpace r with
          | [] => none
          | colon :: r1 =>
            if colon = ch ':' then
              match json.parseValue fuel r1 with
              | none => none
              | some (v, r2) =>
                match json.skipSpace r2 with
                | [] => none
                | c :: r3 =>
                  if c = ch ',' then
                    (json.parseMembers fuel r3).map (fun m => ((k, v) :: m.1, m.2))
                  else if c = 0x7D then some ([(k, v)], r3)
                  else none
            else none
      else none
end

/-- The syntax pass and the tree of a whole JSON text: one value, with only
white space after it. -/
def json.parse (data : Bytes) : Option JSON :=
  match json.parseValue (data.length + 1) data with
  | none => none
  | some (v, rest) => if json.skipSpace rest = [] then some v else none


/-- Go `json.Unmarshal` into a value whose type-directed store is `store`: a
syntax error for a text that is not one JSON value, else what `store` makes
of the tree (an error where the stored value does not fit the Go type). -/
def json.Unmarshal {α : Type} (data : Bytes) (store : JSON → Except Error α) : Except Error α :=
  match json.parse data with
  | none => .error (.text "json: syntax error")
  | some v => store v

/-- Storing a JSON value into a Go `string`: `null` leaves it as it is. -/
def json.storeString (cur : GoString) : JSON → Except Error GoString
  | .null => .ok cur
  | .string s => .ok s
  | _ => .error (.text "json: cannot unmarshal into Go value of type string")

/-- Storing the elements of a JSON array into the elements of a slice: the
element `i` is decoded into the element `i` the slice already has, or into a
zero value. -/
def json.storeElems {α : Type} (store : α → JSON → Except Error α) (zero : α) :
    List α → List JSON → Except Error (List α)
  | _, [] => .ok []
  | cur, x :: xs =>
    match store (cur.headD zero) x with
    | .error e => .error e
    | .ok a =>
      match json.storeElems store zero cur.tail xs with
      | .error e => .error e
      | .ok as => .ok (a :: as)

/-- Storing a JSON value into a Go slice: `null` makes it nil, an array gives
it the length of the array. -/
def json.storeSlice {α : Type} (store : α → JSON → Except Error α) (zero : α)
    (cur : Option (List α)) : JSON → Except Error (Option (List α))
  | .null => .ok none
  | .array xs =>
    match json.storeElems store zero (cur.getD []) xs with
    | .error e => .error e
    | .ok as => .ok (some as)
  | _ => .error (.text "json: cannot unmarshal into Go value of slice type")

/-- A field name with the ASCII letters in upper case (Go `foldName` on ASCII;
Go folds letters outside ASCII as well, which no field name of this package
holds). -/
def json.foldName (s : GoString) : GoString :=
  s.map (fun c => if ch 'a' ≤ c ∧ c ≤ ch 'z' then c - 32 else c)

/-- The index of the first name that satisfies `p`. -/
def json.findName (p : GoString → Bool) : List GoString → Option Nat
  | [] => none
  | n :: rest => if p n then some 0 else (json.findName p rest).map (· + 1)

/-- The field a key of a JSON object is stored in: the field tagged with
exactly the key, else the first field whose tag is the key when the case of
letters is ignored. -/
def json.fieldIndex (names : List GoString) (key : GoString) : Option Nat :=
  match json.findName (fun n => n = key) names with
  | some i => some i
  | none => json.findName (fun n => json.foldName n = json.foldName key) names

/-- Storing the members of a JSON object into a struct, one after the other;
a key that names no field is skipped. -/
def json.storeMembers {α : Type} (names : List GoString)
    (field : Nat → α → JSON → Except Error α) : α → List (GoString × JSON) → Except Error α
  | cur, [] => .ok cur
  | cur, (k, v) :: rest =>
    match json.fieldIndex names k with
    | none => json.storeMembers names field cur rest
    | some i =>
      match field i cur v with
      | .error e => .error e
      | .ok next => json.storeMembers names field next rest

/-- Storing a JSON value into a Go struct with the given field tags: `null`
leaves it as it is, an object is stored member by member. -/
def json.storeStruct {α : Type} (names : List GoString)
    (field : Nat → α → JSON → Except Error α) (cur : α) : JSON → Except Error α
  | .null => .ok cur
  | .object kvs => json.storeMembers names field cur kvs
  | _ => .error (.text "json: cannot unmarshal into Go struct")

/-! ## Package `net/http` -/

/-- Go `http.Header`: a map from canonical header names to their values. -/
abbrev http.Header := List (GoString × List GoString)

/-- Go `httpguts.IsTokenRune` / `textproto.validHeaderFieldByte`: the bytes
of an RFC 7230 token. -/
def http.isToken (c : Byte) : Bool :=
  (ch 'a' ≤ c && c ≤ ch 'z') || (ch 'A' ≤ c && c ≤ ch 'Z') || (ch '0' ≤ c && c ≤ ch '9') ||
  decide (c ∈ [ch '!', ch '#', ch '$', ch '%', ch '&', ch '\'', ch '*', ch '+', ch '-', ch '.',
       ch '^', ch '_', 0x60, ch '|', ch '~'])

/-- The second loop of Go `textproto.canonicalMIMEHeaderKey`: upper case
at the start and after each dash, lower case elsewhere. -/
def http.canonicalLoop : Bool → GoString → GoString
  | _, [] => []
  | upper, c :: rest =>
    let c1 : Byte :=
      if upper ∧ ch 'a' ≤ c ∧ c ≤ ch 'z' then c - 32
      else if ¬ upper ∧ ch 'A' ≤ c ∧ c ≤ ch 'Z' then c + 32
      else c
    c1 :: http.canonicalLoop (c1 = ch '-') rest

/-- Go `textproto.CanonicalMIMEHeaderKey`: a key with a byte that is not a
token byte is returned unchanged. -/
def http.CanonicalMIMEHeaderKey (s : GoString) : GoString :=
  if s.all http.isToken then http.canonicalLoop true s else s

/-- The values stored under the key `key` exactly as written. -/
def http.Header.lookup (h : http.Header) (key : GoString) : List GoString :=
  match h with
  | [] => []
  | (k, vs) :: rest => if k = key then vs else http.Header.lookup rest key

/-- The map assignment `h[key] = vs`. -/
def http.Header.store (h : http.Header) (key : GoString) (vs : List GoString) : http.Header :=
  match h with
  | [] => [(key, vs)]
  | (k, old) :: rest =>
    if k = key then (k, vs) :: rest else (k, old) :: http.Header.store rest key vs

/-- Go `Header.Add`: append `value` to the values of the canonical key. -/
def http.Header.Add (h : http.Header) (key value : GoString) : http.Header :=
  let k := http.CanonicalMIMEHeaderKey key
  http.Header.store h k (http.Header.lookup h k ++ [value])

/-- Go `Header.Values`: all values of the canonical key. -/
def http.Header.Values (h : http.Header) (key : GoString) : List GoString :=
  http.Header.lookup h (http.CanonicalMIMEHeaderKey key)

/-- Go `http.Request`, the fields a client request carries. -/
structure http.Request where
  Method : GoString
  URL : url.URL
  Header : http.Header
  Body : Option Bytes
  ContentLength : Nat
  Host : GoString
  deriving DecidableEq, Repr

/-- Go `http.Response`: the status code, and what reading `Body` to its end
gives: the bytes read and the error that stopped the read (nil at EOF). -/
structure http.Response where
  StatusCode : Nat
  Body : Bytes × Option Error
  deriving Repr

/-- What `http.Client.Do` returns: `(resp, err)`, `resp` nil on a transport
error. -/
structure http.RoundTrip where
  resp : Option http.Response
  err : Option Error
  deriving Repr

/-- Go `http.Client`: the timeout in seconds and the behaviour of `Do`,
which is the network's. -/
structure http.Client where
  Timeout : Nat
  Do : http.Request → http.RoundTrip

/-- Go `http.validMethod`. -/
def http.validMethod (method : GoString) : Bool :=
  method.length > 0 && method.all http.isToken

/-- Go `http.removeEmptyPort`: drop a trailing `:` that announces no port. -/
def http.removeEmptyPort (host : GoString) : GoString :=
  let hasPort : Bool :=
    match strings.LastIndexByte host (ch ':'), strings.LastIndexByte host (ch ']') with
    | some i, some j => decide (j < i)
    | some _, none => true
    | none, _ => false
  if hasPort then strings.TrimSuffix host (ch ':') else host

/-- Go `http.NewRequest`; `body` is nil (`none`) or a `*bytes.Buffer`
holding the given bytes. -/
def http.NewRequest (method rawURL : GoString) (body : Option Bytes) : Except Error http.Request :=
  let method := if method = [] then str "GET" else method
  if !http.validMethod method then .error (.text "net/http: invalid method")
  else
    match url.Parse rawURL with
    | .error err => .error err
    | .ok u =>
      let u := { u with Host := http.removeEmptyPort u.Host }
      .ok { Method := method, URL := u, Header := [], Body := body,
            ContentLength := (body.getD []).length, Host := u.Host }

/-- Go `ioutil.ReadAll` on a response body. -/
def ioutil.ReadAll (body : Bytes × Option Error) : Bytes × Option Error := body

/-! ## Packages `path/filepath`, `os` and `mime/multipart` -/

/-- Strip the trailing slashes of a path (the first loop of `filepath.Base`). -/
def filepath.stripTrailingSlashes (path : GoString) : GoString :=
  (path.reverse.dropWhile (fun b => b = ch '/')).reverse

/-- Go `filepath.Base` on a Unix system: the last element of the path. -/
def filepath.Base (path : GoString) : GoString :=
  if path = [] then str "."
  else
    let path := filepath.stripTrailingSlashes path
    let path := match strings.LastIndexByte path (ch '/') with
      | some i => path.drop (i + 1)
      | none => path
    if path = [] then str "/" else path

/-- An open Go `*os.File` as far as the client uses it: its name, the bytes
`io.Copy` reads from it and the read error that ends the copy (nil at EOF). -/
structure os.File where
  name : GoString
  data : Bytes
  readErr : Option Error

/-- Go `multipart.Writer` over a `bytes.Buffer`: the buffer, the boundary
and whether a part is open. -/
structure multipart.Writer where
  buf : Bytes
  boundary : GoString
  lastpart : Bool
  deriving Repr

/-- Go `multipart.NewWriter`; the boundary is the random one the writer
draws (60 hexadecimal digits in Go). -/
def multipart.NewWriter (boundary : GoString) : multipart.Writer :=
  { buf := [], boundary := boundary, lastpart := false }

/-- Go `multipart.escapeQuotes`: backslash and double quote get a backslash. -/
def multipart.escapeQuotes (s : GoString) : GoString :=
  s.flatMap (fun c => if c = ch '\\' ∨ c = ch '"' then [ch '\\', c] else [c])

/-- Go `Writer.CreatePart`: the boundary line, the header lines (sorted by
key) and the empty line that ends them. -/
def multipart.Writer.CreatePart (w : multipart.Writer) (header : List (GoString × GoString)) :
    multipart.Writer :=
  let open_ := if w.lastpart then str "\r\n--" ++ w.boundary ++ str "\r\n"
               else str "--" ++ w.boundary ++ str "\r\n"
  let lines := header.flatMap (fun kv => kv.1 ++ str ": " ++ kv.2 ++ str "\r\n")
  { w with buf := w.buf ++ open_ ++ lines ++ str "\r\n", lastpart := true }

/-- Go `Writer.CreateFormFile`: a part with the `Content-Disposition` of a
form file and the content type `application/octet-stream`. -/
def multipart.Writer.CreateFormFile (w : multipart.Writer) (fieldname filename : GoString) :
    multipart.Writer :=
  w.CreatePart
    [(str "Content-Disposition",
      str "form-data; name=\"" ++ multipart.escapeQuotes fieldname ++ str "\"; filename=\""
        ++ multipart.escapeQuotes filename ++ str "\""),
     (str "Content-Type", str "application/octet-stream")]

/-- Writing to the open part appends to the buffer. -/
def multipart.Writer.Write (w : multipart.Writer) (data : Bytes) : multipart.Writer :=
  { w with buf := w.buf ++ data }

/-- Go `Writer.Close`: the closing boundary line. -/
def multipart.Writer.Close (w : multipart.Writer) : multipart.Writer :=
  { w with buf := w.buf ++ str "\r\n--" ++ w.boundary ++ str "--\r\n", lastpart := false }

/-! ## Packages `bufio`, `net/textproto`, `mime` and `mime/multipart`: the reader

The client only writes multipart payloads.  What a payload holds is what a
reader finds in it: this section embeds the reader of Go 1.16
(`multipart.Reader.NextPart`, `Part.Read`, `Part.FormName`, `Part.FileName`,
`textproto.Reader.ReadMIMEHeader`, `mime.ParseMediaType`) as functions of the
whole payload.  Go reads through a buffer of 4096 bytes; the functions here
see the whole text at once, which gives the same parts for a boundary that
holds no line end.  Three features are not followed and end in an error of
their own: a part with the transfer encoding `quoted-printable`, a parameter
of RFC 2231 (a `*` in its name), and a media type with a byte outside ASCII. -/

/-- Go `bufio.Reader.ReadSlice('\n')` on the text that is left: the line up to
and including the first `\n` and the text after it; all the text and no rest
when there is no `\n`. -/
def bufio.readSlice : Bytes → Bytes × Option Bytes
  | [] => ([], none)
  | c :: t =>
    if c = ch '\n' then ([c], some t)
    else (c :: (bufio.readSlice t).1, (bufio.readSlice t).2)

/-- The size of the buffer of the reader, Go `peekBufferSize`. -/
def multipart.peekBufferSize : Nat := 4096

/-- A space or a tab. -/
def textproto.isSpaceTab (c : Byte) : Bool := c = ch ' ' || c = ch '\t'

/-- Go `textproto.trim`: without the spaces and tabs at both ends. -/
def textproto.trim (s : Bytes) : Bytes :=
  ((s.dropWhile textproto.isSpaceTab).reverse.dropWhile textproto.isSpaceTab).reverse

/-- Go `textproto.Reader.readLineSlice` (`bufio.Reader.ReadLine` until the
line is whole): the next line without its line end `\r\n` or `\n`, and the
text after it; `none` at the end of the text. -/
def textproto.readLineSlice (s : Bytes) : Option (Bytes × Bytes) :=
  if s = [] then none
  else
    match bufio.readSlice s with
    | (line, none) => some (line, [])
    | (line, some rest) =>
      let l := line.dropLast
      some (if strings.HasSuffix l [ch '\r'] then l.dropLast else l, rest)

/-- The loop of Go `readContinuedLineSlice` over the continuation lines: each
line that starts with a space or a tab is trimmed and joined with one space.
`fuel` bounds the number of lines. -/
def textproto.continuedLines : Nat → Bytes → Bytes × Bytes
  | 0, s => ([], s)
  | fuel + 1, s =>
    match s with
    | [] => ([], s)
    | c :: _ =>
      if textproto.isSpaceTab c then
        let s1 := s.dropWhile textproto.isSpaceTab
        match textproto.readLineSlice s1 with
        | none => ([], s1)
        | some (line, rest) =>
          (ch ' ' :: textproto.trim line ++ (textproto.continuedLines fuel rest).1,
           (textproto.continuedLines fuel rest).2)
      else ([], s)

/-- Go `textproto.Reader.readContinuedLineSlice` with the check
`mustHaveFieldNameColon`: the next header line with its continuation lines,
and the text after it.  The error of a line without a colon is Go
`ProtocolError`; its message ends with the quoted line in Go, which this
text leaves out. -/
def textproto.readContinuedLineSlice (s : Bytes) : Except Error (Bytes × Bytes) :=
  match textproto.readLineSlice s with
  | none => .error (.text "EOF")
  | some (line, rest) =>
    if line = [] then .ok ([], rest)
    else if strings.IndexByte line (ch ':') = none then
      .error (.text "malformed MIME header: missing colon")
    else
      .ok (textproto.trim line ++ (textproto.continuedLines (rest.length + 1) rest).1,
           (textproto.continuedLines (rest.length + 1) rest).2)

/-- The loop of Go `textproto.Reader.ReadMIMEHeader`: header lines up to the
empty line, each stored under its canonical key.  `fuel` bounds the number of
lines. -/
def textproto.readHeaderLines : Nat → http.Header → Bytes → Except Error (http.Header × Bytes)
  | 0, _, _ => .error (.text "EOF")
  | fuel + 1, m, s =>
    match textproto.readContinuedLineSlice s with
    | .error e => .error e
    | .ok (kv, rest) =>
      if kv = [] then .ok (m, rest)
      else
        match strings.IndexByte kv (ch ':') with
        | none => .error (.text "malformed MIME header line")
        | some i =>
          if http.CanonicalMIMEHeaderKey (kv.take i) = [] then
            textproto.readHeaderLines fuel m rest
          else
            textproto.readHeaderLines fuel
              (http.Header.store m (http.CanonicalMIMEHeaderKey (kv.take i))
                (http.Header.lookup m (http.CanonicalMIMEHeaderKey (kv.take i))
                  ++ [(kv.drop (i + 1)).dropWhile textproto.isSpaceTab]))
              rest

/-- Go `textproto.Reader.ReadMIMEHeader`: the header of a part and the text
after the empty line that ends it. -/
def textproto.ReadMIMEHeader (s : Bytes) : Except Error (http.Header × Bytes) :=
  if (s.head?.map textproto.isSpaceTab) = some true then
    .error (.text "malformed MIME header initial line")
  else textproto.readHeaderLines (s.length + 1) [] s

/-- Go `MIMEHeader.Get`: the first value of the canonical key, or the empty
string. -/
def textproto.Get (h : http.Header) (key : GoString) : GoString :=
  (http.Header.Values h key).headD []

/-- The UTF-8 encodings of the runes of Go `unicode.IsSpace` (the property
White_Space). -/
def unicode.spaces : List GoString :=
  [[0x09], [0x0A], [0x0B], [0x0C], [0x0D], [0x20], [0xC2, 0x85], [0xC2, 0xA0],
   [0xE1, 0x9A, 0x80], [0xE2, 0x80, 0x80], [0xE2, 0x80, 0x81], [0xE2, 0x80, 0x82],
   [0xE2, 0x80, 0x83], [0xE2, 0x80, 0x84], [0xE2, 0x80, 0x85], [0xE2, 0x80, 0x86],
   [0xE2, 0x80, 0x87], [0xE2, 0x80, 0x88], [0xE2, 0x80, 0x89], [0xE2, 0x80, 0x8A],
   [0xE2, 0x80, 0xA8], [0xE2, 0x80, 0xA9], [0xE2, 0x80, 0xAF], [0xE2, 0x81, 0x9F],
   [0xE3, 0x80, 0x80]]

/-- Go `strings.TrimLeftFunc(s, unicode.IsSpace)`: without the white space
runes at the start.  `fuel` bounds the number of runes. -/
def strings.trimLeftSpaceLoop : Nat → GoString → GoString
  | 0, s => s
  | fuel + 1, s =>
    match unicode.spaces.find? (fun e => e.isPrefixOf s) with
    | some e => strings.trimLeftSpaceLoop fuel (s.drop e.length)
    | none => s

/-- Go `strings.TrimLeftFunc(s, unicode.IsSpace)`. -/
def strings.TrimLeftSpace (s : GoString) : GoString := strings.trimLeftSpaceLoop s.length s

/-- Go `strings.TrimRightFunc(s, unicode.IsSpace)`: without the white space
runes at the end.  `fuel` bounds the number of runes. -/
def strings.trimRightSpaceLoop : Nat → GoString → GoString
  | 0, s => s
  | fuel + 1, s =>
    match unicode.spaces.find? (fun e => e.isSuffixOf s) with
    | some e => strings.trimRightSpaceLoop fuel (s.take (s.length - e.length))
    | none => s

/-- Go `strings.TrimSpace`. -/
def strings.TrimSpace (s : GoString) : GoString :=
  strings.trimRightSpaceLoop s.length (strings.TrimLeftSpace s)

/-- Go `mime.isTSpecial`: one of `()<>@,;:\"/[]?=`. -/
def mime.isTSpecial (c : Byte) : Bool :=
  decide (c ∈ [ch '(', ch ')', ch '<', ch '>', ch '@', ch ',', ch ';', ch ':', ch '\\', ch '"',
    ch '/', ch '[', ch ']', ch '?', ch '='])

/-- Go `mime.isTokenChar`: an ASCII byte above the space, not DEL and not a
tspecial. -/
def mime.isTokenChar (c : Byte) : Bool := 0x20 < c && c < 0x7F && !mime.isTSpecial c

/-- Go `mime.consumeToken`: the token at the start of the text and the rest. -/
def mime.consumeToken (v : GoString) : GoString × GoString :=
  (v.takeWhile mime.isTokenChar, v.dropWhile mime.isTokenChar)

/-- The loop of Go `mime.consumeValue` over a quoted string whose opening
quote has been read: the string and the text after the closing quote; `none`
for a string with a line end or without a closing quote.  A backslash before
a tspecial is dropped; any other backslash is kept.  `fuel` bounds the number
of steps. -/
def mime.consumeQuoted : Nat → GoString → Option (GoString × GoString)
  | 0, _ => none
  | _ + 1, [] => none
  | fuel + 1, r :: t =>
    if r = ch '"' then some ([], t)
    else if r = ch '\\' ∧ (t.head?.map mime.isTSpecial) = some true then
      (mime.consumeQuoted fuel t.tail).map (fun q => (t.headD 0 :: q.1, q.2))
    else if r = ch '\r' ∨ r = ch '\n' then none
    else (mime.consumeQuoted fuel t).map (fun q => (r :: q.1, q.2))

/-- Go `mime.consumeValue`: a token or a quoted string; the empty value and
the text unchanged when there is neither. -/
def mime.consumeValue (v : GoString) : GoString × GoString :=
  match v with
  | [] => ([], [])
  | c :: t =>
    if c ≠ ch '"' then mime.consumeToken v
    else
      match mime.consumeQuoted (t.length + 1) t with
      | some q => q
      | none => ([], v)

/-- Go `mime.consumeMediaParam`: the parameter `; name=value` at the start of
the text, its name in lower case, and the rest; an empty name and the text
unchanged when there is none. -/
def mime.consumeMediaParam (v : GoString) : GoString × GoString × GoString :=
  let rest := strings.TrimLeftSpace v
  if ¬ strings.HasPrefix rest [ch ';'] then ([], [], v)
  else
    let rest1 := strings.TrimLeftSpace (rest.drop 1)
    let param := strings.ToLower (mime.consumeToken rest1).1
    if param = [] then ([], [], v)
    else
      let rest2 := strings.TrimLeftSpace (mime.consumeToken rest1).2
      if ¬ strings.HasPrefix rest2 [ch '='] then ([], [], v)
      else
        let rest3 := strings.TrimLeftSpace (rest2.drop 1)
        if (mime.consumeValue rest3).1 = [] ∧ (mime.consumeValue rest3).2 = rest3 then ([], [], v)
        else (param, (mime.consumeValue rest3).1, (mime.consumeValue rest3).2)

/-- Go `mime.checkMediaTypeDisposition`. -/
def mime.checkMediaTypeDisposition (s : GoString) : Option Error :=
  let typ := mime.consumeToken s
  if typ.1 = [] then some (.text "mime: no media type")
  else if typ.2 = [] then none
  else if ¬ strings.HasPrefix typ.2 [ch '/'] then
    some (.text "mime: expected slash after first token")
  else
    let sub := mime.consumeToken (typ.2.drop 1)
    if sub.1 = [] then some (.text "mime: expected token after slash")
    else if sub.2 ≠ [] then some (.text "mime: unexpected content after media subtype")
    else none

/-- The value of a parameter in the parameters read so far. -/
def mime.param (params : List (GoString × GoString)) (key : GoString) : Option GoString :=
  (params.find? (fun kv => kv.1 = key)).map Prod.snd

/-- The loop of Go `mime.ParseMediaType` over the parameters.  `fuel` bounds
the number of parameters. -/
def mime.parseParams : Nat → List (GoString × GoString) → GoString →
    Except Error (List (GoString × GoString))
  | 0, _, _ => .error (.text "mime: invalid media parameter")
  | fuel + 1, params, v =>
    if v = [] then .ok params
    else if strings.TrimLeftSpace v = [] then .ok params
    else
      let p := mime.consumeMediaParam (strings.TrimLeftSpace v)
      if p.1 = [] then
        if strings.TrimSpace p.2.2 = [ch ';'] then .ok params
        else .error (.text "mime: invalid media parameter")
      else if ch '*' ∈ p.1 then .error (.text "not followed: a parameter of RFC 2231")
      else
        match mime.param params p.1 with
        | some old =>
          if old ≠ p.2.1 then .error (.text "mime: duplicate parameter name")
          else mime.parseParams fuel params p.2.2
        | none => mime.parseParams fuel (params ++ [(p.1, p.2.1)]) p.2.2

/-- Go `mime.ParseMediaType`: the media type in lower case and the
parameters; on an invalid parameter the media type is returned with the
error, on any other error the empty string. -/
def mime.ParseMediaType (v : GoString) : GoString × Except Error (List (GoString × GoString)) :=
  let base := (strings.Cut v (ch ';')).1
  if base.any (fun c => 0x80 ≤ c) then
    ([], .error (.text "not followed: a media type outside ASCII"))
  else
    let mediatype := strings.TrimSpace (strings.ToLower base)
    match mime.checkMediaTypeDisposition mediatype with
    | some err => ([], .error err)
    | none =>
      match mime.parseParams (v.length + 1) [] (v.drop base.length) with
      | .ok params => (mediatype, .ok params)
      | .error (.text "mime: invalid media parameter") =>
        (mediatype, .error (.text "mime: invalid media parameter"))
      | .error err => ([], .error err)

/-- A part as a reader finds it: its header and its content. -/
structure multipart.Part where
  Header : http.Header
  body : Bytes
  deriving DecidableEq, Repr

/-- Go `Part.parseContentDisposition`: the disposition and its parameters,
no parameters when the header does not parse. -/
def multipart.Part.parseContentDisposition (p : multipart.Part) :
    GoString × List (GoString × GoString) :=
  match mime.ParseMediaType (textproto.Get p.Header (str "Content-Disposition")) with
  | (disposition, .ok params) => (disposition, params)
  | (disposition, .error _) => (disposition, [])

/-- Go `Part.FormName`: the parameter `name` of a part whose disposition is
`form-data`. -/
def multipart.Part.FormName (p : multipart.Part) : GoString :=
  if p.parseContentDisposition.1 ≠ str "form-data" then []
  else (mime.param p.parseContentDisposition.2 (str "name")).getD []

/-- Go `Part.FileName` (Go 1.16): the parameter `filename` of the
disposition. -/
def multipart.Part.FileName (p : multipart.Part) : GoString :=
  (mime.param p.parseContentDisposition.2 (str "filename")).getD []

/-- Go `multipart.skipLWSPChar`: without the spaces and tabs at the start. -/
def multipart.skipLWSPChar (b : Bytes) : Bytes := b.dropWhile textproto.isSpaceTab

/-- Go `Reader.isBoundaryDelimiterLine`: the line is `--boundary`, optional
spaces and tabs, and the line end; the line end `\n` of the first delimiter
line switches the reader to lines that end in `\n`.  The result is the answer
and the line end the reader goes on with. -/
def multipart.isBoundaryDelimiterLine (dashBoundary nl : Bytes) (partsRead : Nat)
    (line : Bytes) : Bool × Bytes :=
  if ¬ strings.HasPrefix line dashBoundary then (false, nl)
  else
    let rest := multipart.skipLWSPChar (line.drop dashBoundary.length)
    if partsRead = 0 ∧ rest = [ch '\n'] then (true, nl.drop 1)
    else (decide (rest = nl), nl)

/-- Go `Reader.isFinalBoundary`: the line is `--boundary--`, optional spaces
and tabs, and nothing or the line end. -/
def multipart.isFinalBoundary (dashBoundary nl line : Bytes) : Bool :=
  if ¬ strings.HasPrefix line (dashBoundary ++ str "--") then false
  else
    let rest := multipart.skipLWSPChar (line.drop (dashBoundary.length + 2))
    decide (rest = [] ∨ rest = nl)

/-- Go `multipart.matchAfterPrefix` (Go 1.16) once the whole text is known:
the text after `--boundary` makes it a boundary when it is empty or starts
with a space, a tab, a line end byte or a dash. -/
def multipart.matchAfterPrefix (rest : Bytes) : Bool :=
  match rest with
  | [] => true
  | c :: _ => c = ch ' ' || c = ch '\t' || c = ch '\r' || c = ch '\n' || c = ch '-'

/-- Go `scanUntilBoundary` over the content of a part after its start: the
content ends before the first `nlDashBoundary` that is a boundary; an
instance that is none belongs to the content, and the search goes on after
it (`skip` counts its bytes still to pass).  `none` when the text ends
without a boundary. -/
def multipart.scanBody (nlDashBoundary : Bytes) : Nat → Bytes → Option (Bytes × Bytes)
  | _, [] => none
  | skip + 1, c :: t => (multipart.scanBody nlDashBoundary skip t).map (fun r => (c :: r.1, r.2))
  | 0, c :: t =>
    if strings.HasPrefix (c :: t) nlDashBoundary then
      if multipart.matchAfterPrefix ((c :: t).drop nlDashBoundary.length) then some ([], c :: t)
      else
        (multipart.scanBody nlDashBoundary (nlDashBoundary.length - 1) t).map
          (fun r => (c :: r.1, r.2))
    else (multipart.scanBody nlDashBoundary 0 t).map (fun r => (c :: r.1, r.2))

/-- Go `partReader.Read` until the end of the part: the content of the part
and the text from the boundary on.  At the start of the content a
`--boundary` without a line end before it counts as a boundary too. -/
def multipart.readBody (dashBoundary nl : Bytes) (s : Bytes) : Option (Bytes × Bytes) :=
  if strings.HasPrefix s dashBoundary then
    if multipart.matchAfterPrefix (s.drop dashBoundary.length) then some ([], s)
    else multipart.scanBody (nl ++ dashBoundary) dashBoundary.length s
  else multipart.scanBody (nl ++ dashBoundary) 0 s

/-- The loop `for { p, err := r.NextPart(); ...; io.ReadAll(p) }` over Go
`Reader.NextPart`: the parts of the payload up to the final boundary.  `nl` is
the line end of the reader, `partsRead` the number of parts read,
`expectNewPart` is set after the line end that follows the content of a part.
`fuel` bounds the number of lines read. -/
def multipart.readLoop (dashBoundary : Bytes) : Nat → Bytes → Nat → Bool → Bytes →
    Except Error (List multipart.Part)
  | 0, _, _, _, _ => .error (.text "multipart: NextPart: EOF")
  | fuel + 1, nl, partsRead, expectNewPart, s =>
    match bufio.readSlice s with
    | (line, none) =>
      if s.length < multipart.peekBufferSize ∧ multipart.isFinalBoundary dashBoundary nl line
      then .ok []
      else if s.length < multipart.peekBufferSize then .error (.text "multipart: NextPart: EOF")
      else .error (.text "multipart: NextPart: bufio: buffer full")
    | (line, some rest) =>
      if multipart.peekBufferSize < line.length then
        .error (.text "multipart: NextPart: bufio: buffer full")
      else if (multipart.isBoundaryDelimiterLine dashBoundary nl partsRead line).1 then
        match textproto.ReadMIMEHeader rest with
        | .error e => .error e
        | .ok (header, rest1) =>
          if strings.ToLower (textproto.Get header (str "Content-Transfer-Encoding"))
              = str "quoted-printable" then
            .error (.text "not followed: a quoted-printable part")
          else
            match multipart.readBody dashBoundary
                (multipart.isBoundaryDelimiterLine dashBoundary nl partsRead line).2 rest1 with
            | none => .error (.text "unexpected EOF")
            | some (body, rest2) =>
              match multipart.readLoop dashBoundary fuel
                  (multipart.isBoundaryDelimiterLine dashBoundary nl partsRead line).2
                  (partsRead + 1) false rest2 with
              | .error e => .error e
              | .ok parts => .ok ({ Header := header, body := body } :: parts)
      else if multipart.isFinalBoundary dashBoundary nl line then .ok []
      else if expectNewPart then .error (.text "multipart: expecting a new Part")
      else if partsRead = 0 then
        multipart.readLoop dashBoundary fuel nl partsRead expectNewPart rest
      else if line = nl then multipart.readLoop dashBoundary fuel nl partsRead true rest
      else .error (.text "multipart: unexpected line in Next()")

/-- Reading a multipart payload with Go `multipart.NewReader(r, boundary)`:
every part `NextPart` gives, with its content read to the end. -/
def multipart.ReadParts (boundary : GoString) (data : Bytes) :
    Except Error (List multipart.Part) :=
  if boundary = [] then .error (.text "multipart: boundary is empty")
  else multipart.readLoop (str "--" ++ boundary) (data.length + 1) (str "\r\n") 0 false data

/-- The shape of the boundaries Go `multipart.NewWriter` draws
(`randomBoundary`): 60 hexadecimal digits in lower case. -/
def multipart.isRandomBoundary (b : GoString) : Bool :=
  b.length = 60 && b.all (fun c => (ch '0' ≤ c && c ≤ ch '9') || (ch 'a' ≤ c && c ≤ ch 'f'))

/-! ## Package `wati` (`wati.go`) -/

/-- The type `Client` of `wati.go`. -/
structure Client where
  baseUrl : GoString
  token : GoString
  http : http.Client

/-- The function `NewClient` of `wati.go`; `net` is how the network answers the
requests of the `http.Client` it creates. -/
def NewClient (net : http.Request → http.RoundTrip) (baseUrl token : GoString) : Client :=
  { baseUrl := baseUrl, token := token, http := { Timeout := 10, Do := net } }

/-- How a call of a method ends: it returns `([]byte, error)`, or it panics
on a nil pointer. -/
inductive Outcome
  | returned (b : Option Bytes) (err : Option Error)
  | panicked
  deriving DecidableEq, Repr

/-- A call of a method: the requests handed to `c.http.Do`, in order, and how
the call ended. -/
structure Run where
  sent : List http.Request
  outcome : Outcome
  deriving DecidableEq, Repr

/-- Lines 39 to 45 of `wati.go` (`do`) and 62 to 68 (`doMultipart`): add the
two headers, then set every parameter in the query and encode it back. -/
def Client.prepare (c : Client) (contentType : GoString) (req : http.Request)
    (params : List (GoString × GoString)) : http.Request :=
  let req := { req with Header := req.Header.Add (str "Content-Type") contentType }
  let req := { req with Header := req.Header.Add (str "Authorization") (str "Bearer " ++ c.token) }
  let q := req.URL.Query
  let q := params.foldl (fun q kv => q.Set kv.1 kv.2) q
  { req with URL := { req.URL with RawQuery := q.Encode } }

/-- Lines 46 to 54 of `wati.go` (`do`) and 69 to 77 (`doMultipart`): send the
request and read the body of `resp`, whatever `err` is. -/
def Client.send (c : Client) (req : http.Request) : Run :=
  let rt := c.http.Do req
  match rt.resp with
  | none => { sent := [req], outcome := .panicked }
  | some resp =>
    let r := ioutil.ReadAll resp.Body
    if r.2 ≠ none then { sent := [req], outcome := .returned none r.2 }
    else { sent := [req], outcome := .returned (some r.1) r.2 }

/-- The method `do` of `wati.go`.  `body` is the `io.Reader`: nil or a buffer. -/
def Client.do_ (c : Client) (method endpoint : GoString) (body : Option Bytes)
    (params : List (GoString × GoString)) : Run :=
  let reqUrl := c.baseUrl ++ endpoint
  match http.NewRequest method reqUrl body with
  | .error err => { sent := [], outcome := .returned none (some err) }
  | .ok req => c.send (c.prepare (str "application/json") req params)

/-- The method `doMultipart` of `wati.go`. -/
def Client.doMultipart (c : Client) (method endpoint : GoString) (body : Option Bytes)
    (params : List (GoString × GoString)) : Run :=
  let reqUrl := c.baseUrl ++ endpoint
  match http.NewRequest method reqUrl body with
  | .error err => { sent := [], outcome := .returned none (some err) }
  | .ok req => c.send (c.prepare (str "multipart/form-data") req params)

/-- The tail `if err != nil { return nil, err }; return b, nil` of the four
methods that unpack the result of `do`. -/
def Run.unpack (r : Run) : Run :=
  match r.outcome with
  | .panicked => r
  | .returned b err =>
    if err ≠ none then { r with outcome := .returned none err }
    else { r with outcome := .returned b none }

/-- The method `GetMessages`. -/
def Client.GetMessages (c : Client) (whatsappNumber : GoString) : Run :=
  (c.do_ (str "GET") (str "/api/v1/getMessages/" ++ whatsappNumber) none []).unpack

/-- The method `GetMessageTemplates`. -/
def Client.GetMessageTemplates (c : Client) : Run :=
  (c.do_ (str "GET") (str "/api/v1/getMessageTemplates") none []).unpack

/-- The method `GetContactsList`. -/
def Client.GetContactsList (c : Client) : Run :=
  (c.do_ (str "GET") (str "/api/v1/getContacts") none []).unpack

/-- The method `GetMedia`. -/
def Client.GetMedia (c : Client) (fileName : GoString) : Run :=
  (c.do_ (str "GET") (str "/api/v1/getMedia") none [(str "fileName", fileName)]).unpack

/-- The type `Param`. -/
structure Param where
  Name : GoString
  Value : GoString
  deriving DecidableEq, Repr

/-- The encoding of a `Param`, by its field tags. -/
def Param.toJSON (p : Param) : JSON :=
  .object [(str "name", .string p.Name), (str "value", .string p.Value)]

/-- The decoder storing a JSON value into a `Param`. -/
def Param.store (cur : Param) (v : JSON) : Except Error Param :=
  json.storeStruct [str "name", str "value"]
    (fun i cur v =>
      match i with
      | 0 => (json.storeString cur.Name v).map (fun s => { cur with Name := s })
      | _ => (json.storeString cur.Value v).map (fun s => { cur with Value := s }))
    cur v

/-- The zero value of `Param`. -/
def Param.zero : Param := { Name := [], Value := [] }

/-- The anonymous struct `UpdateContactAttributes` marshals. -/
structure UpdateContactAttributesData where
  CustomParams : Option (List Param)
  deriving DecidableEq, Repr

/-- The encoding of the body of `UpdateContactAttributes`, by its field tag. -/
def UpdateContactAttributesData.toJSON (d : UpdateContactAttributesData) : JSON :=
  .object [(str "customParams", json.slice Param.toJSON d.CustomParams)]

/-- The method `UpdateContactAttributes`. -/
def Client.UpdateContactAttributes (c : Client) (whatsappNumber : GoString)
    (params : Option (List Param)) : Run :=
  match json.Marshal (UpdateContactAttributesData.toJSON { CustomParams := params }) with
  | .error err => { sent := [], outcome := .returned none (some err) }
  | .ok body =>
    c.do_ (str "POST") (str "/api/v1/updateContactAttributes/" ++ whatsappNumber) (some body) []

/-- The method `RotateToken`. -/
def Client.RotateToken (c : Client) (token : GoString) : Run :=
  c.do_ (str "POST") (str "/api/v1/rotateToken") none [(str "token", token)]

/-- The struct `data` of `AddContact`. -/
structure AddContactData where
  Name : GoString
  CustomParams : Option (List Param)
  deriving DecidableEq, Repr

/-- The encoding of the body of `AddContact`, by its field tags. -/
def AddContactData.toJSON (d : AddContactData) : JSON :=
  .object [(str "name", .string d.Name),
           (str "customParams", json.slice Param.toJSON d.CustomParams)]

/-- The method `AddContact`. -/
def Client.AddContact (c : Client) (whatsappNumber name : GoString)
    (params : Option (List Param)) : Run :=
  match json.Marshal (AddContactData.toJSON { Name := name, CustomParams := params }) with
  | .error err => { sent := [], outcome := .returned none (some err) }
  | .ok body => c.do_ (str "POST") (str "/api/v1/addContact/" ++ whatsappNumber) (some body) []

/-- The method `SendSessionFile`; `boundary` is the boundary the multipart
writer draws at random. -/
def Client.SendSessionFile (c : Client) (boundary : GoString) (whatsappNumber caption : GoString)
    (file : os.File) : Run :=
  let writer := multipart.NewWriter boundary
  let writer := writer.CreateFormFile (str "file") (filepath.Base file.name)
  let writer := writer.Write file.data
  match file.readErr with
  | some err => { sent := [], outcome := .returned none (some err) }
  | none =>
    let writer := writer.Close
    c.doMultipart (str "POST") (str "/api/v1/sendSessionFile/" ++ whatsappNumber)
      (some writer.buf) [(str "caption", caption)]

/-- The method `SendSessionMessage`. -/
def Client.SendSessionMessage (c : Client) (whatsappNumber messageText : GoString) : Run :=
  c.do_ (str "POST") (str "/api/v1/sendSessionMessage/" ++ whatsappNumber) none
    [(str "messageText", messageText)]

/-- The struct `data` of `SendTemplateMessage`. -/
structure SendTemplateMessageData where
  TemplateName : GoString
  BroadcastName : GoString
  Parameters : Option (List Param)
  deriving DecidableEq, Repr

/-- The encoding of the body of `SendTemplateMessage`, by its field tags. -/
def SendTemplateMessageData.toJSON (d : SendTemplateMessageData) : JSON :=
  .object [(str "template_name", .string d.TemplateName),
           (str "broadcast_name", .string d.BroadcastName),
           (str "parameters", json.slice Param.toJSON d.Parameters)]

/-- The method `SendTemplateMessage`. -/
def Client.SendTemplateMessage (c : Client) (whatsappNumber templateName broadcastName : GoString)
    (params : Option (List Param)) : Run :=
  match json.Marshal (SendTemplateMessageData.toJSON
      { TemplateName := templateName, BroadcastName := broadcastName,
        Parameters := params }) with
  | .error err => { sent := [], outcome := .returned none (some err) }
  | .ok body =>
    c.do_ (str "POST") (str "/api/v1/sendTemplateMessage") (some body)
      [(str "whatsappNumber", whatsappNumber)]

/-- The type `Receiver`. -/
structure Receiver where
  WhatsappNumber : GoString
  CustomParams : Option (List Param)
  deriving DecidableEq, Repr

/-- The encoding of a `Receiver`, by its field tags. -/
def Receiver.toJSON (r : Receiver) : JSON :=
  .object [(str "whatsappNumber", .string r.WhatsappNumber),
           (str "customParams", json.slice Param.toJSON r.CustomParams)]

/-- The decoder storing a JSON value into a `Receiver`. -/
def Receiver.store (cur : Receiver) (v : JSON) : Except Error Receiver :=
  json.storeStruct [str "whatsappNumber", str "customParams"]
    (fun i cur v =>
      match i with
      | 0 => (json.storeString cur.WhatsappNumber v).map (fun s => { cur with WhatsappNumber := s })
      | _ => (json.storeSlice Param.store Param.zero cur.CustomParams v).map
               (fun s => { cur with CustomParams := s }))
    cur v

/-- The zero value of `Receiver`. -/
def Receiver.zero : Receiver := { WhatsappNumber := [], CustomParams := none }

/-- The struct `data` of `SendTemplateMessages`. -/
structure SendTemplateMessagesData where
  TemplateName : GoString
  BroadcastName : GoString
  Receivers : Option (List Receiver)
  deriving DecidableEq, Repr

/-- The encoding of the body of `SendTemplateMessages`, by its field tags. -/
def SendTemplateMessagesData.toJSON (d : SendTemplateMessagesData) : JSON :=
  .object [(str "template_name", .string d.TemplateName),
           (str "broadcast_name", .string d.BroadcastName),
           (str "receivers", json.slice Receiver.toJSON d.Receivers)]

/-- The method `SendTemplateMessages`. -/
def Client.SendTemplateMessages (c : Client) (templateName brodcastName : GoString)
    (receivers : Option (List Receiver)) : Run :=
  match json.Marshal (SendTemplateMessagesData.toJSON
      { TemplateName := templateName, BroadcastName := brodcastName,
        Receivers := receivers }) with
  | .error err => { sent := [], outcome := .returned none (some err) }
  | .ok body => c.do_ (str "POST") (str "/api/v1/sendTemplateMessages") (some body) []

/-- The struct `data` of `SendTemplateMessageCSV`. -/
structure SendTemplateMessageCSVData where
  WhatsappNumbersCSV : GoString
  deriving DecidableEq, Repr

/-- The encoding of the body of `SendTemplateMessageCSV`, by its field tag. -/
def SendTemplateMessageCSVData.toJSON (d : SendTemplateMessageCSVData) : JSON :=
  .object [(str "whatsapp_numbers_csv", .string d.WhatsappNumbersCSV)]

/-- The method `SendTemplateMessageCSV`: the body is the zero value of the
struct with the one field `whatsapp_numbers_csv`. -/
def Client.SendTemplateMessageCSV (c : Client) (templateName broadcastName : GoString) : Run :=
  match json.Marshal (SendTemplateMessageCSVData.toJSON { WhatsappNumbersCSV := [] }) with
  | .error err => { sent := [], outcome := .returned none (some err) }
  | .ok body =>
    c.do_ (str "POST") (str "/api/v1/sendTemplateMessageCSV") (some body)
      [(str "template_name", templateName), (str "broadcast_name", broadcastName)]

/-- The type `Media`. -/
structure Media where
  Url : GoString
  FileName : GoString
  deriving DecidableEq, Repr

/-- The encoding of a `Media`, by its field tags. -/
def Media.toJSON (m : Media) : JSON :=
  .object [(str "url", .string m.Url), (str "fileName", .string m.FileName)]

/-- The type `Header`; its field `Type` is written `Type_`. -/
structure Header where
  Type_ : GoString
  Text : GoString
  Media : Media
  deriving DecidableEq, Repr

/-- The encoding of a `Header`, by its field tags. -/
def Header.toJSON (h : Header) : JSON :=
  .object [(str "type", .string h.Type_), (str "text", .string h.Text),
           (str "media", h.Media.toJSON)]

/-- The type `Btn`. -/
structure Btn where
  Text : GoString
  deriving DecidableEq, Repr

/-- The encoding of a `Btn`, by its field tag. -/
def Btn.toJSON (b : Btn) : JSON := .object [(str "text", .string b.Text)]

/-- The decoder storing a JSON value into a `Media`. -/
def Media.store (cur : Media) (v : JSON) : Except Error Media :=
  json.storeStruct [str "url", str "fileName"]
    (fun i cur v =>
      match i with
      | 0 => (json.storeString cur.Url v).map (fun s => { cur with Url := s })
      | _ => (json.storeString cur.FileName v).map (fun s => { cur with FileName := s }))
    cur v

/-- The zero value of `Media`. -/
def Media.zero : Media := { Url := [], FileName := [] }

/-- The decoder storing a JSON value into a `Header`. -/
def Header.store (cur : Header) (v : JSON) : Except Error Header :=
  json.storeStruct [str "type", str "text", str "media"]
    (fun i cur v =>
      match i with
      | 0 => (json.storeString cur.Type_ v).map (fun s => { cur with Type_ := s })
      | 1 => (json.storeString cur.Text v).map (fun s => { cur with Text := s })
      | _ => (Media.store cur.Media v).map (fun s => { cur with Media := s }))
    cur v

/-- The zero value of `Header`. -/
def Header.zero : Header := { Type_ := [], Text := [], Media := Media.zero }

/-- The decoder storing a JSON value into a `Btn`. -/
def Btn.store (cur : Btn) (v : JSON) : Except Error Btn :=
  json.storeStruct [str "text"]
    (fun _ cur v => (json.storeString cur.Text v).map (fun s => { cur with Text := s }))
    cur v

/-- The zero value of `Btn`. -/
def Btn.zero : Btn := { Text := [] }

/-- The struct `data` of `SendInteractiveButtonsMessage`. -/
structure SendInteractiveButtonsMessageData where
  Header : Header
  Body : GoString
  Footer : GoString
  Buttons : Option (List Btn)
  deriving DecidableEq, Repr

/-- The encoding of the body of `SendInteractiveButtonsMessage`, by its field
tags. -/
def SendInteractiveButtonsMessageData.toJSON (d : SendInteractiveButtonsMessageData) : JSON :=
  .object [(str "header", d.Header.toJSON), (str "body", .string d.Body),
           (str "footer", .string d.Footer), (str "buttons", json.slice Btn.toJSON d.Buttons)]

/-- The method `SendInteractiveButtonsMessage`. -/
def Client.SendInteractiveButtonsMessage (c : Client) (whatsappNumber : GoString)
    (header : Header) (body footer : GoString) (buttons : Option (List Btn)) : Run :=
  match json.Marshal (SendInteractiveButtonsMessageData.toJSON
      { Header := header, Body := body, Footer := footer, Buttons := buttons }) with
  | .error err => { sent := [], outcome := .returned none (some err) }
  | .ok b =>
    c.do_ (str "POST") (str "/api/v1/sendInteractiveButtonsMessage") (some b)
      [(str "whatsappNumber", whatsappNumber)]

/-- The type `Row`. -/
structure Row where
  Title : GoString
  Description : GoString
  deriving DecidableEq, Repr

/-- The encoding of a `Row`, by its field tags. -/
def Row.toJSON (r : Row) : JSON :=
  .object [(str "title", .string r.Title), (str "description", .string r.Description)]

/-- The type `Section`; its field `Rows` is a single `Row`. -/
structure Section where
  Title : GoString
  Rows : Row
  deriving DecidableEq, Repr

/-- The encoding of a `Section`, by its field tags. -/
def Section.toJSON (s : Section) : JSON :=
  .object [(str "title", .string s.Title), (str "rows", s.Rows.toJSON)]

/-- The decoder storing a JSON value into a `Row`. -/
def Row.store (cur : Row) (v : JSON) : Except Error Row :=
  json.storeStruct [str "title", str "description"]
    (fun i cur v =>
      match i with
      | 0 => (json.storeString cur.Title v).map (fun s => { cur with Title := s })
      | _ => (json.storeString cur.Description v).map (fun s => { cur with Description := s }))
    cur v

/-- The zero value of `Row`. -/
def Row.zero : Row := { Title := [], Description := [] }

/-- The decoder storing a JSON value into a `Section`. -/
def Section.store (cur : Section) (v : JSON) : Except Error Section :=
  json.storeStruct [str "title", str "rows"]
    (fun i cur v =>
      match i with
      | 0 => (json.storeString cur.Title v).map (fun s => { cur with Title := s })
      | _ => (Row.store cur.Rows v).map (fun s => { cur with Rows := s }))
    cur v

/-- The zero value of `Section`. -/
def Section.zero : Section := { Title := [], Rows := Row.zero }

/-- The struct `data` of `SendInteractiveListMessage`. -/
structure SendInteractiveListMessageData where
  Header : GoString
  Body : GoString
  Footer : GoString
  ButtonText : GoString
  Sections : Option (List Section)
  deriving DecidableEq, Repr

/-- The encoding of the body of `SendInteractiveListMessage`, by its field
tags. -/
def SendInteractiveListMessageData.toJSON (d : SendInteractiveListMessageData) : JSON :=
  .object [(str "header", .string d.Header), (str "body", .string d.Body),
           (str "footer", .string d.Footer), (str "buttonText", .string d.ButtonText),
           (str "sections", json.slice Section.toJSON d.Sections)]

/-- The method `SendInteractiveListMessage`. -/
def Client.SendInteractiveListMessage (c : Client)
    (whatsappNumber header body footer buttonText : GoString)
    (sections : Option (List Section)) : Run :=
  match json.Marshal (SendInteractiveListMessageData.toJSON
      { Header := header, Body := body, Footer := footer, ButtonText := buttonText,
        Sections := sections }) with
  | .error err => { sent := [], outcome := .returned none (some err) }
  | .ok b =>
    c.do_ (str "POST") (str "/api/v1/sendInteractiveListMessage") (some b)
      [(str "whatsappNumber", whatsappNumber)]

/-- The method `AssignOperator`. -/
def Client.AssignOperator (c : Client) (email whatsappNumber : GoString) : Run :=
  (c.do_ (str "GET") (str "/api/v1/getMedia") none
    [(str "email", email), (str "whatsappNumber", whatsappNumber)]).unpack

/-! ## The payloads through `json.Marshal` and `json.Unmarshal` -/

mutual
/-- The measure of a tree that bounds the nested calls the decoder makes on
its text. -/
def JSON.size : JSON → Nat
  | .array xs => 1 + JSON.sizeElems xs
  | .object kvs => 1 + JSON.sizeFields kvs
  | _ => 1
/-- The measure of the elements of an array. -/
def JSON.sizeElems : List JSON → Nat
  | [] => 0
  | x :: xs => 1 + JSON.size x + JSON.sizeElems xs
/-- The measure of the members of an object. -/
def JSON.sizeFields : List (GoString × JSON) → Nat
  | [] => 0
  | (_, v) :: rest => 1 + JSON.size v + JSON.sizeFields rest
end

mutual
/-- A tree without number literals: strings, structs and slices encode to
such trees. -/
def JSON.plain : JSON → Bool
  | .number _ => false
  | .array xs => JSON.plainElems xs
  | .object kvs => JSON.plainFields kvs
  | _ => true
/-- The elements of an array are without number literals. -/
def JSON.plainElems : List JSON → Bool
  | [] => true
  | x :: xs => JSON.plain x && JSON.plainElems xs
/-- The members of an object are without number literals. -/
def JSON.plainFields : List (GoString × JSON) → Bool
  | [] => true
  | (_, v) :: rest => JSON.plain v && JSON.plainFields rest
end

mutual
/-- The tree the encoder in effect writes: every string and key with the
bytes that are not well-formed UTF-8 replaced by U+FFFD. -/
def JSON.coerce : JSON → JSON
  | .null => .null
  | .bool b => .bool b
  | .number text => .number text
  | .string s => .string (json.coerceUTF8 s)
  | .array xs => .array (JSON.coerceElems xs)
  | .object kvs => .object (JSON.coerceFields kvs)
/-- The elements of an array, each as the encoder writes it. -/
def JSON.coerceElems : List JSON → List JSON
  | [] => []
  | x :: xs => JSON.coerce x :: JSON.coerceElems xs
/-- The members of an object, each as the encoder writes it. -/
def JSON.coerceFields : List (GoString × JSON) → List (GoString × JSON)
  | [] => []
  | (k, v) :: rest => (json.coerceUTF8 k, JSON.coerce v) :: JSON.coerceFields rest
end

/-- Encoding a value with `json.Marshal` and decoding the bytes with
`json.Unmarshal` into a zero value of the same type. -/
def json.roundTrip {α : Type} (enc : α → JSON) (store : α → JSON → Except Error α) (zero : α)
    (x : α) : Except Error α :=
  match json.Marshal (enc x) with
  | .error e => .error e
  | .ok data => json.Unmarshal data (store zero)

/-- A slice with each element replaced by its image; nil stays nil. -/
def json.sliceMap {α : Type} (f : α → α) (s : Option (List α)) : Option (List α) :=
  s.map (List.map f)

/-- Every element of a slice satisfies `p`. -/
def json.sliceAll {α : Type} (p : α → Bool) (s : Option (List α)) : Bool :=
  (s.getD []).all p

/-- A `Param` with its strings as the encoder writes them. -/
def Param.coerce (p : Param) : Param :=
  { Name := json.coerceUTF8 p.Name, Value := json.coerceUTF8 p.Value }

/-- Every string of a `Param` is valid UTF-8. -/
def Param.valid (p : Param) : Bool :=
  utf8.ValidString p.Name && utf8.ValidString p.Value

/-- A `Receiver` with its strings as the encoder writes them. -/
def Receiver.coerce (r : Receiver) : Receiver :=
  { WhatsappNumber := json.coerceUTF8 r.WhatsappNumber,
    CustomParams := json.sliceMap Param.coerce r.CustomParams }

/-- Every string of a `Receiver` is valid UTF-8. -/
def Receiver.valid (r : Receiver) : Bool :=
  utf8.ValidString r.WhatsappNumber && json.sliceAll Param.valid r.CustomParams

/-- A `Media` with its strings as the encoder writes them. -/
def Media.coerce (m : Media) : Media :=
  { Url := json.coerceUTF8 m.Url, FileName := json.coerceUTF8 m.FileName }

/-- Every string of a `Media` is valid UTF-8. -/
def Media.valid (m : Media) : Bool :=
  utf8.ValidString m.Url && utf8.ValidString m.FileName

/-- A `Header` with its strings as the encoder writes them. -/
def Header.coerce (h : Header) : Header :=
  { Type_ := json.coerceUTF8 h.Type_, Text := json.coerceUTF8 h.Text,
    Media := h.Media.coerce }

/-- Every string of a `Header` is valid UTF-8. -/
def Header.valid (h : Header) : Bool :=
  utf8.ValidString h.Type_ && utf8.ValidString h.Text && h.Media.valid

/-- A `Btn` with its string as the encoder writes it. -/
def Btn.coerce (b : Btn) : Btn := { Text := json.coerceUTF8 b.Text }

/-- The string of a `Btn` is valid UTF-8. -/
def Btn.valid (b : Btn) : Bool := utf8.ValidString b.Text

/-- A `Row` with its strings as the encoder writes them. -/
def Row.coerce (r : Row) : Row :=
  { Title := json.coerceUTF8 r.Title, Description := json.coerceUTF8 r.Description }

/-- Every string of a `Row` is valid UTF-8. -/
def Row.valid (r : Row) : Bool :=
  utf8.ValidString r.Title && utf8.ValidString r.Description

/-- A `Section` with its strings as the encoder writes them. -/
def Section.coerce (s : Section) : Section :=
  { Title := json.coerceUTF8 s.Title, Rows := s.Rows.coerce }

/-- Every string of a `Section` is valid UTF-8. -/
def Section.valid (s : Section) : Bool :=
  utf8.ValidString s.Title && s.Rows.valid

/-- The decoder storing a JSON value into the body of
`UpdateContactAttributes`. -/
def UpdateContactAttributesData.store (cur : UpdateContactAttributesData) (v : JSON) :
    Except Error UpdateContactAttributesData :=
  json.storeStruct [str "customParams"]
    (fun _ cur v => (json.storeSlice Param.store Param.zero cur.CustomParams v).map
      (fun s => { cur with CustomParams := s }))
    cur v

/-- The zero value of the body of `UpdateContactAttributes`. -/
def UpdateContactAttributesData.zero : UpdateContactAttributesData := { CustomParams := none }

/-- The body of `UpdateContactAttributes` with its strings as the encoder
writes them. -/
def UpdateContactAttributesData.coerce (d : UpdateContactAttributesData) :
    UpdateContactAttributesData :=
  { CustomParams := json.sliceMap Param.coerce d.CustomParams }

/-- Every string of the body of `UpdateContactAttributes` is valid UTF-8. -/
def UpdateContactAttributesData.valid (d : UpdateContactAttributesData) : Bool :=
  json.sliceAll Param.valid d.CustomParams

/-- The decoder storing a JSON value into the body of `AddContact`. -/
def AddContactData.store (cur : AddContactData) (v : JSON) : Except Error AddContactData :=
  json.storeStruct [str "name", str "customParams"]
    (fun i cur v =>
      match i with
      | 0 => (json.storeString cur.Name v).map (fun s => { cur with Name := s })
      | _ => (json.storeSlice Param.store Param.zero cur.CustomParams v).map
               (fun s => { cur with CustomParams := s }))
    cur v

/-- The zero value of the body of `AddContact`. -/
def AddContactData.zero : AddContactData := { Name := [], CustomParams := none }

/-- The body of `AddContact` with its strings as the encoder writes them. -/
def AddContactData.coerce (d : AddContactData) : AddContactData :=
  { Name := json.coerceUTF8 d.Name, CustomParams := json.sliceMap Param.coerce d.CustomParams }

/-- Every string of the body of `AddContact` is valid UTF-8. -/
def AddContactData.valid (d : AddContactData) : Bool :=
  utf8.ValidString d.Name && json.sliceAll Param.valid d.CustomParams

/-- The decoder storing a JSON value into the body of `SendTemplateMessage`. -/
def SendTemplateMessageData.store (cur : SendTemplateMessageData) (v : JSON) :
    Except Error SendTemplateMessageData :=
  json.storeStruct [str "template_name", str "broadcast_name", str "parameters"]
    (fun i cur v =>
      match i with
      | 0 => (json.storeString cur.TemplateName v).map (fun s => { cur with TemplateName := s })
      | 1 => (json.storeString cur.BroadcastName v).map (fun s => { cur with BroadcastName := s })
      | _ => (json.storeSlice Param.store Param.zero cur.Parameters v).map
               (fun s => { cur with Parameters := s }))
    cur v

/-- The zero value of the body of `SendTemplateMessage`. -/
def SendTemplateMessageData.zero : SendTemplateMessageData :=
  { TemplateName := [], BroadcastName := [], Parameters := none }

/-- The body of `SendTemplateMessage` with its strings as the encoder writes
them. -/
def SendTemplateMessageData.coerce (d : SendTemplateMessageData) : SendTemplateMessageData :=
  { TemplateName := json.coerceUTF8 d.TemplateName,
    BroadcastName := json.coerceUTF8 d.BroadcastName,
    Parameters := json.sliceMap Param.coerce d.Parameters }

/-- Every string of the body of `SendTemplateMessage` is valid UTF-8. -/
def SendTemplateMessageData.valid (d : SendTemplateMessageData) : Bool :=
  utf8.ValidString d.TemplateName && utf8.ValidString d.BroadcastName
    && json.sliceAll Param.valid d.Parameters

/-- The decoder storing a JSON value into the body of `SendTemplateMessages`. -/
def SendTemplateMessagesData.store (cur : SendTemplateMessagesData) (v : JSON) :
    Except Error SendTemplateMessagesData :=
  json.storeStruct [str "template_name", str "broadcast_name", str "receivers"]
    (fun i cur v =>
      match i with
      | 0 => (json.storeString cur.TemplateName v).map (fun s => { cur with TemplateName := s })
      | 1 => (json.storeString cur.BroadcastName v).map (fun s => { cur with BroadcastName := s })
      | _ => (json.storeSlice Receiver.store Receiver.zero cur.Receivers v).map
               (fun s => { cur with Receivers := s }))
    cur v

/-- The zero value of the body of `SendTemplateMessages`. -/
def SendTemplateMessagesData.zero : SendTemplateMessagesData :=
  { TemplateName := [], BroadcastName := [], Receivers := none }

/-- The body of `SendTemplateMessages` with its strings as the encoder writes
them. -/
def SendTemplateMessagesData.coerce (d : SendTemplateMessagesData) : SendTemplateMessagesData :=
  { TemplateName := json.coerceUTF8 d.TemplateName,
    BroadcastName := json.coerceUTF8 d.BroadcastName,
    Receivers := json.sliceMap Receiver.coerce d.Receivers }

/-- Every string of the body of `SendTemplateMessages` is valid UTF-8. -/
def SendTemplateMessagesData.valid (d : SendTemplateMessagesData) : Bool :=
  utf8.ValidString d.TemplateName && utf8.ValidString d.BroadcastName
    && json.sliceAll Receiver.valid d.Receivers

/-- The decoder storing a JSON value into the body of
`SendInteractiveButtonsMessage`. -/
def SendInteractiveButtonsMessageData.store (cur : SendInteractiveButtonsMessageData)
    (v : JSON) : Except Error SendInteractiveButtonsMessageData :=
  json.storeStruct [str "header", str "body", str "footer", str "buttons"]
    (fun i cur v =>
      match i with
      | 0 => (Header.store cur.Header v).map (fun s => { cur with Header := s })
      | 1 => (json.storeString cur.Body v).map (fun s => { cur with Body := s })
      | 2 => (json.storeString cur.Footer v).map (fun s => { cur with Footer := s })
      | _ => (json.storeSlice Btn.store Btn.zero cur.Buttons v).map
               (fun s => { cur with Buttons := s }))
    cur v

/-- The zero value of the body of `SendInteractiveButtonsMessage`. -/
def SendInteractiveButtonsMessageData.zero : SendInteractiveButtonsMessageData :=
  { Header := Header.zero, Body := [], Footer := [], Buttons := none }

/-- The body of `SendInteractiveButtonsMessage` with its strings as the
encoder writes them. -/
def SendInteractiveButtonsMessageData.coerce (d : SendInteractiveButtonsMessageData) :
    SendInteractiveButtonsMessageData :=
  { Header := d.Header.coerce, Body := json.coerceUTF8 d.Body,
    Footer := json.coerceUTF8 d.Footer, Buttons := json.sliceMap Btn.coerce d.Buttons }

/-- Every string of the body of `SendInteractiveButtonsMessage` is valid
UTF-8. -/
def SendInteractiveButtonsMessageData.valid (d : SendInteractiveButtonsMessageData) : Bool :=
  d.Header.valid && utf8.ValidString d.Body && utf8.ValidString d.Footer
    && json.sliceAll Btn.valid d.Buttons

/-- The decoder storing a JSON value into the body of
`SendInteractiveListMessage`. -/
def SendInteractiveListMessageData.store (cur : SendInteractiveListMessageData) (v : JSON) :
    Except Error SendInteractiveListMessageData :=
  json.storeStruct [str "header", str "body", str "footer", str "buttonText", str "sections"]
    (fun i cur v =>
      match i with
      | 0 => (json.storeString cur.Header v).map (fun s => { cur with Header := s })
      | 1 => (json.storeString cur.Body v).map (fun s => { cur with Body := s })
      | 2 => (json.storeString cur.Footer v).map (fun s => { cur with Footer := s })
      | 3 => (json.storeString cur.ButtonText v).map (fun s => { cur with ButtonText := s })
      | _ => (json.storeSlice Section.store Section.zero cur.Sections v).map
               (fun s => { cur with Sections := s }))
    cur v

/-- The zero value of the body of `SendInteractiveListMessage`. -/
def SendInteractiveListMessageData.zero : SendInteractiveListMessageData :=
  { Header := [], Body := [], Footer := [], ButtonText := [], Sections := none }

/-- The body of `SendInteractiveListMessage` with its strings as the encoder
writes them. -/
def SendInteractiveListMessageData.coerce (d : SendInteractiveListMessageData) :
    SendInteractiveListMessageData :=
  { Header := json.coerceUTF8 d.Header, Body := json.coerceUTF8 d.Body,
    Footer := json.coerceUTF8 d.Footer, ButtonText := json.coerceUTF8 d.ButtonText,
    Sections := json.sliceMap Section.coerce d.Sections }

/-- Every string of the body of `SendInteractiveListMessage` is valid UTF-8. -/
def SendInteractiveListMessageData.valid (d : SendInteractiveListMessageData) : Bool :=
  utf8.ValidString d.Header && utf8.ValidString d.Body && utf8.ValidString d.Footer
    && utf8.ValidString d.ButtonText && json.sliceAll Section.valid d.Sections

/-- The member names of a JSON object, in the order they are written. -/
def JSON.keys : JSON → List GoString
  | .object kvs => kvs.map Prod.fst
  | _ => []

/-- How `utf8.DecodeRune` reads a text that starts with the byte `b`, a byte
outside ASCII: as an invalid byte, or as a well-formed encoding of two, three
or four bytes, one that `utf8.EncodeRune` writes back and that does not depend
on the text after it. -/
inductive utf8.Lead (b : Byte) (rest : GoString) : Prop
  | bad (hd : utf8.DecodeRune (b :: rest) = (utf8.RuneError, 1))
  | two (s1 : Byte) (t : GoString) (r : Nat) (e : rest = s1 :: t)
      (hd : ∀ t2, utf8.DecodeRune (b :: s1 :: t2) = (r, 2))
      (he : utf8.EncodeRune r = [b, s1])
  | three (s1 s2 : Byte) (t : GoString) (r : Nat) (e : rest = s1 :: s2 :: t)
      (hd : ∀ t2, utf8.DecodeRune (b :: s1 :: s2 :: t2) = (r, 3))
      (he : utf8.EncodeRune r = [b, s1, s2])
  | four (s1 s2 s3 : Byte) (t : GoString) (r : Nat) (e : rest = s1 :: s2 :: s3 :: t)
      (hd : ∀ t2, utf8.DecodeRune (b :: s1 :: s2 :: s3 :: t2) = (r, 4))
      (he : utf8.EncodeRune r = [b, s1, s2, s3])

/-- The round trip of a payload shape as the specification asks for it, with
the strings the encoder cannot keep set apart: every value is encoded to an
object with the member names `names`; decoding the bytes into a zero value of
the shape succeeds and gives the value with its strings as the encoder writes
them (`co`), which is the value itself when all its strings are valid UTF-8
(`valid`). -/
def spec.RoundTrips {α : Type} (enc : α → JSON) (store : α → JSON → Except Error α) (zero : α)
    (co : α → α) (valid : α → Bool) (names : List GoString) : Prop :=
  ∀ x : α,
    JSON.keys (enc x) = names ∧
    json.roundTrip enc store zero x = .ok (co x) ∧
    (valid x = true → json.roundTrip enc store zero x = .ok x)

/-! ## The endpoint methods as one family -/

/-- A call of one of the fifteen public methods, with its arguments. -/
inductive Call
  | GetMessages (whatsappNumber : GoString)
  | GetMessageTemplates
  | GetContactsList
  | GetMedia (fileName : GoString)
  | UpdateContactAttributes (whatsappNumber : GoString) (params : Option (List Param))
  | RotateToken (token : GoString)
  | AddContact (whatsappNumber name : GoString) (params : Option (List Param))
  | SendSessionFile (boundary whatsappNumber caption : GoString) (file : os.File)
  | SendSessionMessage (whatsappNumber messageText : GoString)
  | SendTemplateMessage (whatsappNumber templateName broadcastName : GoString)
      (params : Option (List Param))
  | SendTemplateMessages (templateName brodcastName : GoString)
      (receivers : Option (List Receiver))
  | SendTemplateMessageCSV (templateName broadcastName : GoString)
  | SendInteractiveButtonsMessage (whatsappNumber : GoString) (header : Header)
      (body footer : GoString) (buttons : Option (List Btn))
  | SendInteractiveListMessage (whatsappNumber header body footer buttonText : GoString)
      (sections : Option (List Section))
  | AssignOperator (email whatsappNumber : GoString)

/-- Run a call on a client. -/
def Client.call (c : Client) : Call → Run
  | .GetMessages n => c.GetMessages n
  | .GetMessageTemplates => c.GetMessageTemplates
  | .GetContactsList => c.GetContactsList
  | .GetMedia f => c.GetMedia f
  | .UpdateContactAttributes n ps => c.UpdateContactAttributes n ps
  | .RotateToken t => c.RotateToken t
  | .AddContact n name ps => c.AddContact n name ps
  | .SendSessionFile b n cap f => c.SendSessionFile b n cap f
  | .SendSessionMessage n m => c.SendSessionMessage n m
  | .SendTemplateMessage n t b ps => c.SendTemplateMessage n t b ps
  | .SendTemplateMessages t b rs => c.SendTemplateMessages t b rs
  | .SendTemplateMessageCSV t b => c.SendTemplateMessageCSV t b
  | .SendInteractiveButtonsMessage n h b f bs => c.SendInteractiveButtonsMessage n h b f bs
  | .SendInteractiveListMessage n h b f bt ss => c.SendInteractiveListMessage n h b f bt ss
  | .AssignOperator e n => c.AssignOperator e n

/-- The content type the specification gives a call: `multipart/form-data`
for the file upload, `application/json` for every other method. -/
def Call.contentType : Call → GoString
  | .SendSessionFile _ _ _ _ => str "multipart/form-data"
  | _ => str "application/json"

/-- The fifteen public methods. -/
inductive Method
  | GetMessages | GetMessageTemplates | GetContactsList | GetMedia | UpdateContactAttributes
  | RotateToken | AddContact | SendSessionFile | SendSessionMessage | SendTemplateMessage
  | SendTemplateMessages | SendTemplateMessageCSV | SendInteractiveButtonsMessage
  | SendInteractiveListMessage | AssignOperator
  deriving DecidableEq, Repr

/-- The method a call is a call of. -/
def Call.method : Call → Method
  | .GetMessages _ => .GetMessages
  | .GetMessageTemplates => .GetMessageTemplates
  | .GetContactsList => .GetContactsList
  | .GetMedia _ => .GetMedia
  | .UpdateContactAttributes _ _ => .UpdateContactAttributes
  | .RotateToken _ => .RotateToken
  | .AddContact _ _ _ => .AddContact
  | .SendSessionFile _ _ _ _ => .SendSessionFile
  | .SendSessionMessage _ _ => .SendSessionMessage
  | .SendTemplateMessage _ _ _ _ => .SendTemplateMessage
  | .SendTemplateMessages _ _ _ => .SendTemplateMessages
  | .SendTemplateMessageCSV _ _ => .SendTemplateMessageCSV
  | .SendInteractiveButtonsMessage _ _ _ _ _ => .SendInteractiveButtonsMessage
  | .SendInteractiveListMessage _ _ _ _ _ _ => .SendInteractiveListMessage
  | .AssignOperator _ _ => .AssignOperator

/-- The endpoint table of the specification (section 6): the HTTP method of
each public method. -/
def Method.verb : Method → GoString
  | .GetMessages | .GetMessageTemplates | .GetContactsList | .GetMedia | .AssignOperator =>
    str "GET"
  | _ => str "POST"

/-- The endpoint table of the specification (section 6): the fixed part of
the path of each public method. -/
def Method.route : Method → GoString
  | .GetMessages => str "/api/v1/getMessages/"
  | .GetMessageTemplates => str "/api/v1/getMessageTemplates"
  | .GetContactsList => str "/api/v1/getContacts"
  | .GetMedia => str "/api/v1/getMedia"
  | .UpdateContactAttributes => str "/api/v1/updateContactAttributes/"
  | .RotateToken => str "/api/v1/rotateToken"
  | .AddContact => str "/api/v1/addContact/"
  | .SendSessionFile => str "/api/v1/sendSessionFile/"
  | .SendSessionMessage => str "/api/v1/sendSessionMessage/"
  | .SendTemplateMessage => str "/api/v1/sendTemplateMessage"
  | .SendTemplateMessages => str "/api/v1/sendTemplateMessages"
  | .SendTemplateMessageCSV => str "/api/v1/sendTemplateMessageCSV"
  | .SendInteractiveButtonsMessage => str "/api/v1/sendInteractiveButtonsMessage"
  | .SendInteractiveListMessage => str "/api/v1/sendInteractiveListMessage"
  | .AssignOperator => str "/api/v1/getMedia"

/-- The phone number a call puts in the path (`{number}` in the endpoint
table), empty for the methods without one. -/
def Call.pathArg : Call → GoString
  | .GetMessages n => n
  | .UpdateContactAttributes n _ => n
  | .AddContact n _ _ => n
  | .SendSessionFile _ n _ _ => n
  | .SendSessionMessage n _ => n
  | _ => []

/-- The named query parameters of a call, as the specification lists them. -/
def Call.queryParams : Call → List (GoString × GoString)
  | .GetMedia fileName => [(str "fileName", fileName)]
  | .RotateToken token => [(str "token", token)]
  | .SendSessionFile _ _ caption _ => [(str "caption", caption)]
  | .SendSessionMessage _ messageText => [(str "messageText", messageText)]
  | .SendTemplateMessage n _ _ _ => [(str "whatsappNumber", n)]
  | .SendInteractiveButtonsMessage n _ _ _ _ => [(str "whatsappNumber", n)]
  | .SendInteractiveListMessage n _ _ _ _ _ => [(str "whatsappNumber", n)]
  | .SendTemplateMessageCSV t b => [(str "template_name", t), (str "broadcast_name", b)]
  | .AssignOperator email n => [(str "email", email), (str "whatsappNumber", n)]
  | _ => []

/-- The error that stops a call before it builds its request: only the file
upload can stop there, on a read error of its file. -/
def Call.readError : Call → Option Error
  | .SendSessionFile _ _ _ file => file.readErr
  | _ => none

/-- The body a call gives its request: nil for the methods that send none,
else the bytes the method marshals or assembles. -/
def Call.requestBody : Call → Option Bytes
  | .UpdateContactAttributes _ params =>
    some (JSON.render (UpdateContactAttributesData.toJSON { CustomParams := params }))
  | .AddContact _ name params =>
    some (JSON.render (AddContactData.toJSON { Name := name, CustomParams := params }))
  | .SendSessionFile boundary _ _ file =>
    some (((multipart.NewWriter boundary).CreateFormFile (str "file")
      (filepath.Base file.name)).Write file.data).Close.buf
  | .SendTemplateMessage _ templateName broadcastName params =>
    some (JSON.render (SendTemplateMessageData.toJSON
      { TemplateName := templateName, BroadcastName := broadcastName, Parameters := params }))
  | .SendTemplateMessages templateName brodcastName receivers =>
    some (JSON.render (SendTemplateMessagesData.toJSON
      { TemplateName := templateName, BroadcastName := brodcastName, Receivers := receivers }))
  | .SendTemplateMessageCSV _ _ =>
    some (JSON.render (SendTemplateMessageCSVData.toJSON { WhatsappNumbersCSV := [] }))
  | .SendInteractiveButtonsMessage _ header body footer buttons =>
    some (JSON.render (SendInteractiveButtonsMessageData.toJSON
      { Header := header, Body := body, Footer := footer, Buttons := buttons }))
  | .SendInteractiveListMessage _ header body footer buttonText sections =>
    some (JSON.render (SendInteractiveListMessageData.toJSON
      { Header := header, Body := body, Footer := footer, ButtonText := buttonText,
        Sections := sections }))
  | _ => none

/-! ## The request bodies as the specification writes them -/

/-- The JSON value of a slice of `Param` values as the specification describes
it: the array of the objects `{"name":..,"value":..}` in the order of the
slice; `null` for the nil slice. -/
def spec.paramsTree : Option (List Param) → JSON
  | none => .null
  | some ps => .array (ps.map (fun p =>
      .object [(str "name", .string p.Name), (str "value", .string p.Value)]))

/-- The body of `AddContact` as a JSON value: the object with the member
`name` followed by the member `customParams`. -/
def spec.addContactTree (name : GoString) (params : Option (List Param)) : JSON :=
  .object [(str "name", .string name), (str "customParams", spec.paramsTree params)]

/-- The body of `SendTemplateMessage` as a JSON value: the object with the
members `template_name`, `broadcast_name` and `parameters`. -/
def spec.templateTree (templateName broadcastName : GoString) (params : Option (List Param)) :
    JSON :=
  .object [(str "template_name", .string templateName),
           (str "broadcast_name", .string broadcastName),
           (str "parameters", spec.paramsTree params)]

/-! ## Concrete clients and networks for the scenarios -/

/-- A base URL of the usual form. -/
def demo.baseUrl : GoString := str "https://live-server.wati.io"

/-- A token. -/
def demo.token : GoString := str "secret-token"

/-- A network that answers every request with status 200 and the body `ok`. -/
def demo.okNet (_ : http.Request) : http.RoundTrip :=
  { resp := some { StatusCode := 200, Body := (str "ok", none) }, err := none }

/-- A network that answers every request with status 401 and the body
`{"error":"invalid token"}`. -/
def demo.unauthorizedNet (_ : http.Request) : http.RoundTrip :=
  { resp := some { StatusCode := 401,
                   Body := (str "\x7b\"error\":\"invalid token\"\x7d", none) },
    err := none }

/-- A network on which every connection is refused: `Do` returns a nil
response and an error. -/
def demo.refusedNet (_ : http.Request) : http.RoundTrip :=
  { resp := none, err := some (.text "dial tcp 127.0.0.1:443: connect: connection refused") }

/-- A network whose responses break off while the body is read. -/
def demo.brokenBodyNet (_ : http.Request) : http.RoundTrip :=
  { resp := some { StatusCode := 200, Body := (str "par", some (.text "unexpected EOF")) },
    err := none }

/-- A boundary of the shape the multipart writer draws: 60 hexadecimal
digits. -/
def demo.boundary : GoString :=
  str "3f1a9c0b7d2e4f6a8b1c3d5e7f9a0b2c4d6e8f0a1b3c5d7e9f1a2b4c6d8e"

end Wati

namespace Wati
open url.encoding

set_option maxRecDepth 100000

/-! ## The two request executors -/

theorem NewRequest_ok {m u : GoString} {b : Option Bytes} {r : http.Request}
    (h : http.NewRequest m u b = .ok r) :
    r.Header = [] ∧ r.Body = b ∧ r.Method = (if m = [] then str "GET" else m) ∧
    ∃ u1, url.Parse u = .ok u1 ∧ r.URL = { u1 with Host := http.removeEmptyPort u1.Host } := by
  unfold http.NewRequest at h
  by_cases hm : http.validMethod (if m = [] then str "GET" else m) = true
  · cases hp : url.Parse u with
    | error e => simp [hm, hp] at h
    | ok u1 =>
      simp only [hm, hp, Bool.not_true, Bool.false_eq_true, if_false] at h
      cases h
      exact ⟨rfl, rfl, rfl, u1, rfl, rfl⟩
  · simp [hm] at h

theorem NewRequest_of_parse {m u : GoString} (b : Option Bytes) {u1 : url.URL}
    (hm : http.validMethod m = true) (h : url.Parse u = .ok u1) :
    ∃ r, http.NewRequest m u b = .ok r := by
  have hne : m ≠ [] := by
    intro h0
    subst h0
    simp [http.validMethod] at hm
  unfold http.NewRequest
  simp [hne, hm, h]

theorem send_sent (c : Client) (req : http.Request) : (c.send req).sent = [req] := by
  unfold Client.send
  simp only
  split
  · rfl
  · split <;> rfl

theorem unpack_sent (r : Run) : r.unpack.sent = r.sent := by
  unfold Run.unpack
  split
  · rfl
  · split <;> rfl

theorem do_sent (c : Client) (m e : GoString) (b : Option Bytes)
    (ps : List (GoString × GoString)) :
    (c.do_ m e b ps).sent =
      match http.NewRequest m (c.baseUrl ++ e) b with
      | .error _ => []
      | .ok r => [c.prepare (str "application/json") r ps] := by
  simp only [Client.do_]
  cases http.NewRequest m (c.baseUrl ++ e) b with
  | error e => rfl
  | ok r => exact send_sent _ _

theorem doMultipart_sent (c : Client) (m e : GoString) (b : Option Bytes)
    (ps : List (GoString × GoString)) :
    (c.doMultipart m e b ps).sent =
      match http.NewRequest m (c.baseUrl ++ e) b with
      | .error _ => []
      | .ok r => [c.prepare (str "multipart/form-data") r ps] := by
  simp only [Client.doMultipart]
  cases http.NewRequest m (c.baseUrl ++ e) b with
  | error e => rfl
  | ok r => exact send_sent _ _

theorem send_unpack (c : Client) (req : http.Request) : (c.send req).unpack = c.send req := by
  unfold Client.send
  simp only
  split
  · rfl
  · split
    · rename_i h
      simp [Run.unpack, h]
    · rename_i h
      have h2 : (ioutil.ReadAll _).2 = none := not_not.mp h
      simp [Run.unpack, h2]

theorem do_unpack (c : Client) (m e : GoString) (b : Option Bytes)
    (ps : List (GoString × GoString)) : (c.do_ m e b ps).unpack = c.do_ m e b ps := by
  simp only [Client.do_]
  cases http.NewRequest m (c.baseUrl ++ e) b with
  | error e => simp [Run.unpack]
  | ok r => exact send_unpack _ _

/-- Every call in one form: it stops on the read error of its file, or on the
error of `http.NewRequest` for the method, the URL `baseUrl ++ route ++ number`
and the body of the call, or it sends the one request built from these with
the headers and the query parameters of the call. -/
theorem call_eq (c : Client) (k : Call) :
    c.call k =
      match k.readError with
      | some err => { sent := [], outcome := .returned none (some err) }
      | none =>
        match http.NewRequest k.method.verb (c.baseUrl ++ (k.method.route ++ k.pathArg))
            k.requestBody with
        | .error err => { sent := [], outcome := .returned none (some err) }
        | .ok r => c.send (c.prepare k.contentType r k.queryParams) := by
  cases k with
  | SendSessionFile b n cap f =>
    cases hf : f.readErr with
    | some err => simp [Client.call, Client.SendSessionFile, hf, Call.readError]
    | none =>
      simp only [Client.call, Client.SendSessionFile, hf, Call.readError, Client.doMultipart,
        Call.method, Method.verb, Method.route, Call.pathArg, Call.contentType,
        Call.queryParams, Call.requestBody]
  | _ =>
    simp only [Client.call, Client.GetMessages, Client.GetMessageTemplates,
      Client.GetContactsList, Client.GetMedia, Client.UpdateContactAttributes,
      Client.RotateToken, Client.AddContact, Client.SendSessionMessage,
      Client.SendTemplateMessage, Client.SendTemplateMessages, Client.SendTemplateMessageCSV,
      Client.SendInteractiveButtonsMessage, Client.SendInteractiveListMessage,
      Client.AssignOperator, json.Marshal, do_unpack, Call.readError,
      Call.method, Method.verb, Method.route, Call.pathArg, Call.contentType,
      Call.queryParams, Call.requestBody, List.append_nil]
    simp only [Client.do_]

theorem call_sent_length (c : Client) (k : Call) : (c.call k).sent.length ≤ 1 := by
  rw [call_eq c k]
  split
  · simp
  · split
    · simp
    · simp [send_sent]

theorem call_sent_mem {c : Client} {k : Call} {req : http.Request}
    (h : req ∈ (c.call k).sent) :
    ∃ r, k.readError = none ∧
      http.NewRequest k.method.verb (c.baseUrl ++ (k.method.route ++ k.pathArg))
        k.requestBody = .ok r ∧
      req = c.prepare k.contentType r k.queryParams ∧ c.call k = c.send req := by
  rw [call_eq c k] at h ⊢
  cases hr : k.readError with
  | some err => simp [hr] at h
  | none =>
    simp only [hr] at h ⊢
    cases hn : http.NewRequest k.method.verb (c.baseUrl ++ (k.method.route ++ k.pathArg))
        k.requestBody with
    | error e => simp [hn] at h
    | ok r =>
      simp only [hn, send_sent, List.mem_singleton] at h
      subst h
      simp

theorem verb_valid (m : Method) : http.validMethod m.verb = true := by
  cases m <;> decide

/-! ## C1: the headers of every request -/

theorem prepare_header (c : Client) (ct : GoString) (r : http.Request)
    (ps : List (GoString × GoString)) (h : r.Header = []) :
    (c.prepare ct r ps).Header =
      [(str "Content-Type", [ct]), (str "Authorization", [str "Bearer " ++ c.token])] := by
  have h1 : http.CanonicalMIMEHeaderKey (str "Content-Type") = str "Content-Type" := by decide
  have h2 : http.CanonicalMIMEHeaderKey (str "Authorization") = str "Authorization" := by decide
  have h3 : str "Content-Type" ≠ str "Authorization" := by decide
  simp only [Client.prepare, http.Header.Add, h, h1, h2, http.Header.lookup, http.Header.store,
    List.nil_append, h3, if_false]

/-- C1.  Every request an endpoint method of a client built by `NewClient`
hands to the transport carries the header `Authorization` with the one value
`"Bearer " ++ token` and the header `Content-Type` with the one value
`application/json`, or `multipart/form-data` when the method is
`SendSessionFile`; the request has no other header. -/
theorem request_headers (net : http.Request → http.RoundTrip) (baseUrl token : GoString)
    (call : Call) (req : http.Request)
    (hsent : req ∈ ((NewClient net baseUrl token).call call).sent) :
    req.Header.Values (str "Authorization") = [str "Bearer " ++ token] ∧
    req.Header.Values (str "Content-Type") =
      [if call.method = .SendSessionFile then str "multipart/form-data"
       else str "application/json"] ∧
    req.Header.map Prod.fst = [str "Content-Type", str "Authorization"] := by
  obtain ⟨r, -, hn, hreq, -⟩ := call_sent_mem hsent
  have hh := prepare_header (NewClient net baseUrl token) call.contentType r call.queryParams
    (NewRequest_ok hn).1
  have h1 : http.CanonicalMIMEHeaderKey (str "Content-Type") = str "Content-Type" := by decide
  have h2 : http.CanonicalMIMEHeaderKey (str "Authorization") = str "Authorization" := by decide
  have h3 : str "Content-Type" ≠ str "Authorization" := by decide
  have hct : call.contentType = (if call.method = .SendSessionFile then str "multipart/form-data"
       else str "application/json") := by
    cases call <;> simp [Call.contentType, Call.method]
  rw [hreq, http.Header.Values, http.Header.Values, hh, h1, h2, ← hct]
  simp [http.Header.lookup, h3, NewClient]

/-- C1, at a concrete call: the upload of a file by a client with the token
`secret-token` sends a request, and that request carries the two headers. -/
theorem request_headers_witness :
    ∃ req, req ∈ ((NewClient demo.okNet demo.baseUrl demo.token).call
        (.SendSessionFile (str "b0") (str "91999999999") (str "hi")
          { name := str "/tmp/pic.png", data := str "PNG", readErr := none })).sent ∧
      (req.Header.Values (str "Authorization") = [str "Bearer " ++ demo.token] ∧
       req.Header.Values (str "Content-Type") =
        [if Call.method (.SendSessionFile (str "b0") (str "91999999999") (str "hi")
            { name := str "/tmp/pic.png", data := str "PNG", readErr := none })
              = .SendSessionFile then str "multipart/form-data" else str "application/json"] ∧
       req.Header.map Prod.fst = [str "Content-Type", str "Authorization"]) :=
  have hne : ((NewClient demo.okNet demo.baseUrl demo.token).call
        (.SendSessionFile (str "b0") (str "91999999999") (str "hi")
          { name := str "/tmp/pic.png", data := str "PNG", readErr := none })).sent ≠ [] := by
    decide
  ⟨_, List.head_mem hne, request_headers _ _ _ _ _ (List.head_mem hne)⟩

/-! ## C2: the response body is returned as it is -/

/-- C2.  When the transport answers a request of an endpoint method with a
response and no error, and the body of the response is read to its end
without error, the method returns exactly the bytes of the body and a nil
error, whatever the status code of the response is. -/
theorem response_passthrough (net : http.Request → http.RoundTrip) (baseUrl token : GoString)
    (call : Call) (req : http.Request) (resp : http.Response) (body : Bytes)
    (hsent : req ∈ ((NewClient net baseUrl token).call call).sent)
    (hnet : net req = { resp := some resp, err := none })
    (hbody : resp.Body = (body, none)) :
    ((NewClient net baseUrl token).call call).outcome = .returned (some body) none := by
  obtain ⟨r, -, -, -, hrun⟩ := call_sent_mem hsent
  rw [hrun]
  simp [Client.send, NewClient, hnet, ioutil.ReadAll, hbody]

/-- C2, the scenario of the specification: a response with status 401 and
the body `{"error":"invalid token"}` is returned as these bytes with no
error. -/
theorem response_passthrough_witness :
    ((NewClient demo.unauthorizedNet demo.baseUrl demo.token).call
        (.GetMessages (str "91999999999"))).outcome
      = .returned (some (str "\x7b\"error\":\"invalid token\"\x7d")) none :=
  have hne : ((NewClient demo.unauthorizedNet demo.baseUrl demo.token).call
        (.GetMessages (str "91999999999"))).sent ≠ [] := by decide
  response_passthrough demo.unauthorizedNet demo.baseUrl demo.token
    (.GetMessages (str "91999999999")) _
    { StatusCode := 401, Body := (str "\x7b\"error\":\"invalid token\"\x7d", none) } _
    (List.head_mem hne) rfl rfl

/-! ## C3: errors -/

/-- The part of C3 that holds, for request construction: an error of
`http.NewRequest` is returned as the error of the method, with no bytes, and
no request is sent. -/
theorem construction_error_returned (c : Client) (call : Call) (err : Error)
    (hread : call.readError = none)
    (h : http.NewRequest call.method.verb (c.baseUrl ++ (call.method.route ++ call.pathArg))
      call.requestBody = .error err) :
    c.call call = { sent := [], outcome := .returned none (some err) } := by
  rw [call_eq, hread]
  simp only [h]

/-- The error of request construction at an input: `GetMessages("%zz")`
returns the error of `url.Parse` and sends nothing. -/
theorem construction_error_returned_witness :
    (NewClient demo.okNet demo.baseUrl demo.token).call (.GetMessages (str "%zz"))
      = { sent := [],
          outcome := .returned none (some (.url "parse"
            (str "https://live-server.wati.io/api/v1/getMessages/%zz")
            (.escape (str "%zz")))) } :=
  construction_error_returned _ _ _ rfl (by decide)

/-- The part of C3 that holds, for reading the response: an error met while
the body of the response is read is returned as the error of the method, with
no bytes. -/
theorem read_error_returned (c : Client) (call : Call) (req : http.Request)
    (resp : http.Response) (err : Error)
    (hsent : req ∈ (c.call call).sent)
    (hnet : (c.http.Do req).resp = some resp) (hbody : resp.Body.2 = some err) :
    (c.call call).outcome = .returned none (some err) := by
  obtain ⟨r, -, -, -, hrun⟩ := call_sent_mem hsent
  rw [hrun]
  simp [Client.send, hnet, ioutil.ReadAll, hbody]

/-- The error of reading the body at an input: on a network whose responses
break off, `GetMessages("91999999999")` returns the error `unexpected EOF`
and no bytes. -/
theorem read_error_returned_witness :
    ((NewClient demo.brokenBodyNet demo.baseUrl demo.token).call
        (.GetMessages (str "91999999999"))).outcome
      = .returned none (some (.text "unexpected EOF")) :=
  have hne : ((NewClient demo.brokenBodyNet demo.baseUrl demo.token).call
        (.GetMessages (str "91999999999"))).sent ≠ [] := by decide
  read_error_returned (NewClient demo.brokenBodyNet demo.baseUrl demo.token)
    (.GetMessages (str "91999999999")) _
    { StatusCode := 200, Body := (str "par", some (.text "unexpected EOF")) } _
    (List.head_mem hne) rfl rfl

/-- When `c.http.Do` returns an error and no response, the method does not
return: reading `resp.Body` of the nil response panics. -/
theorem transport_error_panics (c : Client) (call : Call) (req : http.Request)
    (hsent : req ∈ (c.call call).sent) (hnet : (c.http.Do req).resp = none) :
    (c.call call).outcome = .panicked := by
  obtain ⟨r, -, -, -, hrun⟩ := call_sent_mem hsent
  rw [hrun]
  simp [Client.send, hnet]

/-- C3, the failing input: on a network that refuses the connection,
`GetMessages("91999999999")` sends its request and then panics instead of
returning the error of the transport. -/
theorem connection_refused_panics :
    (NewClient demo.refusedNet demo.baseUrl demo.token).GetMessages (str "91999999999")
      = { sent := [{ Method := str "GET",
                     URL := { Scheme := str "https", Host := str "live-server.wati.io",
                              Path := str "/api/v1/getMessages/91999999999" },
                     Header := [(str "Content-Type", [str "application/json"]),
                                (str "Authorization", [str "Bearer secret-token"])],
                     Body := none, ContentLength := 0, Host := str "live-server.wati.io" }],
          outcome := .panicked } := by
  decide

/-! ## C4: the query string -/

theorem hex_roundtrip : ∀ c : Byte,
    url.ishex (url.upperhex (c / 16)) = true ∧ url.ishex (url.upperhex (c % 16)) = true ∧
    url.unhex (url.upperhex (c / 16)) * 16 + url.unhex (url.upperhex (c % 16)) = c := by
  decide!

theorem unescaped_plain : ∀ c : Byte, url.shouldEscape c encodeQueryComponent = false →
    c ≠ ch '%' ∧ c ≠ ch '+' ∧ c ≠ ch '&' ∧ c ≠ ch '=' ∧ c ≠ ch ';' := by
  decide!

theorem upperhex_plain : ∀ c : Byte,
    url.upperhex (c / 16) ≠ ch '&' ∧ url.upperhex (c / 16) ≠ ch '=' ∧
    url.upperhex (c / 16) ≠ ch ';' ∧ url.upperhex (c % 16) ≠ ch '&' ∧
    url.upperhex (c % 16) ≠ ch '=' ∧ url.upperhex (c % 16) ≠ ch ';' := by
  decide!

theorem unescape_cons (c : Byte) (t : GoString) (mode : url.encoding) :
    url.unescape (c :: t) mode =
    if c = ch '%' then
      match t with
      | h1 :: h2 :: rest2 =>
        if !url.ishex h1 || !url.ishex h2 then .error (.escape [c, h1, h2])
        else if mode = encodeHost ∧ url.unhex h1 < 8 ∧ [c, h1, h2] ≠ str "%25" then
          .error (.escape [c, h1, h2])
        else if mode = encodeZone ∧ [c, h1, h2] ≠ str "%25" ∧
            url.unhex h1 * 16 + url.unhex h2 ≠ ch ' ' ∧
            url.shouldEscape (url.unhex h1 * 16 + url.unhex h2) encodeHost then
          .error (.escape [c, h1, h2])
        else
          match url.unescape rest2 mode with
          | .ok t => .ok ((url.unhex h1 * 16 + url.unhex h2) :: t)
          | .error e => .error e
      | _ => .error (.escape (c :: t))
    else if c = ch '+' then
      match url.unescape t mode with
      | .ok t => .ok ((if mode = encodeQueryComponent then ch ' ' else ch '+') :: t)
      | .error e => .error e
    else if (mode = encodeHost ∨ mode = encodeZone) ∧ c < 0x80 ∧ url.shouldEscape c encodeHost then
      .error (.invalidHost [c])
    else
      match url.unescape t mode with
      | .ok t => .ok (c :: t)
      | .error e => .error e := by
  rcases t with _ | ⟨a, _ | ⟨b, r⟩⟩ <;> rfl

theorem unescape_percent (h1 h2 : Byte) (t : GoString)
    (hh1 : url.ishex h1 = true) (hh2 : url.ishex h2 = true) :
    url.unescape (ch '%' :: h1 :: h2 :: t) encodeQueryComponent =
      match url.unescape t encodeQueryComponent with
      | .ok r => .ok ((url.unhex h1 * 16 + url.unhex h2) :: r)
      | .error e => .error e := by
  rw [unescape_cons]
  simp [hh1, hh2]

theorem unescape_plus (t : GoString) :
    url.unescape (ch '+' :: t) encodeQueryComponent =
      match url.unescape t encodeQueryComponent with
      | .ok r => .ok (ch ' ' :: r)
      | .error e => .error e := by
  have : ch '+' ≠ ch '%' := by decide
  rw [unescape_cons]
  simp [this]

theorem unescape_plain (c : Byte) (t : GoString) (h1 : c ≠ ch '%') (h2 : c ≠ ch '+') :
    url.unescape (c :: t) encodeQueryComponent =
      match url.unescape t encodeQueryComponent with
      | .ok r => .ok (c :: r)
      | .error e => .error e := by
  rw [unescape_cons]
  simp [h1, h2]

theorem unescape_escape (s t : GoString) :
    url.unescape (url.escape s encodeQueryComponent ++ t) encodeQueryComponent =
      match url.unescape t encodeQueryComponent with
      | .ok r => .ok (s ++ r)
      | .error e => .error e := by
  induction s with
  | nil => 
    simp only [url.escape, List.flatMap_nil, List.nil_append]
    cases url.unescape t encodeQueryComponent <;> rfl
  | cons c s ih =>
    simp only [url.escape, List.flatMap_cons, List.append_assoc] at ih ⊢
    by_cases hsp : c = ch ' '
    · subst hsp
      simp only [true_and, if_true, List.singleton_append, and_self]
      rw [unescape_plus, ih]
      cases url.unescape t encodeQueryComponent <;> rfl
    · simp only [hsp, false_and, if_false]
      by_cases hesc : url.shouldEscape c encodeQueryComponent = true
      · simp only [hesc, if_true, List.cons_append, List.nil_append]
        obtain ⟨g1, g2, g3⟩ := hex_roundtrip c
        rw [unescape_percent _ _ _ g1 g2, ih, g3]
        cases url.unescape t encodeQueryComponent <;> rfl
      · have hesc2 : url.shouldEscape c encodeQueryComponent = false := by
          simpa using hesc
        obtain ⟨g1, g2, -⟩ := unescaped_plain c hesc2
        simp only [hesc2, Bool.false_eq_true, if_false, List.singleton_append]
        rw [unescape_plain _ _ g1 g2, ih]
        cases url.unescape t encodeQueryComponent <;> rfl

theorem QueryUnescape_QueryEscape (s : GoString) :
    url.QueryUnescape (url.QueryEscape s) = .ok s := by
  have h := unescape_escape s []
  simp only [List.append_nil] at h
  rw [url.QueryUnescape, url.QueryEscape, h]
  simp [url.unescape]

theorem QueryEscape_alphabet (s : GoString) :
    ∀ b ∈ url.QueryEscape s, b ≠ ch '&' ∧ b ≠ ch '=' ∧ b ≠ ch ';' := by
  intro b hb
  simp only [url.QueryEscape, url.escape, List.mem_flatMap] at hb
  obtain ⟨c, -, hc⟩ := hb
  by_cases hsp : c = ch ' '
  · subst hsp
    simp only [true_and, if_true, List.mem_singleton, and_self] at hc
    subst hc
    decide
  · simp only [hsp, false_and, if_false] at hc
    by_cases hesc : url.shouldEscape c encodeQueryComponent = true
    · simp only [hesc, if_true, List.mem_cons, List.mem_singleton, List.mem_nil_iff,
        or_false] at hc
      obtain ⟨g1, g2, g3, g4, g5, g6⟩ := upperhex_plain c
      rcases hc with h | h | h
      · subst h; decide
      · subst h; exact ⟨g1, g2, g3⟩
      · subst h; exact ⟨g4, g5, g6⟩
    · have hesc2 : url.shouldEscape c encodeQueryComponent = false := by
        simpa using hesc
      simp only [hesc2, Bool.false_eq_true, if_false, List.mem_singleton] at hc
      subst hc
      obtain ⟨-, -, g3, g4, g5⟩ := unescaped_plain b hesc2
      exact ⟨g3, g4, g5⟩

theorem cut_not_mem (a : GoString) (c : Byte) (h : c ∉ a) : strings.Cut a c = (a, [], false) := by
  induction a with
  | nil => rfl
  | cons x a ih =>
    simp only [List.mem_cons, not_or] at h
    have hx : x ≠ c := fun e => h.1 e.symm
    simp [strings.Cut, hx, ih h.2]

theorem cut_append (a b : GoString) (c : Byte) (h : c ∉ a) :
    strings.Cut (a ++ c :: b) c = (a, b, true) := by
  induction a with
  | nil => simp [strings.Cut]
  | cons x a ih =>
    simp only [List.mem_cons, not_or] at h
    have hx : x ≠ c := fun e => h.1 e.symm
    simp [strings.Cut, hx, ih h.2]

theorem index_single_none (s : GoString) (c : Byte) (h : c ∉ s) : strings.Index s [c] = none := by
  induction s with
  | nil => simp [strings.Index]
  | cons x s ih =>
    simp only [List.mem_cons, not_or] at h
    have hx : ¬ (c = x) := h.1
    simp [strings.Index, List.isPrefixOf, hx, ih h.2]

theorem contains_semicolon (s : GoString) (h : ch ';' ∉ s) :
    strings.Contains s (str ";") = false := by
  have e : str ";" = [ch ';'] := by decide
  rw [strings.Contains, e, index_single_none s _ h]
  rfl

/-- The piece of an encoded query that holds one key and one value. -/
theorem parseQueryStep_pair (st : url.Values × Option Error) (k v : GoString) :
    url.parseQueryStep st (url.QueryEscape k ++ ch '=' :: url.QueryEscape v) =
      (url.Values.Add st.1 k v, st.2) := by
  have hk := QueryEscape_alphabet k
  have hv := QueryEscape_alphabet v
  have hsemi : ch ';' ∉ url.QueryEscape k ++ ch '=' :: url.QueryEscape v := by
    intro hm
    rcases List.mem_append.mp hm with h | h
    · exact (hk _ h).2.2 rfl
    · rcases List.mem_cons.mp h with h | h
      · revert h; decide
      · exact (hv _ h).2.2 rfl
  have heq : ch '=' ∉ url.QueryEscape k := fun h => (hk _ h).2.1 rfl
  have hne : url.QueryEscape k ++ ch '=' :: url.QueryEscape v ≠ [] := by simp
  simp only [url.parseQueryStep, contains_semicolon _ hsemi, Bool.false_eq_true, if_false, hne,
    cut_append _ _ _ heq, QueryUnescape_QueryEscape]

theorem querySegments_amp (seg rest : GoString) (h : ch '&' ∉ seg) :
    url.querySegments (seg ++ ch '&' :: rest) = seg :: url.querySegments rest := by
  induction seg with
  | nil => simp [url.querySegments]
  | cons x seg ih =>
    simp only [List.mem_cons, not_or] at h
    have hx : x ≠ ch '&' := fun e => h.1 e.symm
    simp [url.querySegments, hx, ih h.2]

theorem querySegments_last (seg : GoString) (h : ch '&' ∉ seg) (hne : seg ≠ []) :
    url.querySegments seg = [seg] := by
  induction seg with
  | nil => exact absurd rfl hne
  | cons x seg ih =>
    simp only [List.mem_cons, not_or] at h
    have hx : x ≠ ch '&' := fun e => h.1 e.symm
    cases seg with
    | nil => simp [url.querySegments, hx]
    | cons y seg => 
      have := ih h.2 (by simp)
      simp only [url.querySegments, hx, if_false] at this ⊢
      simp [url.querySegments, hx, this]

theorem joinAmp_snoc (l : List GoString) (s : GoString) (h : l ≠ []) :
    url.joinAmp (l ++ [s]) = url.joinAmp l ++ ch '&' :: s := by
  induction l with
  | nil => exact absurd rfl h
  | cons a l ih =>
    cases l with
    | nil => simp [url.joinAmp]
    | cons b l =>
      have := ih (by simp)
      simp only [List.cons_append] at this ⊢
      simp [url.joinAmp, this]

theorem joinAmp_length (l : List GoString) (h : l ≠ []) (hne : ∀ s ∈ l, s ≠ []) :
    (url.joinAmp l).length > 0 := by
  cases l with
  | nil => exact absurd rfl h
  | cons a l =>
    have ha : a ≠ [] := hne a (by simp)
    have : a.length > 0 := List.length_pos.mpr ha
    cases l with
    | nil => simpa [url.joinAmp]
    | cons b l => simp [url.joinAmp]

theorem encodePair_ne_nil (p : GoString × GoString) : url.encodePair p ≠ [] := by
  simp [url.encodePair]

theorem encodePair_no_amp (p : GoString × GoString) : ch '&' ∉ url.encodePair p := by
  intro hm
  rcases List.mem_append.mp hm with h | h
  · exact (QueryEscape_alphabet _ _ h).1 rfl
  · rcases List.mem_cons.mp h with h | h
    · revert h; decide
    · exact (QueryEscape_alphabet _ _ h).1 rfl

theorem encode_fold_pairs (ps0 ps : List (GoString × GoString)) :
    ps.foldl (fun buf p =>
        (if buf.length > 0 then buf ++ [ch '&'] else buf)
          ++ url.QueryEscape p.1 ++ [ch '='] ++ url.QueryEscape p.2)
      (url.joinAmp (ps0.map url.encodePair))
    = url.joinAmp ((ps0 ++ ps).map url.encodePair) := by
  induction ps generalizing ps0 with
  | nil => simp
  | cons p ps ih =>
    have key : (if (url.joinAmp (ps0.map url.encodePair)).length > 0
          then url.joinAmp (ps0.map url.encodePair) ++ [ch '&']
          else url.joinAmp (ps0.map url.encodePair))
        ++ url.QueryEscape p.1 ++ [ch '='] ++ url.QueryEscape p.2
        = url.joinAmp ((ps0 ++ [p]).map url.encodePair) := by
      cases ps0 with
      | nil => simp [url.joinAmp, url.encodePair]
      | cons a ps0 =>
        have hl := joinAmp_length ((a :: ps0).map url.encodePair) (by simp)
          (by intro s hs
              obtain ⟨q, -, rfl⟩ := List.mem_map.mp hs
              exact encodePair_ne_nil q)
        rw [if_pos hl, List.map_append, List.map_singleton, joinAmp_snoc _ _ (by simp)]
        simp [url.encodePair]
    rw [List.foldl_cons, key, ih (ps0 ++ [p])]
    simp

theorem encode_eq_join (v : url.Values) :
    url.Values.Encode v = url.joinAmp (v.pairs.map url.encodePair) := by
  have gen : ∀ (keys : List GoString) (buf : GoString),
      keys.foldl (fun buf k =>
        (url.Values.lookup v k).foldl (fun buf val =>
          (if buf.length > 0 then buf ++ [ch '&'] else buf)
            ++ url.QueryEscape k ++ [ch '='] ++ url.QueryEscape val) buf) buf
      = (keys.flatMap (fun k => (url.Values.lookup v k).map (fun val => (k, val)))).foldl
          (fun buf p => (if buf.length > 0 then buf ++ [ch '&'] else buf)
            ++ url.QueryEscape p.1 ++ [ch '='] ++ url.QueryEscape p.2) buf := by
    intro keys
    induction keys with
    | nil => intro buf; rfl
    | cons k keys ih =>
      intro buf
      rw [List.foldl_cons, ih, List.flatMap_cons, List.foldl_append, List.foldl_map]
  have h0 := encode_fold_pairs [] v.pairs
  simp only [List.map_nil, url.joinAmp, List.nil_append] at h0
  rw [← h0]
  exact gen _ _

theorem querySegments_join (l : List GoString) (h : ∀ s ∈ l, s ≠ [] ∧ ch '&' ∉ s) :
    url.querySegments (url.joinAmp l) = l := by
  induction l with
  | nil => rfl
  | cons a l ih =>
    have ha := h a (by simp)
    cases l with
    | nil => simpa [url.joinAmp] using querySegments_last a ha.2 ha.1
    | cons b l =>
      have := ih (fun s hs => h s (List.mem_cons_of_mem _ hs))
      simp only [url.joinAmp] at this ⊢
      rw [querySegments_amp _ _ ha.2, this]

theorem parse_fold_pairs (ps : List (GoString × GoString)) (st : url.Values × Option Error) :
    (ps.map url.encodePair).foldl url.parseQueryStep st =
      (ps.foldl (fun m p => url.Values.Add m p.1 p.2) st.1, st.2) := by
  induction ps generalizing st with
  | nil => rfl
  | cons p ps ih =>
    rw [List.map_cons, List.foldl_cons, url.encodePair, parseQueryStep_pair, ih]
    rfl

theorem ParseQuery_Encode (v : url.Values) :
    url.ParseQuery (url.Values.Encode v) =
      (v.pairs.foldl (fun m p => url.Values.Add m p.1 p.2) [], none) := by
  rw [url.ParseQuery, encode_eq_join, querySegments_join, parse_fold_pairs]
  intro s hs
  obtain ⟨q, -, rfl⟩ := List.mem_map.mp hs
  exact ⟨encodePair_ne_nil q, encodePair_no_amp q⟩

theorem lookup_store (m : url.Values) (k k1 : GoString) (vs : List GoString) :
    url.Values.lookup (url.Values.store m k vs) k1 =
      if k = k1 then vs else url.Values.lookup m k1 := by
  induction m with
  | nil => simp [url.Values.store, url.Values.lookup]
  | cons a m ih =>
    obtain ⟨ka, va⟩ := a
    by_cases h : ka = k
    · subst h
      by_cases h1 : ka = k1 <;> simp [url.Values.store, url.Values.lookup, h1]
    · by_cases h1 : ka = k1
      · subst h1
        have h2 : ¬ k = ka := fun e => h e.symm
        simp [url.Values.store, url.Values.lookup, h, h2]
      · simp [url.Values.store, url.Values.lookup, h, h1, ih]

theorem lookup_fold_add (ps : List (GoString × GoString)) (m : url.Values) (k : GoString) :
    url.Values.lookup (ps.foldl (fun m p => url.Values.Add m p.1 p.2) m) k =
      url.Values.lookup m k ++ (ps.filter (fun p => p.1 = k)).map Prod.snd := by
  induction ps generalizing m with
  | nil => simp
  | cons p ps ih =>
    rw [List.foldl_cons, ih, url.Values.Add, lookup_store]
    by_cases h : p.1 = k
    · subst h
      simp
    · simp [h]

theorem lookup_absent (v : url.Values) (k : GoString) (h : k ∉ v.map Prod.fst) :
    url.Values.lookup v k = [] := by
  induction v with
  | nil => rfl
  | cons a v ih =>
    obtain ⟨ka, va⟩ := a
    simp only [List.map_cons, List.mem_cons, not_or] at h
    have h1 : ¬ ka = k := fun e => h.1 e.symm
    simp [url.Values.lookup, h1, ih h.2]

theorem pairs_filter (v : url.Values) (keys : List GoString) (hnd : keys.Nodup) (k : GoString) :
    ((keys.flatMap (fun k1 => (url.Values.lookup v k1).map (fun val => (k1, val)))).filter
        (fun p => p.1 = k)).map Prod.snd
      = if k ∈ keys then url.Values.lookup v k else [] := by
  induction keys with
  | nil => simp
  | cons a keys ih =>
    have hnd2 := List.nodup_cons.mp hnd
    rw [List.flatMap_cons, List.filter_append, List.map_append, ih hnd2.2]
    by_cases h : a = k
    · subst h
      have h1 : (List.filter (fun p : GoString × GoString => decide (p.1 = a))
          ((url.Values.lookup v a).map (fun val => (a, val)))) =
          (url.Values.lookup v a).map (fun val => (a, val)) := by
        apply List.filter_eq_self.mpr
        intro p hp
        obtain ⟨q, -, rfl⟩ := List.mem_map.mp hp
        simp
      rw [h1]
      simp [hnd2.1, Function.comp_def]
    · have h1 : (List.filter (fun p : GoString × GoString => decide (p.1 = k))
          ((url.Values.lookup v a).map (fun val => (a, val)))) = [] := by
        apply List.filter_eq_nil_iff.mpr
        intro p hp
        obtain ⟨q, -, rfl⟩ := List.mem_map.mp hp
        simp [h]
      have h2 : ¬ k = a := fun e => h e.symm
      rw [h1]
      simp [h2]

/-- Decoding an encoded query gives back the values of every key. -/
theorem lookup_ParseQuery_Encode (v : url.Values) (hnd : (v.map Prod.fst).Nodup)
    (k : GoString) :
    url.Values.lookup (url.ParseQuery (url.Values.Encode v)).1 k = url.Values.lookup v k := by
  rw [ParseQuery_Encode, lookup_fold_add, url.Values.pairs, pairs_filter]
  · simp only [url.Values.lookup, List.nil_append, List.mem_insertionSort]
    by_cases h : k ∈ v.map Prod.fst
    · rw [if_pos h]
    · rw [if_neg h, lookup_absent v k h]
  · exact (List.perm_insertionSort _ _).nodup_iff.mpr hnd

theorem store_keys (m : url.Values) (k : GoString) (vs : List GoString) :
    (url.Values.store m k vs).map Prod.fst =
      if k ∈ m.map Prod.fst then m.map Prod.fst else m.map Prod.fst ++ [k] := by
  induction m with
  | nil => simp [url.Values.store]
  | cons a m ih =>
    obtain ⟨ka, va⟩ := a
    by_cases h : ka = k
    · subst h
      simp [url.Values.store]
    · have h2 : ¬ k = ka := fun e => h e.symm
      simp only [url.Values.store, h, if_false, List.map_cons, ih, List.mem_cons, h2, false_or]
      split <;> simp

theorem store_nodup (m : url.Values) (k : GoString) (vs : List GoString)
    (h : (m.map Prod.fst).Nodup) : ((url.Values.store m k vs).map Prod.fst).Nodup := by
  rw [store_keys]
  split
  · exact h
  · rename_i hk
    exact List.nodup_append.mpr ⟨h, by simp, by simpa using hk⟩

theorem parseQueryStep_nodup (st : url.Values × Option Error) (key : GoString)
    (h : (st.1.map Prod.fst).Nodup) : ((url.parseQueryStep st key).1.map Prod.fst).Nodup := by
  unfold url.parseQueryStep
  split
  · exact h
  · split
    · exact h
    · simp only
      split
      · exact h
      · split
        · exact h
        · exact store_nodup _ _ _ h

theorem ParseQuery_nodup (query : GoString) :
    ((url.ParseQuery query).1.map Prod.fst).Nodup := by
  unfold url.ParseQuery
  have gen : ∀ (segs : List GoString) (st : url.Values × Option Error),
      (st.1.map Prod.fst).Nodup → ((segs.foldl url.parseQueryStep st).1.map Prod.fst).Nodup := by
    intro segs
    induction segs with
    | nil => intro st h; exact h
    | cons a segs ih => intro st h; exact ih _ (parseQueryStep_nodup st a h)
  exact gen _ _ (by simp)

theorem fold_Set_nodup (ps : List (GoString × GoString)) (q : url.Values)
    (h : (q.map Prod.fst).Nodup) :
    ((ps.foldl (fun q kv => url.Values.Set q kv.1 kv.2) q).map Prod.fst).Nodup := by
  induction ps generalizing q with
  | nil => exact h
  | cons p ps ih => exact ih _ (store_nodup _ _ _ h)

theorem lookup_fold_Set_other (ps : List (GoString × GoString)) (q : url.Values) (k : GoString)
    (h : k ∉ ps.map Prod.fst) :
    url.Values.lookup (ps.foldl (fun q kv => url.Values.Set q kv.1 kv.2) q) k =
      url.Values.lookup q k := by
  induction ps generalizing q with
  | nil => rfl
  | cons p ps ih =>
    simp only [List.map_cons, List.mem_cons, not_or] at h
    have h1 : ¬ p.1 = k := fun e => h.1 e.symm
    rw [List.foldl_cons, ih _ h.2, url.Values.Set, lookup_store, if_neg h1]

theorem lookup_fold_Set (ps : List (GoString × GoString)) (q : url.Values)
    (hnd : (ps.map Prod.fst).Nodup) (k v : GoString) (hmem : (k, v) ∈ ps) :
    url.Values.lookup (ps.foldl (fun q kv => url.Values.Set q kv.1 kv.2) q) k = [v] := by
  induction ps generalizing q with
  | nil => simp at hmem
  | cons p ps ih =>
    rw [List.map_cons] at hnd
    have hnd2 := List.nodup_cons.mp hnd
    rcases List.mem_cons.mp hmem with h | h
    · subst h
      rw [List.foldl_cons, lookup_fold_Set_other _ _ _ hnd2.1, url.Values.Set, lookup_store]
      simp
    · exact ih _ hnd2.2 h

theorem queryParams_nodup (call : Call) : (call.queryParams.map Prod.fst).Nodup := by
  cases call <;> simp only [Call.queryParams, List.map_cons, List.map_nil] <;> decide

/-- The query of a prepared request, decoded, gives each parameter its value. -/
theorem prepare_query (c : Client) (ct : GoString) (r : http.Request)
    (ps : List (GoString × GoString)) (hnd : (ps.map Prod.fst).Nodup)
    (k v : GoString) (hmem : (k, v) ∈ ps) :
    url.ParseQuery (c.prepare ct r ps).URL.RawQuery =
      ((url.ParseQuery (c.prepare ct r ps).URL.RawQuery).1, none) ∧
    url.Values.lookup (url.ParseQuery (c.prepare ct r ps).URL.RawQuery).1 k = [v] := by
  simp only [Client.prepare]
  constructor
  · rw [ParseQuery_Encode]
  · rw [lookup_ParseQuery_Encode _ (fold_Set_nodup _ _ (by
        rw [url.URL.Query]; exact ParseQuery_nodup _)),
      lookup_fold_Set _ _ hnd k v hmem]

/-- The decoded query of a request of a call holds each named parameter
with its one value. -/
theorem query_lookup {c : Client} {call : Call} {req : http.Request}
    (hsent : req ∈ (c.call call).sent) (key value : GoString)
    (hparam : (key, value) ∈ call.queryParams) :
    (url.ParseQuery req.URL.RawQuery).2 = none ∧
    url.Values.lookup req.URL.Query key = [value] := by
  obtain ⟨r, -, -, hreq, -⟩ := call_sent_mem hsent
  have h := prepare_query c call.contentType r call.queryParams
    (queryParams_nodup call) key value hparam
  rw [hreq]
  refine ⟨?_, h.2⟩
  rw [h.1]

/-- C4.  For every endpoint method with named query parameters and every
value supplied, the query string of the request that is sent decodes without
error, and decoded it holds each of the keys with exactly the one supplied
value (whatever bytes the value is made of). -/
theorem query_parameters (net : http.Request → http.RoundTrip) (baseUrl token : GoString)
    (call : Call) (req : http.Request) (key value : GoString)
    (hsent : req ∈ ((NewClient net baseUrl token).call call).sent)
    (hparam : (key, value) ∈ call.queryParams) :
    (url.ParseQuery req.URL.RawQuery).2 = none ∧
    url.Values.lookup (url.ParseQuery req.URL.RawQuery).1 key = [value] ∧
    url.Values.lookup req.URL.Query key = [value] := by
  obtain ⟨r, -, -, hreq, -⟩ := call_sent_mem hsent
  have h := prepare_query (NewClient net baseUrl token) call.contentType r call.queryParams
    (queryParams_nodup call) key value hparam
  rw [hreq]
  refine ⟨?_, h.2, h.2⟩
  rw [h.1]

/-- C4, at a concrete call: `AssignOperator` with an e-mail made of `&`, `=`,
`+`, `%`, `#` and a space, and an empty number. -/
theorem query_parameters_witness :
    ∃ req, req ∈ ((NewClient demo.okNet demo.baseUrl demo.token).call
        (.AssignOperator (str "a&b=c +%#") [])).sent ∧
      (url.ParseQuery req.URL.RawQuery).2 = none ∧
      url.Values.lookup (url.ParseQuery req.URL.RawQuery).1 (str "email") = [str "a&b=c +%#"] ∧
      url.Values.lookup req.URL.Query (str "email") = [str "a&b=c +%#"] :=
  have hne : ((NewClient demo.okNet demo.baseUrl demo.token).call
        (.AssignOperator (str "a&b=c +%#") [])).sent ≠ [] := by decide
  ⟨_, List.head_mem hne,
    query_parameters demo.okNet demo.baseUrl demo.token (.AssignOperator (str "a&b=c +%#") [])
      _ (str "email") (str "a&b=c +%#") (List.head_mem hne) (by simp [Call.queryParams])⟩

/-! ## C5: the path of the request URL -/

theorem getSchemeLoop_append (raw tail : GoString) :
    ∀ (rest pre : GoString) (i : Nat), raw = pre ++ rest → pre.length = i →
      url.getSchemeLoop (raw ++ ch '/' :: tail) i (rest ++ ch '/' :: tail) =
        match url.getSchemeLoop raw i rest with
        | .error e => .error e
        | .ok (sch, r) => .ok (sch, r ++ ch '/' :: tail) := by
  intro rest
  induction rest with
  | nil =>
    intro pre i _ _
    simp only [List.nil_append, url.getSchemeLoop]
    have h1 : ¬ ((ch 'a' ≤ ch '/' ∧ ch '/' ≤ ch 'z') ∨ (ch 'A' ≤ ch '/' ∧ ch '/' ≤ ch 'Z')) := by
      decide
    have h2 : ¬ ((ch '0' ≤ ch '/' ∧ ch '/' ≤ ch '9') ∨ ch '/' = ch '+' ∨ ch '/' = ch '-' ∨
        ch '/' = ch '.') := by decide
    have h3 : ¬ (ch '/' = ch ':') := by decide
    rw [if_neg h1, if_neg h2, if_neg h3]
  | cons c rest ih =>
    intro pre i hraw hlen
    have hnext : raw = (pre ++ [c]) ++ rest := by simp [hraw]
    have hlen2 : (pre ++ [c]).length = i + 1 := by simp [hlen]
    have hrec := ih (pre ++ [c]) (i + 1) hnext hlen2
    have hilt : i < raw.length := by rw [hraw]; simp [hlen]
    simp only [List.cons_append, url.getSchemeLoop]
    split
    · exact hrec
    · split
      · split
        · rfl
        · exact hrec
      · split
        · split
          · rfl
          · simp only [Except.ok.injEq, Prod.mk.injEq]
            constructor
            · rw [List.take_append_of_le_length (by omega)]
            · rw [List.drop_append_of_le_length (by omega)]
        · rfl

theorem getScheme_append (raw tail : GoString) :
    url.getScheme (raw ++ ch '/' :: tail) =
      match url.getScheme raw with
      | .error e => .error e
      | .ok (sch, r) => .ok (sch, r ++ ch '/' :: tail) :=
  getSchemeLoop_append raw tail raw [] 0 rfl rfl

theorem getSchemeLoop_subset (raw : GoString) :
    ∀ (rest : GoString) (i : Nat) (sch r : GoString),
      url.getSchemeLoop raw i rest = .ok (sch, r) → ∀ x ∈ r, x ∈ raw := by
  intro rest
  induction rest with
  | nil =>
    intro i sch r h x hx
    simp only [url.getSchemeLoop, Except.ok.injEq, Prod.mk.injEq] at h
    rw [← h.2] at hx
    exact hx
  | cons c rest ih =>
    intro i sch r h x hx
    simp only [url.getSchemeLoop] at h
    split at h
    · exact ih _ _ _ h x hx
    · split at h
      · split at h
        · simp only [Except.ok.injEq, Prod.mk.injEq] at h
          rw [← h.2] at hx
          exact hx
        · exact ih _ _ _ h x hx
      · split at h
        · split at h
          · cases h
          · simp only [Except.ok.injEq, Prod.mk.injEq] at h
            rw [← h.2] at hx
            exact List.mem_of_mem_drop hx
        · simp only [Except.ok.injEq, Prod.mk.injEq] at h
          rw [← h.2] at hx
          exact hx

theorem cut_append_left (a b : GoString) (c : Byte) (h : c ∉ a) :
    strings.Cut (a ++ b) c = (a ++ (strings.Cut b c).1, (strings.Cut b c).2.1, (strings.Cut b c).2.2) := by
  induction a with
  | nil => simp
  | cons x a ih =>
    simp only [List.mem_cons, not_or] at h
    have hx : x ≠ c := fun e => h.1 e.symm
    simp [strings.Cut, hx, ih h.2]

theorem indexByte_append (a b : GoString) (c : Byte) :
    strings.IndexByte (a ++ c :: b) c =
      match strings.IndexByte a c with
      | some i => some i
      | none => some a.length := by
  induction a with
  | nil => simp [strings.IndexByte]
  | cons x a ih =>
    by_cases hx : x = c
    · simp [strings.IndexByte, hx]
    · simp only [List.cons_append, strings.IndexByte, hx, if_false, List.append_eq]
      rw [ih]
      cases strings.IndexByte a c <;> simp

theorem indexByte_le (a : GoString) (c : Byte) (i : Nat) (h : strings.IndexByte a c = some i) :
    i ≤ a.length := by
  induction a generalizing i with
  | nil => simp [strings.IndexByte] at h
  | cons x a ih =>
    by_cases hx : x = c
    · simp [strings.IndexByte, hx] at h
      omega
    · simp only [strings.IndexByte, hx, if_false, Option.map_eq_some'] at h
      obtain ⟨j, hj, rfl⟩ := h
      have := ih j hj
      simp
      omega

theorem unescape_append (mode : url.encoding) (b : GoString) :
    ∀ (n : Nat) (a a1 : GoString), a.length ≤ n → url.unescape a mode = .ok a1 →
      url.unescape (a ++ b) mode =
        match url.unescape b mode with
        | .ok b1 => .ok (a1 ++ b1)
        | .error e => .error e := by
  intro n
  induction n with
  | zero =>
    intro a a1 hlen h
    have : a = [] := List.length_eq_zero.mp (by omega)
    subst this
    simp only [url.unescape, Except.ok.injEq] at h
    subst h
    simp only [List.nil_append]
    cases url.unescape b mode <;> rfl
  | succ n ih =>
    intro a a1 hlen h
    cases a with
    | nil =>
      simp only [url.unescape, Except.ok.injEq] at h
      subst h
      simp only [List.nil_append]
      cases url.unescape b mode <;> rfl
    | cons c rest =>
      rw [unescape_cons] at h
      rw [List.cons_append, unescape_cons]
      by_cases hc : c = ch '%'
      · rw [if_pos hc] at h ⊢
        rcases rest with _ | ⟨h1, _ | ⟨h2, rest2⟩⟩
        · cases h
        · cases h
        · simp only [List.cons_append] at h ⊢
          split at h
          · cases h
          · rename_i g1
            rw [if_neg g1]
            split at h
            · cases h
            · rename_i g2
              rw [if_neg g2]
              split at h
              · cases h
              · rename_i g3
                rw [if_neg g3]
                cases hu : url.unescape rest2 mode with
                | error e => rw [hu] at h; cases h
                | ok t =>
                  rw [hu] at h
                  cases h
                  rw [ih rest2 t (by simp at hlen; omega) hu]
                  cases url.unescape b mode <;> rfl
      · rw [if_neg hc] at h ⊢
        have hlen2 : rest.length ≤ n := by simp at hlen; omega
        split at h
        · rename_i g1
          rw [if_pos g1]
          cases hu : url.unescape rest mode with
          | error e => rw [hu] at h; cases h
          | ok t =>
            rw [hu] at h
            cases h
            rw [ih rest t hlen2 hu]
            cases url.unescape b mode <;> rfl
        · rename_i g1
          rw [if_neg g1]
          split at h
          · cases h
          · rename_i g2
            rw [if_neg g2]
            cases hu : url.unescape rest mode with
            | error e => rw [hu] at h; cases h
            | ok t =>
              rw [hu] at h
              cases h
              rw [ih rest t hlen2 hu]
              cases url.unescape b mode <;> rfl

theorem setPath_host (u ub : url.URL) (r : GoString) (h : url.URL.setPath u r = .ok ub) :
    ub.Host = u.Host ∧ ∃ path, url.unescape r encodePath = .ok path ∧
      ub = { u with Path := path, RawPath := ub.RawPath } := by
  unfold url.URL.setPath at h
  split at h
  · cases h
  · rename_i path hp
    cases h
    exact ⟨rfl, path, hp, rfl⟩

theorem str_slash1 : str "/" = [ch '/'] := by decide
theorem str_slash2 : str "//" = [ch '/', ch '/'] := by decide
theorem str_slash3 : str "///" = [ch '/', ch '/', ch '/'] := by decide

theorem hasPrefix_slash2 (rest : GoString) (h : strings.HasPrefix rest (str "//") = true) :
    ∃ a0, rest = ch '/' :: ch '/' :: a0 := by
  rw [str_slash2, strings.HasPrefix] at h
  rcases rest with _ | ⟨x, _ | ⟨y, a0⟩⟩
  · simp [List.isPrefixOf] at h
  · simp [List.isPrefixOf] at h
  · simp only [List.isPrefixOf, Bool.and_true, Bool.and_eq_true, beq_iff_eq] at h
    exact ⟨a0, by rw [← h.1, ← h.2]⟩

theorem parseHier_append (sch q1 : GoString) (fq1 : Bool) (rest pt : GoString) (ub : url.URL)
    (hb : url.parseHier false { Scheme := sch } rest = .ok ub) (hh : ub.Host ≠ []) :
    ∃ rp : GoString → GoString,
      url.parseHier false { Scheme := sch, ForceQuery := fq1, RawQuery := q1 }
          (rest ++ ch '/' :: pt) =
        match url.unescape (ch '/' :: pt) encodePath with
        | .error e => .error e
        | .ok p1 => .ok { ub with Path := ub.Path ++ p1, RawPath := rp p1,
                                   ForceQuery := fq1, RawQuery := q1 } := by
  unfold url.parseHier at hb
  split at hb
  · cases hb; exact absurd rfl hh
  · split at hb
    · cases hb
    · split at hb
      · cases hb
      · split at hb
        · rename_i hcond
          obtain ⟨a0, ha0⟩ := hasPrefix_slash2 rest hcond.2
          subst ha0
          simp only [List.drop_succ_cons, List.drop_zero] at hb
          -- the authority and the path of the base
          have hidx := indexByte_append a0 pt (ch '/')
          have hsplit : ∃ auth rest1, a0 = auth ++ rest1 ∧
              (match strings.IndexByte a0 (ch '/') with
                | some i => List.take i a0
                | none => a0) = auth ∧
              (match strings.IndexByte a0 (ch '/') with
                | some i => List.drop i a0
                | none => []) = rest1 ∧
              (match strings.IndexByte (a0 ++ ch '/' :: pt) (ch '/') with
                | some i => List.take i (a0 ++ ch '/' :: pt)
                | none => a0 ++ ch '/' :: pt) = auth ∧
              (match strings.IndexByte (a0 ++ ch '/' :: pt) (ch '/') with
                | some i => List.drop i (a0 ++ ch '/' :: pt)
                | none => []) = rest1 ++ ch '/' :: pt := by
            cases hi : strings.IndexByte a0 (ch '/') with
            | none =>
              rw [hi] at hidx
              refine ⟨a0, [], by simp, rfl, rfl, ?_, ?_⟩
              · rw [hidx]; simp
              · rw [hidx]; simp
            | some i =>
              rw [hi] at hidx
              have hle := indexByte_le a0 (ch '/') i hi
              refine ⟨a0.take i, a0.drop i, by simp, rfl, rfl, ?_, ?_⟩
              · rw [hidx]; simp [List.take_append_of_le_length hle]
              · rw [hidx]; simp [List.drop_append_of_le_length hle]
          obtain ⟨auth, rest1, ha0, e1, e2, e3, e4⟩ := hsplit
          rw [e1, e2] at hb
          cases hpa : url.parseAuthority auth with
          | error e => rw [hpa] at hb; cases hb
          | ok uh =>
            obtain ⟨user, host⟩ := uh
            rw [hpa] at hb
            simp only at hb
            obtain ⟨hhost, path, hpath, hub⟩ := setPath_host _ _ _ hb
            simp only at hhost
            -- the authority is not empty
            have hne : a0 ≠ [] := by
              intro h0
              subst h0
              have : auth = [] := by
                cases auth with
                | nil => rfl
                | cons x l => simp at ha0
              subst this
              have hpa0 : url.parseAuthority [] = .ok (none, []) := by decide
              rw [hpa0] at hpa
              cases hpa
              exact hh hhost
            have h3 : (sch ≠ [] ∨ (!false) = true ∧
                (!strings.HasPrefix (ch '/' :: ch '/' :: (a0 ++ ch '/' :: pt)) (str "///")) = true) := by
              rcases hcond.1 with h | h
              · exact Or.inl h
              · refine Or.inr ⟨rfl, ?_⟩
                have h2 := h.2
                rw [str_slash3, strings.HasPrefix] at h2 ⊢
                cases a0 with
                | nil => exact absurd rfl hne
                | cons x l => simpa [List.isPrefixOf] using h2
            have h1 : strings.HasPrefix (ch '/' :: ch '/' :: (a0 ++ ch '/' :: pt)) (str "/") = true := by
              rw [str_slash1]; simp [strings.HasPrefix, List.isPrefixOf]
            have h2 : strings.HasPrefix (ch '/' :: ch '/' :: (a0 ++ ch '/' :: pt)) (str "//") = true := by
              rw [str_slash2]; simp [strings.HasPrefix, List.isPrefixOf]
            refine ⟨fun p1 => if rest1 ++ ch '/' :: pt = url.escape (path ++ p1) encodePath then []
              else rest1 ++ ch '/' :: pt, ?_⟩
            unfold url.parseHier
            simp only [List.cons_append, h1, Bool.not_true, Bool.false_eq_true, false_and, if_false]
            rw [if_pos ⟨h3, h2⟩]
            simp only [List.drop_succ_cons, List.drop_zero]
            rw [e3, e4, hpa]
            simp only [url.URL.setPath]
            rw [unescape_append encodePath (ch '/' :: pt) rest1.length rest1 path (le_refl _) hpath]
            cases url.unescape (ch '/' :: pt) encodePath with
            | error e => rfl
            | ok p1 =>
              simp only
              rw [hub]
        · split at hb
          · exact absurd (setPath_host _ _ _ hb).1 hh
          · exact absurd (setPath_host _ _ _ hb).1 hh

theorem hasSuffix_single (s : GoString) (c : Byte) :
    strings.HasSuffix s [c] = true ↔ s.getLast? = some c := by
  rw [strings.HasSuffix, List.isSuffixOf_iff_suffix]
  constructor
  · rintro ⟨t, rfl⟩
    simp
  · intro h
    obtain ⟨t, rfl⟩ : ∃ t, s = t ++ [c] := by
      rcases List.eq_nil_or_concat s with h0 | ⟨t, x, h0⟩
      · subst h0; simp at h
      · subst h0
        simp only [List.concat_eq_append, List.getLast?_append, List.getLast?_singleton,
          Option.or, Option.some.injEq] at h
        exact ⟨t, by rw [h]; simp⟩
    exact ⟨t, rfl⟩

theorem forceQuery_cut (s : GoString) (c : Byte) (h1 : s.getLast? = some c)
    (h2 : strings.Count s c = 1) :
    s.dropLast = (strings.Cut s c).1 ∧ (strings.Cut s c).2.1 = [] := by
  obtain ⟨t, rfl⟩ : ∃ t, s = t ++ [c] := by
    rcases List.eq_nil_or_concat s with h0 | ⟨t, x, h0⟩
    · subst h0; simp at h1
    · subst h0
      simp only [List.concat_eq_append, List.getLast?_append, List.getLast?_singleton,
        Option.or, Option.some.injEq] at h1
      exact ⟨t, by rw [h1]; simp⟩
  have hc : c ∉ t := by
    simp only [strings.Count, List.count_append, List.count_singleton_self] at h2
    exact List.count_eq_zero.mp (by omega)
  rw [cut_append t [] c hc]
  simp

theorem str_question : str "?" = [ch '?'] := by decide
theorem str_star : str "*" = [ch '*'] := by decide

theorem ctl_append (a b : GoString) :
    url.stringContainsCTLByte (a ++ b) =
      (url.stringContainsCTLByte a || url.stringContainsCTLByte b) := by
  simp [url.stringContainsCTLByte]

/-- Parsing `base ++ "/..."` where `base` parses to a URL with a host and has
no `?`: the scheme, the user and the host are those of `base`, the path is
the path of `base` followed by the unescaped path part of what is appended,
and the query is the query part of what is appended. -/
theorem parse_append (base pt : GoString) (ub : url.URL)
    (hq : ch '?' ∉ base) (hb : url.parse base false = .ok ub) (hh : ub.Host ≠ [])
    (hctl : url.stringContainsCTLByte (ch '/' :: pt) = false) :
    ∃ rp : GoString → GoString,
      url.parse (base ++ ch '/' :: pt) false =
        match url.unescape (strings.Cut (ch '/' :: pt) (ch '?')).1 encodePath with
        | .error e => .error e
        | .ok p1 => .ok { ub with
            Path := ub.Path ++ p1, RawPath := rp p1,
            ForceQuery := strings.HasSuffix (ch '/' :: pt) (str "?") &&
              strings.Count (ch '/' :: pt) (ch '?') == 1,
            RawQuery := (strings.Cut (ch '/' :: pt) (ch '?')).2.1 } := by
  unfold url.parse at hb
  split at hb
  · cases hb
  · rename_i hctlb
    split at hb
    · cases hb
    · split at hb
      · cases hb; exact absurd rfl hh
      · rename_i hstar
        split at hb
        · cases hb
        · rename_i scheme rest0 hsch
          have hsub : ch '?' ∉ rest0 := fun hm =>
            hq (getSchemeLoop_subset base base 0 scheme rest0 hsch _ hm)
          have hfqb : (strings.HasSuffix rest0 (str "?") &&
              strings.Count rest0 (ch '?') == 1) = false := by
            have : strings.Count rest0 (ch '?') = 0 := List.count_eq_zero.mpr hsub
            simp [this]
          simp only [hfqb, Bool.false_eq_true, if_false, cut_not_mem rest0 _ hsub] at hb
          -- the appended text
          have hcut : strings.Cut (ch '/' :: pt) (ch '?') =
              (ch '/' :: (strings.Cut pt (ch '?')).1, (strings.Cut pt (ch '?')).2.1,
               (strings.Cut pt (ch '?')).2.2) := by
            have : ch '/' ≠ ch '?' := by decide
            simp [strings.Cut, this]
          obtain ⟨rp, hrp⟩ := parseHier_append (strings.ToLower scheme)
            (strings.Cut (ch '/' :: pt) (ch '?')).2.1
            (strings.HasSuffix (ch '/' :: pt) (str "?") &&
              strings.Count (ch '/' :: pt) (ch '?') == 1)
            rest0 (strings.Cut pt (ch '?')).1 ub hb hh
          refine ⟨rp, ?_⟩
          have hfq : (strings.HasSuffix (rest0 ++ ch '/' :: pt) (str "?") &&
              strings.Count (rest0 ++ ch '/' :: pt) (ch '?') == 1) =
              (strings.HasSuffix (ch '/' :: pt) (str "?") &&
                strings.Count (ch '/' :: pt) (ch '?') == 1) := by
            have hc0 : List.count (ch '?') rest0 = 0 := List.count_eq_zero.mpr hsub
            have e1 : strings.HasSuffix (rest0 ++ ch '/' :: pt) (str "?") =
                strings.HasSuffix (ch '/' :: pt) (str "?") := by
              rw [Bool.eq_iff_iff, str_question, hasSuffix_single, hasSuffix_single,
                List.getLast?_append]
              cases hl : (ch '/' :: pt).getLast? with
              | none => simp at hl
              | some x => simp
            rw [e1]
            simp only [strings.Count, List.count_append, hc0, Nat.zero_add]
          have hrest : (if (strings.HasSuffix (ch '/' :: pt) (str "?") &&
                strings.Count (ch '/' :: pt) (ch '?') == 1) = true
              then (rest0 ++ ch '/' :: pt).dropLast
              else (strings.Cut (rest0 ++ ch '/' :: pt) (ch '?')).1) =
              rest0 ++ ch '/' :: (strings.Cut pt (ch '?')).1 := by
            split
            · rename_i hf
              simp only [Bool.and_eq_true, beq_iff_eq] at hf
              rw [str_question, hasSuffix_single] at hf
              have := (forceQuery_cut _ _ hf.1 hf.2).1
              rw [List.dropLast_append_of_ne_nil _ (by simp), this, hcut]
            · rw [cut_append_left _ _ _ hsub, hcut]
          have hrq : (if (strings.HasSuffix (ch '/' :: pt) (str "?") &&
                strings.Count (ch '/' :: pt) (ch '?') == 1) = true
              then []
              else (strings.Cut (rest0 ++ ch '/' :: pt) (ch '?')).2.1) =
              (strings.Cut (ch '/' :: pt) (ch '?')).2.1 := by
            split
            · rename_i hf
              simp only [Bool.and_eq_true, beq_iff_eq] at hf
              rw [str_question, hasSuffix_single] at hf
              exact (forceQuery_cut _ _ hf.1 hf.2).2.symm
            · rw [cut_append_left _ _ _ hsub]
          have hstar2 : base ++ ch '/' :: pt ≠ str "*" := by
            intro h
            have : ch '/' ∈ str "*" := by rw [← h]; simp
            revert this
            decide
          unfold url.parse
          rw [ctl_append, hctl]
          simp only [hctlb, Bool.or_false, Bool.false_eq_true, if_false, and_false, hstar2]
          rw [getScheme_append, hsch]
          simp only [hfq, hrest, hrq]
          rw [hrp, hcut]

theorem Parse_no_fragment (base : GoString) (ub : url.URL) (hf : ch '#' ∉ base)
    (hb : url.Parse base = .ok ub) : url.parse base false = .ok ub := by
  unfold url.Parse at hb
  simp only [cut_not_mem base _ hf] at hb
  split at hb
  · cases hb
  · rename_i u hu
    simp only [if_true, Except.ok.injEq] at hb
    rw [← hb]
    exact hu

/-- The parts of what is appended to the base URL: before the first `#`
and before the first `?` the path, then the query, after the `#` the
fragment. -/
theorem Parse_append (base t : GoString) (ub u : url.URL)
    (hq : ch '?' ∉ base) (hf : ch '#' ∉ base)
    (hb : url.Parse base = .ok ub) (hh : ub.Host ≠ [])
    (hu : url.Parse (base ++ ch '/' :: t) = .ok u) :
    (∃ p1, url.unescape (strings.Cut (strings.Cut (ch '/' :: t) (ch '#')).1 (ch '?')).1
        encodePath = .ok p1 ∧ u.Path = ub.Path ++ p1) ∧
    u.Scheme = ub.Scheme ∧ u.User = ub.User ∧ u.Host = ub.Host ∧
    u.RawQuery = (strings.Cut (strings.Cut (ch '/' :: t) (ch '#')).1 (ch '?')).2.1 ∧
    ((strings.Cut (ch '/' :: t) (ch '#')).2.1 = [] → u.Fragment = ub.Fragment) := by
  have hb2 := Parse_no_fragment base ub hf hb
  have hcut : strings.Cut (ch '/' :: t) (ch '#') =
      (ch '/' :: (strings.Cut t (ch '#')).1, (strings.Cut t (ch '#')).2.1,
       (strings.Cut t (ch '#')).2.2) := by
    have : ch '/' ≠ ch '#' := by decide
    simp [strings.Cut, this]
  unfold url.Parse at hu
  rw [cut_append_left base _ _ hf, hcut] at hu
  simp only at hu
  rw [hcut]
  simp only
  cases hctl : url.stringContainsCTLByte (ch '/' :: (strings.Cut t (ch '#')).1) with
  | true =>
    have : url.parse (base ++ ch '/' :: (strings.Cut t (ch '#')).1) false =
        .error (.text "net/url: invalid control character in URL") := by
      unfold url.parse
      rw [ctl_append, hctl]
      simp
    rw [this] at hu
    cases hu
  | false =>
    obtain ⟨rp, hrp⟩ := parse_append base _ ub hq hb2 hh hctl
    cases hp : url.unescape (strings.Cut (ch '/' :: (strings.Cut t (ch '#')).1) (ch '?')).1
        encodePath with
    | error e =>
      rw [hp] at hrp
      rw [hrp] at hu
      cases hu
    | ok p1 =>
      rw [hp] at hrp
      simp only [hrp] at hu
      by_cases hfrag : (strings.Cut t (ch '#')).2.1 = []
      · rw [if_pos hfrag] at hu
        have hu2 := Except.ok.inj hu
        rw [← hu2]
        exact ⟨⟨p1, rfl, rfl⟩, rfl, rfl, rfl, rfl, fun _ => rfl⟩
      · rw [if_neg hfrag] at hu
        unfold url.URL.setFragment at hu
        cases hfr : url.unescape (strings.Cut t (ch '#')).2.1 encodeFragment with
        | error e =>
          rw [hfr] at hu
          cases hu
        | ok f1 =>
          rw [hfr] at hu
          have hu2 := Except.ok.inj hu
          rw [← hu2]
          exact ⟨⟨p1, rfl, rfl⟩, rfl, rfl, rfl, rfl, fun h => absurd h hfrag⟩

theorem unescape_path_plain (s : GoString) (h : ch '%' ∉ s) :
    url.unescape s encodePath = .ok s := by
  induction s with
  | nil => rfl
  | cons c s ih =>
    simp only [List.mem_cons, not_or] at h
    have hc : ¬ (c = ch '%') := fun e => h.1 e.symm
    rw [unescape_cons, if_neg hc, ih h.2]
    by_cases hp : c = ch '+'
    · subst hp; simp
    · simp [hp]

/-- When what is appended has no `?`, `#`, `%` and no control byte, the URL
parses, and its path is the path of the base followed by the appended text
as it is. -/
theorem Parse_append_plain (base t : GoString) (ub : url.URL)
    (hq : ch '?' ∉ base) (hf : ch '#' ∉ base)
    (hb : url.Parse base = .ok ub) (hh : ub.Host ≠ [])
    (h1 : ch '?' ∉ t) (h2 : ch '#' ∉ t) (h3 : ch '%' ∉ t)
    (h4 : url.stringContainsCTLByte t = false) :
    ∃ u, url.Parse (base ++ ch '/' :: t) = .ok u ∧ u.Path = ub.Path ++ ch '/' :: t ∧
      u.Scheme = ub.Scheme ∧ u.User = ub.User ∧ u.Host = ub.Host ∧ u.RawQuery = [] ∧
      u.Fragment = ub.Fragment := by
  have hb2 := Parse_no_fragment base ub hf hb
  have g1 : ch '?' ∉ ch '/' :: t := by
    intro h; rcases List.mem_cons.mp h with h | h
    · revert h; decide
    · exact h1 h
  have g2 : ch '#' ∉ ch '/' :: t := by
    intro h; rcases List.mem_cons.mp h with h | h
    · revert h; decide
    · exact h2 h
  have g3 : ch '%' ∉ ch '/' :: t := by
    intro h; rcases List.mem_cons.mp h with h | h
    · revert h; decide
    · exact h3 h
  have g4 : url.stringContainsCTLByte (ch '/' :: t) = false := by
    have : url.stringContainsCTLByte (ch '/' :: t) =
        (url.stringContainsCTLByte [ch '/'] || url.stringContainsCTLByte t) :=
      ctl_append [ch '/'] t
    rw [this, h4]
    decide
  obtain ⟨rp, hrp⟩ := parse_append base t ub hq hb2 hh g4
  rw [cut_not_mem _ _ g1, unescape_path_plain _ g3] at hrp
  simp only at hrp
  have hP : url.Parse (base ++ ch '/' :: t) = .ok { ub with
      Path := ub.Path ++ ch '/' :: t, RawPath := rp (ch '/' :: t),
      ForceQuery := strings.HasSuffix (ch '/' :: t) (str "?") &&
        strings.Count (ch '/' :: t) (ch '?') == 1,
      RawQuery := [] } := by
    unfold url.Parse
    rw [cut_append_left base _ _ hf, cut_not_mem _ _ g2]
    simp only [hrp, if_true]
  exact ⟨_, hP, rfl, rfl, rfl, rfl, rfl, rfl⟩

/-! ## C5 and C10: the path and the endpoint table -/

theorem route_shape (m : Method) :
    m.route = ch '/' :: m.route.tail ∧ ch '?' ∉ m.route ∧ ch '#' ∉ m.route ∧ ch '%' ∉ m.route ∧
      url.stringContainsCTLByte m.route = false := by
  cases m <;> decide

theorem prepare_url (c : Client) (ct : GoString) (r : http.Request)
    (ps : List (GoString × GoString)) :
    (c.prepare ct r ps).Method = r.Method ∧ (c.prepare ct r ps).Body = r.Body ∧
    (c.prepare ct r ps).URL = { r.URL with
      RawQuery := url.Values.Encode (ps.foldl (fun q kv => q.Set kv.1 kv.2) r.URL.Query) } := by
  simp [Client.prepare]

/-- What every request of a call is made of: the method of the endpoint
table, the body of the call, and the URL parsed from `baseUrl ++ route ++
number`, its empty port removed and its query encoded again with the
parameters of the call set. -/
theorem call_request {c : Client} {k : Call} {req : http.Request}
    (h : req ∈ (c.call k).sent) :
    req.Method = k.method.verb ∧ req.Body = k.requestBody ∧
    ∃ u, url.Parse (c.baseUrl ++ (k.method.route ++ k.pathArg)) = .ok u ∧
      req.URL = { u with
        Host := http.removeEmptyPort u.Host,
        RawQuery := url.Values.Encode
          (k.queryParams.foldl (fun q kv => q.Set kv.1 kv.2) u.Query) } := by
  obtain ⟨r, -, hn, hreq, -⟩ := call_sent_mem h
  obtain ⟨-, hbody, hmeth, u, hu, hurl⟩ := NewRequest_ok hn
  obtain ⟨p1, p2, p3⟩ := prepare_url c k.contentType r k.queryParams
  have hv : k.method.verb ≠ [] := by
    generalize k.method = m
    cases m <;> decide
  rw [if_neg hv] at hmeth
  refine ⟨by rw [hreq, p1, hmeth], by rw [hreq, p2, hbody], u, hu, ?_⟩
  rw [hreq, p3, hurl]
  rfl

theorem call_sent_one (c : Client) (k : Call) (u : url.URL) (hread : k.readError = none)
    (hu : url.Parse (c.baseUrl ++ (k.method.route ++ k.pathArg)) = .ok u) :
    ∃ req, (c.call k).sent = [req] := by
  obtain ⟨r, hr⟩ := NewRequest_of_parse k.requestBody (verb_valid k.method) hu
  rw [call_eq, hread]
  simp only [hr, send_sent]
  exact ⟨_, rfl⟩

/-- The request of a call whose number is plain text, on a base URL with a
host and without `?` and `#`. -/
theorem plain_path_request (net : http.Request → http.RoundTrip) (baseUrl token : GoString)
    (ub : url.URL) (call : Call)
    (hbase : url.Parse baseUrl = .ok ub) (hhost : ub.Host ≠ [])
    (hq : ch '?' ∉ baseUrl) (hf : ch '#' ∉ baseUrl)
    (hread : call.readError = none)
    (h1 : ch '?' ∉ call.pathArg) (h2 : ch '#' ∉ call.pathArg) (h3 : ch '%' ∉ call.pathArg)
    (h4 : url.stringContainsCTLByte call.pathArg = false) :
    ∃ req, ((NewClient net baseUrl token).call call).sent = [req] ∧
      req.URL.Path = ub.Path ++ call.method.route ++ call.pathArg ∧
      req.URL.Fragment = ub.Fragment ∧
      req.URL.RawQuery = url.Values.Encode
        (call.queryParams.foldl (fun q kv => q.Set kv.1 kv.2) []) := by
  obtain ⟨r1, r2, r3, r4, r5⟩ := route_shape call.method
  have e : call.method.route ++ call.pathArg = ch '/' :: (call.method.route.tail ++ call.pathArg) := by
    conv_lhs => rw [r1]
    rfl
  have r2t : ch '?' ∉ call.method.route.tail := fun h => r2 (List.mem_of_mem_tail h)
  have r3t : ch '#' ∉ call.method.route.tail := fun h => r3 (List.mem_of_mem_tail h)
  have r4t : ch '%' ∉ call.method.route.tail := fun h => r4 (List.mem_of_mem_tail h)
  have r5t : url.stringContainsCTLByte call.method.route.tail = false := by
    rw [r1] at r5
    have : url.stringContainsCTLByte (ch '/' :: call.method.route.tail) =
        (url.stringContainsCTLByte [ch '/'] || url.stringContainsCTLByte call.method.route.tail) :=
      ctl_append [ch '/'] _
    rw [this] at r5
    simp only [Bool.or_eq_false_iff] at r5
    exact r5.2
  obtain ⟨u, hu, hpath, -, -, -, hquery, hfrag⟩ := Parse_append_plain baseUrl
    (call.method.route.tail ++ call.pathArg) ub hq hf hbase hhost
    (by simp [r2t, h1]) (by simp [r3t, h2]) (by simp [r4t, h3])
    (by rw [ctl_append, r5t, h4]; rfl)
  rw [← e] at hu hpath
  obtain ⟨req, hreq⟩ := call_sent_one (NewClient net baseUrl token) call u hread hu
  have hmem : req ∈ ((NewClient net baseUrl token).call call).sent := by rw [hreq]; simp
  obtain ⟨-, -, u2, hu2, hurl⟩ := call_request hmem
  have : u2 = u := by
    have := hu2.symm.trans hu
    exact Except.ok.inj this
  subst this
  refine ⟨req, hreq, ?_, ?_, ?_⟩
  · rw [hurl]; simp only; rw [hpath, List.append_assoc]
  · rw [hurl]; exact hfrag
  · rw [hurl]
    simp only [url.URL.Query, hquery]
    rfl

/-- C5, as amended.  Let the base URL parse to a URL with a host and hold no
`?` and no `#`.  For every call whose phone number holds no `?`, no `#`, no
`%` and no control byte (and whose file, for the upload, is readable) the one
request sent has as path the path of the base URL, the fixed part of the
endpoint and the number as it is; its fragment is that of the base URL and
its query holds the named parameters of the call only. -/
theorem phone_number_path (net : http.Request → http.RoundTrip) (baseUrl token : GoString)
    (ub : url.URL) (call : Call)
    (hbase : url.Parse baseUrl = .ok ub) (hhost : ub.Host ≠ [])
    (hq : ch '?' ∉ baseUrl) (hf : ch '#' ∉ baseUrl)
    (hread : call.readError = none)
    (h1 : ch '?' ∉ call.pathArg) (h2 : ch '#' ∉ call.pathArg) (h3 : ch '%' ∉ call.pathArg)
    (h4 : url.stringContainsCTLByte call.pathArg = false) :
    ∃ req, ((NewClient net baseUrl token).call call).sent = [req] ∧
      req.URL.Path = ub.Path ++ call.method.route ++ call.pathArg ∧
      req.URL.Fragment = ub.Fragment ∧
      req.URL.RawQuery = url.Values.Encode
        (call.queryParams.foldl (fun q kv => q.Set kv.1 kv.2) []) :=
  plain_path_request net baseUrl token ub call hbase hhost hq hf hread h1 h2 h3 h4

/-- C5, as amended, at a concrete call: `GetMessages` with a number that
holds a space and a `+`. -/
theorem phone_number_path_witness :
    ∃ req, ((NewClient demo.okNet demo.baseUrl demo.token).call
        (.GetMessages (str "+91 99999"))).sent = [req] ∧
      req.URL.Path = ([] : GoString) ++ Method.route .GetMessages ++ str "+91 99999" ∧
      req.URL.Fragment = [] ∧
      req.URL.RawQuery = url.Values.Encode
        (([] : List (GoString × GoString)).foldl (fun q kv => q.Set kv.1 kv.2) []) :=
  phone_number_path demo.okNet demo.baseUrl demo.token
    { Scheme := str "https", Host := str "live-server.wati.io" } (.GetMessages (str "+91 99999"))
    (by decide) (by decide) (by decide) (by decide) rfl (by decide) (by decide) (by decide)
    (by decide)

/-- C5, the counterexample: for the number `1?x=y` the path of the request of
`GetMessages` is `/api/v1/getMessages/1`, not the fixed part followed by the
number, and the number has put `x=y` into the query string. -/
theorem phone_number_path_counterexample :
    ((NewClient demo.okNet demo.baseUrl demo.token).GetMessages (str "1?x=y")).sent.map
        (fun req => (req.URL.Path, req.URL.RawQuery))
      = [(str "/api/v1/getMessages/1", str "x=y")] ∧
    str "/api/v1/getMessages/1" ≠ str "/api/v1/getMessages/" ++ str "1?x=y" ∧
    str "x=y" ≠ [] := by
  decide

theorem route_path (base : GoString) (ub u : url.URL) (m : Method) (arg : GoString)
    (hq : ch '?' ∉ base) (hf : ch '#' ∉ base)
    (hb : url.Parse base = .ok ub) (hh : ub.Host ≠ [])
    (hu : url.Parse (base ++ (m.route ++ arg)) = .ok u) :
    ∃ rest, u.Path = ub.Path ++ m.route ++ rest := by
  obtain ⟨r1, r2, r3, r4, -⟩ := route_shape m
  have e : m.route ++ arg = ch '/' :: (m.route.tail ++ arg) := by
    conv_lhs => rw [r1]
    rfl
  rw [e] at hu
  obtain ⟨⟨p1, hp1, hpath⟩, -⟩ := Parse_append base _ ub u hq hf hb hh hu
  rw [← e, cut_append_left _ _ _ r3] at hp1
  simp only at hp1
  rw [cut_append_left _ _ _ r2] at hp1
  simp only at hp1
  rw [unescape_append encodePath _ m.route.length m.route m.route (le_refl _)
    (unescape_path_plain _ r4)] at hp1
  cases hr : url.unescape (strings.Cut (strings.Cut arg (ch '#')).1 (ch '?')).1 encodePath with
  | error e => rw [hr] at hp1; cases hp1
  | ok rest =>
    rw [hr] at hp1
    have := Except.ok.inj hp1
    exact ⟨rest, by rw [hpath, ← this, List.append_assoc]⟩

/-- C10, as amended.  Every call of a public method issues at most one
request, and exactly one unless the request cannot be built: the file of the
upload is read and the URL `baseUrl ++ route ++ number` parses; a call that
issues no request returns an error and no bytes.  The request
has the HTTP method of the endpoint table and the URL parsed from `baseUrl ++
route ++ number`; when the base URL parses to a URL with a host and holds no
`?` and no `#`, the path of the request starts with the path of the base URL
followed by the fixed route.  In the table `GetMedia` and `AssignOperator`
are the only two methods with the same HTTP method and route. -/
theorem endpoint_table (net : http.Request → http.RoundTrip) (baseUrl token : GoString)
    (call : Call) :
    ((NewClient net baseUrl token).call call).sent.length ≤ 1 ∧
    (((NewClient net baseUrl token).call call).sent.length = 1 ↔
      call.readError = none ∧
      ∃ u, url.Parse (baseUrl ++ (call.method.route ++ call.pathArg)) = .ok u) ∧
    (∀ req ∈ ((NewClient net baseUrl token).call call).sent,
      req.Method = call.method.verb ∧
      ∃ u, url.Parse (baseUrl ++ (call.method.route ++ call.pathArg)) = .ok u ∧
        req.URL = { u with
          Host := http.removeEmptyPort u.Host,
          RawQuery := url.Values.Encode
            (call.queryParams.foldl (fun q kv => q.Set kv.1 kv.2) u.Query) }) ∧
    (∀ ub, url.Parse baseUrl = .ok ub → ub.Host ≠ [] → ch '?' ∉ baseUrl → ch '#' ∉ baseUrl →
      ∀ req ∈ ((NewClient net baseUrl token).call call).sent,
        ∃ rest, req.URL.Path = ub.Path ++ call.method.route ++ rest) ∧
    (∀ m1 m2 : Method, m1 ≠ m2 →
      ((m1.verb = m2.verb ∧ m1.route = m2.route) ↔
        (m1 = .GetMedia ∧ m2 = .AssignOperator) ∨ (m1 = .AssignOperator ∧ m2 = .GetMedia))) ∧
    (((NewClient net baseUrl token).call call).sent = [] →
      ∃ err, ((NewClient net baseUrl token).call call).outcome = .returned none (some err)) := by
  refine ⟨call_sent_length _ _, ⟨?_, ?_⟩, ?_, ?_, ?_, ?_⟩
  · intro hlen
    have hne : ((NewClient net baseUrl token).call call).sent ≠ [] := by
      intro h0
      rw [h0] at hlen
      cases hlen
    obtain ⟨r, hread, hn, -, -⟩ := call_sent_mem (List.head_mem hne)
    obtain ⟨-, -, -, u, hu, -⟩ := NewRequest_ok hn
    exact ⟨hread, u, hu⟩
  · rintro ⟨hread, u, hu⟩
    obtain ⟨req, hreq⟩ := call_sent_one (NewClient net baseUrl token) call u hread hu
    rw [hreq]
    rfl
  · intro req hreq
    obtain ⟨h1, -, h3⟩ := call_request hreq
    exact ⟨h1, h3⟩
  · intro ub hb hh hq hf req hreq
    obtain ⟨-, -, u, hu, hurl⟩ := call_request hreq
    obtain ⟨rest, hrest⟩ := route_path baseUrl ub u call.method call.pathArg hq hf hb hh hu
    exact ⟨rest, by rw [hurl]; exact hrest⟩
  · intro m1 m2 hne
    cases m1 <;> cases m2 <;> first | exact absurd rfl hne | decide
  · rw [call_eq]
    cases call.readError with
    | some err => exact fun _ => ⟨err, rfl⟩
    | none =>
      cases http.NewRequest call.method.verb
          ((NewClient net baseUrl token).baseUrl ++ (call.method.route ++ call.pathArg))
          call.requestBody with
      | error err => exact fun _ => ⟨err, rfl⟩
      | ok r =>
        intro h
        simp only [send_sent] at h
        cases h

/-- C10, the counterexample: `GetMessages("%zz")` issues no request at all;
`http.NewRequest` rejects the URL and the method returns its error. -/
theorem endpoint_table_counterexample :
    (NewClient demo.okNet demo.baseUrl demo.token).call (.GetMessages (str "%zz"))
      = { sent := [],
          outcome := .returned none (some (.url "parse"
            (str "https://live-server.wati.io/api/v1/getMessages/%zz")
            (.escape (str "%zz")))) } ∧
    ([] : List http.Request).length ≠ 1 := by
  decide

/-! ## C8: the payloads through the encoder and the decoder -/

theorem fin_ofNat_val (n : Nat) : ((Fin.ofNat n : Fin 256)).val = n % 256 := rfl

theorem byte_lt (a b : Byte) : a < b ↔ a.val < b.val := Iff.rfl
theorem byte_le (a b : Byte) : a ≤ b ↔ a.val ≤ b.val := Iff.rfl

theorem first_class (s0 : Byte) :
    (s0 < 0x80 ∨ (¬ s0 < 0x80 ∧ (s0 < 0xC2 ∨ 0xF4 < s0))) ∨
    (¬ s0 < 0x80 ∧ ¬ (s0 < 0xC2 ∨ 0xF4 < s0) ∧ s0 < 0xE0) ∨
    (¬ s0 < 0x80 ∧ ¬ (s0 < 0xC2 ∨ 0xF4 < s0) ∧ ¬ s0 < 0xE0 ∧ s0 < 0xF0) ∨
    (¬ s0 < 0x80 ∧ ¬ (s0 < 0xC2 ∨ 0xF4 < s0) ∧ ¬ s0 < 0xE0 ∧ ¬ s0 < 0xF0) := by
  revert s0; decide!

theorem decode_ascii (s0 : Byte) (t : GoString) (h : s0 < 0x80) :
    utf8.DecodeRune (s0 :: t) = (s0.val, 1) := by
  simp only [utf8.DecodeRune, if_pos h]

theorem decode_bad (s0 : Byte) (t : GoString) (h : ¬ s0 < 0x80) (h2 : s0 < 0xC2 ∨ 0xF4 < s0) :
    utf8.DecodeRune (s0 :: t) = (utf8.RuneError, 1) := by
  simp only [utf8.DecodeRune, if_neg h, if_pos h2]

theorem decode_class2 (s0 : Byte) (rest : GoString) (h : ¬ s0 < 0x80)
    (h2 : ¬ (s0 < 0xC2 ∨ 0xF4 < s0)) (h3 : s0 < 0xE0) :
    utf8.DecodeRune (s0 :: rest) =
      match rest with
      | [] => (utf8.RuneError, 1)
      | s1 :: _ =>
        if s1 < 0x80 ∨ 0xBF < s1 then (utf8.RuneError, 1)
        else (s0.val % 32 * 64 + s1.val % 64, 2) := by
  have e : s0 ≠ 0xE0 ∧ s0 ≠ 0xF0 ∧ s0 ≠ 0xED ∧ s0 ≠ 0xF4 := by
    revert s0; decide!
  rcases rest with _ | ⟨s1, t⟩
  · simp [utf8.DecodeRune, if_neg h, if_neg h2, if_pos h3]
  · simp [utf8.DecodeRune, if_neg h, if_neg h2, if_pos h3, e.1, e.2.1, e.2.2.1, e.2.2.2]

theorem decode_class3 (s0 : Byte) (rest : GoString) (h : ¬ s0 < 0x80)
    (h2 : ¬ (s0 < 0xC2 ∨ 0xF4 < s0)) (h3 : ¬ s0 < 0xE0) (h4 : s0 < 0xF0) :
    utf8.DecodeRune (s0 :: rest) =
      match rest with
      | s1 :: s2 :: _ =>
        if s1 < (if s0 = 0xE0 then 0xA0 else 0x80) ∨ (if s0 = 0xED then 0x9F else 0xBF) < s1 then
          (utf8.RuneError, 1)
        else if s2 < 0x80 ∨ 0xBF < s2 then (utf8.RuneError, 1)
        else (s0.val % 16 * 4096 + s1.val % 64 * 64 + s2.val % 64, 3)
      | _ => (utf8.RuneError, 1) := by
  have e : s0 ≠ 0xF0 ∧ s0 ≠ 0xF4 := by
    revert s0; decide!
  rcases rest with _ | ⟨s1, _ | ⟨s2, t⟩⟩
  · simp [utf8.DecodeRune, if_neg h, if_neg h2, if_neg h3, if_pos h4]
  · simp [utf8.DecodeRune, if_neg h, if_neg h2, if_neg h3, if_pos h4]
  · simp [utf8.DecodeRune, if_neg h, if_neg h2, if_neg h3, if_pos h4, e.1, e.2]

theorem decode_class4 (s0 : Byte) (rest : GoString) (h : ¬ s0 < 0x80)
    (h2 : ¬ (s0 < 0xC2 ∨ 0xF4 < s0)) (h3 : ¬ s0 < 0xE0) (h4 : ¬ s0 < 0xF0) :
    utf8.DecodeRune (s0 :: rest) =
      match rest with
      | s1 :: s2 :: s3 :: _ =>
        if s1 < (if s0 = 0xF0 then 0x90 else 0x80) ∨ (if s0 = 0xF4 then 0x8F else 0xBF) < s1 then
          (utf8.RuneError, 1)
        else if s2 < 0x80 ∨ 0xBF < s2 then (utf8.RuneError, 1)
        else if s3 < 0x80 ∨ 0xBF < s3 then (utf8.RuneError, 1)
        else (s0.val % 8 * 262144 + s1.val % 64 * 4096 + s2.val % 64 * 64 + s3.val % 64, 4)
      | _ => (utf8.RuneError, 1) := by
  have e : s0 ≠ 0xE0 ∧ s0 ≠ 0xED := by
    revert s0; decide!
  rcases rest with _ | ⟨s1, _ | ⟨s2, _ | ⟨s3, t⟩⟩⟩
  · simp [utf8.DecodeRune, if_neg h, if_neg h2, if_neg h3, if_neg h4]
  · simp [utf8.DecodeRune, if_neg h, if_neg h2, if_neg h3, if_neg h4]
  · simp [utf8.DecodeRune, if_neg h, if_neg h2, if_neg h3, if_neg h4]
  · simp [utf8.DecodeRune, if_neg h, if_neg h2, if_neg h3, if_neg h4, e.1, e.2]
theorem encode_two (s0 s1 : Byte) (h : ¬ s0 < 0x80)
    (h2 : ¬ (s0 < 0xC2 ∨ 0xF4 < s0)) (h3 : s0 < 0xE0) (h5 : ¬ (s1 < 0x80 ∨ 0xBF < s1)) :
    utf8.EncodeRune (s0.val % 32 * 64 + s1.val % 64) = [s0, s1] := by
  simp only [byte_lt, not_or, not_lt] at h h2 h3 h5
  have b0 := s0.isLt
  have b1 := s1.isLt
  have k0 : (0x80 : Byte).val = 128 := rfl
  have k1 : (0xC2 : Byte).val = 194 := rfl
  have k2 : (0xF4 : Byte).val = 244 := rfl
  have k3 : (0xE0 : Byte).val = 224 := rfl
  have k4 : (0xBF : Byte).val = 191 := rfl
  rw [k0] at h h5; rw [k1, k2] at h2; rw [k3] at h3; rw [k4] at h5
  unfold utf8.EncodeRune
  rw [if_neg (by omega), if_pos (by omega)]
  congr 1
  · apply Fin.ext; rw [fin_ofNat_val]; omega
  · congr 1; apply Fin.ext; rw [fin_ofNat_val]; omega
theorem encode_three (s0 s1 s2 : Byte) (h : ¬ s0 < 0x80)
    (h2 : ¬ (s0 < 0xC2 ∨ 0xF4 < s0)) (h3 : ¬ s0 < 0xE0) (h4 : s0 < 0xF0)
    (h5 : ¬ (s1 < (if s0 = 0xE0 then 0xA0 else 0x80) ∨ (if s0 = 0xED then 0x9F else 0xBF) < s1))
    (h6 : ¬ (s2 < 0x80 ∨ 0xBF < s2)) :
    utf8.EncodeRune (s0.val % 16 * 4096 + s1.val % 64 * 64 + s2.val % 64) = [s0, s1, s2] := by
  have b0 := s0.isLt
  have b1 := s1.isLt
  have b2 := s2.isLt
  have q1 : s0.val = 224 → 160 ≤ s1.val := by
    intro e
    have e2 : s0 = 0xE0 := Fin.ext e
    rw [if_pos e2] at h5
    simp only [byte_lt, not_or, not_lt] at h5
    exact h5.1
  have q2 : s0.val = 237 → s1.val ≤ 159 := by
    intro e
    have e2 : s0 = 0xED := Fin.ext e
    rw [if_pos e2] at h5
    simp only [byte_lt, not_or, not_lt] at h5
    exact h5.2
  have q3 : 128 ≤ s1.val ∧ s1.val ≤ 191 := by
    constructor
    · by_cases e : s0 = 0xE0
      · have := q1 (congrArg Fin.val e); omega
      · rw [if_neg e] at h5
        simp only [byte_lt, not_or, not_lt] at h5
        exact h5.1
    · by_cases e : s0 = 0xED
      · have := q2 (congrArg Fin.val e); omega
      · rw [if_neg e] at h5
        simp only [byte_lt, not_or, not_lt] at h5
        exact h5.2
  simp only [byte_lt, not_or, not_lt] at h h2 h3 h4 h6
  have k0 : (0x80 : Byte).val = 128 := rfl
  have k3 : (0xE0 : Byte).val = 224 := rfl
  have k4 : (0xBF : Byte).val = 191 := rfl
  have k5 : (0xF0 : Byte).val = 240 := rfl
  rw [k0] at h h6; rw [k3] at h3; rw [k4] at h6; rw [k5] at h4
  unfold utf8.EncodeRune
  rw [if_neg (by omega), if_neg (by omega), if_neg (by omega), if_pos (by omega)]
  congr 1
  · apply Fin.ext; rw [fin_ofNat_val]; omega
  · congr 1
    · apply Fin.ext; rw [fin_ofNat_val]; omega
    · congr 1; apply Fin.ext; rw [fin_ofNat_val]; omega

theorem encode_four (s0 s1 s2 s3 : Byte) (h : ¬ s0 < 0x80)
    (h2 : ¬ (s0 < 0xC2 ∨ 0xF4 < s0)) (h3 : ¬ s0 < 0xE0) (h4 : ¬ s0 < 0xF0)
    (h5 : ¬ (s1 < (if s0 = 0xF0 then 0x90 else 0x80) ∨ (if s0 = 0xF4 then 0x8F else 0xBF) < s1))
    (h6 : ¬ (s2 < 0x80 ∨ 0xBF < s2)) (h7 : ¬ (s3 < 0x80 ∨ 0xBF < s3)) :
    utf8.EncodeRune (s0.val % 8 * 262144 + s1.val % 64 * 4096 + s2.val % 64 * 64 + s3.val % 64)
      = [s0, s1, s2, s3] := by
  have b0 := s0.isLt
  have b1 := s1.isLt
  have b2 := s2.isLt
  have b3 := s3.isLt
  have q1 : s0.val = 240 → 144 ≤ s1.val := by
    intro e
    have e2 : s0 = 0xF0 := Fin.ext e
    rw [if_pos e2] at h5
    simp only [byte_lt, not_or, not_lt] at h5
    exact h5.1
  have q2 : s0.val = 244 → s1.val ≤ 143 := by
    intro e
    have e2 : s0 = 0xF4 := Fin.ext e
    rw [if_pos e2] at h5
    simp only [byte_lt, not_or, not_lt] at h5
    exact h5.2
  have q3 : 128 ≤ s1.val ∧ s1.val ≤ 191 := by
    constructor
    · by_cases e : s0 = 0xF0
      · have := q1 (congrArg Fin.val e); omega
      · rw [if_neg e] at h5
        simp only [byte_lt, not_or, not_lt] at h5
        exact h5.1
    · by_cases e : s0 = 0xF4
      · have := q2 (congrArg Fin.val e); omega
      · rw [if_neg e] at h5
        simp only [byte_lt, not_or, not_lt] at h5
        exact h5.2
  simp only [byte_lt, not_or, not_lt] at h h2 h3 h4 h6 h7
  have k0 : (0x80 : Byte).val = 128 := rfl
  have k2 : (0xF4 : Byte).val = 244 := rfl
  have k4 : (0xBF : Byte).val = 191 := rfl
  have k5 : (0xF0 : Byte).val = 240 := rfl
  rw [k0] at h6 h7; rw [k2] at h2; rw [k4] at h6 h7; rw [k5] at h4
  unfold utf8.EncodeRune
  rw [if_neg (by omega), if_neg (by omega), if_neg (by omega), if_neg (by omega)]
  congr 1
  · apply Fin.ext; rw [fin_ofNat_val]; omega
  · congr 1
    · apply Fin.ext; rw [fin_ofNat_val]; omega
    · congr 1
      · apply Fin.ext; rw [fin_ofNat_val]; omega
      · congr 1; apply Fin.ext; rw [fin_ofNat_val]; omega

theorem parseStringBody_cons (fuel : Nat) (c : Byte) (rest : GoString) :
    json.parseStringBody (fuel + 1) (c :: rest) =
    if c = ch '"' then some ([], rest)
    else if c = ch '\\' then
      match rest with
      | [] => none
      | e :: rest1 =>
        if e = ch 'u' then
          match rest1 with
          | h1 :: h2 :: h3 :: h4 :: rest5 =>
            match json.getu4 h1 h2 h3 h4 with
            | none => none
            | some rr =>
              let single :=
                (json.parseStringBody fuel rest5).map
                  (fun r => (utf8.EncodeRune
                    (if 0xD800 ≤ rr ∧ rr < 0xE000 then utf8.RuneError else rr) ++ r.1, r.2))
              if 0xD800 ≤ rr ∧ rr < 0xE000 then
                match rest5 with
                | b1 :: u1 :: g1 :: g2 :: g3 :: g4 :: rest11 =>
                  if b1 = ch '\\' ∧ u1 = ch 'u' then
                    match json.getu4 g1 g2 g3 g4 with
                    | none => single
                    | some rr1 =>
                      match json.surrogatePair rr rr1 with
                      | some dec =>
                        (json.parseStringBody fuel rest11).map
                          (fun r => (utf8.EncodeRune dec ++ r.1, r.2))
                      | none => single
                  else single
                | _ => single
              else single
          | _ => none
        else
          match json.simpleEscape e with
          | none => none
          | some b => (json.parseStringBody fuel rest1).map (fun r => (b :: r.1, r.2))
    else if c < 0x20 then none
    else if c < 0x80 then (json.parseStringBody fuel rest).map (fun r => (c :: r.1, r.2))
    else
      match utf8.DecodeRune (c :: rest), rest with
      | (rr, 2), _ :: t =>
        (json.parseStringBody fuel t).map (fun r => (utf8.EncodeRune rr ++ r.1, r.2))
      | (rr, 3), _ :: _ :: t =>
        (json.parseStringBody fuel t).map (fun r => (utf8.EncodeRune rr ++ r.1, r.2))
      | (rr, 4), _ :: _ :: _ :: t =>
        (json.parseStringBody fuel t).map (fun r => (utf8.EncodeRune rr ++ r.1, r.2))
      | _, _ => (json.parseStringBody fuel rest).map (fun r => ([0xEF, 0xBF, 0xBD] ++ r.1, r.2)) := by
  rfl
theorem appendByte_form (b : Byte) (h : b < 0x80) :
    (json.appendByte b = [b] ∧ b ≠ ch '"' ∧ b ≠ ch '\\' ∧ ¬ b < 0x20) ∨
    (json.appendByte b = [ch '\\', (json.appendByte b).getD 1 0] ∧
      (json.appendByte b).getD 1 0 ≠ ch 'u' ∧
      json.simpleEscape ((json.appendByte b).getD 1 0) = some b) ∨
    (json.appendByte b = [ch '\\', ch 'u', (json.appendByte b).getD 2 0,
        (json.appendByte b).getD 3 0, (json.appendByte b).getD 4 0,
        (json.appendByte b).getD 5 0] ∧
      json.getu4 ((json.appendByte b).getD 2 0) ((json.appendByte b).getD 3 0)
        ((json.appendByte b).getD 4 0) ((json.appendByte b).getD 5 0) = some b.val) := by
  revert b; decide!

theorem parse_quote (n : Nat) (X : GoString) :
    json.parseStringBody (n + 1) (ch '"' :: X) = some ([], X) := by
  rw [parseStringBody_cons]; simp only [if_true]

theorem parse_plain (n : Nat) (c : Byte) (X : GoString) (h1 : c ≠ ch '"') (h2 : c ≠ ch '\\')
    (h3 : ¬ c < 0x20) (h4 : c < 0x80) :
    json.parseStringBody (n + 1) (c :: X)
      = (json.parseStringBody n X).map (fun r => (c :: r.1, r.2)) := by
  rw [parseStringBody_cons]; simp only [if_neg h1, if_neg h2, if_neg h3, if_pos h4]

theorem parse_simple (n : Nat) (e b : Byte) (X : GoString) (he : e ≠ ch 'u')
    (hs : json.simpleEscape e = some b) :
    json.parseStringBody (n + 1) (ch '\\' :: e :: X)
      = (json.parseStringBody n X).map (fun r => (b :: r.1, r.2)) := by
  rw [parseStringBody_cons]
  rw [if_neg (show ch '\\' ≠ ch '"' by decide), if_pos rfl]
  simp only [if_neg he, hs]

theorem parse_u4 (n : Nat) (h1 h2 h3 h4 : Byte) (rr : Nat) (X : GoString)
    (hg : json.getu4 h1 h2 h3 h4 = some rr) (hns : ¬ (0xD800 ≤ rr ∧ rr < 0xE000)) :
    json.parseStringBody (n + 1) (ch '\\' :: ch 'u' :: h1 :: h2 :: h3 :: h4 :: X)
      = (json.parseStringBody n X).map (fun r => (utf8.EncodeRune rr ++ r.1, r.2)) := by
  rw [parseStringBody_cons]
  rw [if_neg (show ch '\\' ≠ ch '"' by decide), if_pos rfl]
  simp only [hg, if_neg hns, if_true]

theorem parse_hi (n : Nat) (c : Byte) (rest : GoString) (h : ¬ c < 0x80) :
    json.parseStringBody (n + 1) (c :: rest) =
      match utf8.DecodeRune (c :: rest), rest with
      | (rr, 2), _ :: t =>
        (json.parseStringBody n t).map (fun r => (utf8.EncodeRune rr ++ r.1, r.2))
      | (rr, 3), _ :: _ :: t =>
        (json.parseStringBody n t).map (fun r => (utf8.EncodeRune rr ++ r.1, r.2))
      | (rr, 4), _ :: _ :: _ :: t =>
        (json.parseStringBody n t).map (fun r => (utf8.EncodeRune rr ++ r.1, r.2))
      | _, _ => (json.parseStringBody n rest).map (fun r => ([0xEF, 0xBF, 0xBD] ++ r.1, r.2)) := by
  have e : c ≠ ch '"' ∧ c ≠ ch '\\' ∧ ¬ c < 0x20 := by revert c; decide!
  rw [parseStringBody_cons, if_neg e.1, if_neg e.2.1, if_neg e.2.2, if_neg h]

theorem appendStringBody_cons (b : Byte) (rest : GoString) :
    json.appendStringBody (b :: rest) =
    if b < 0x80 then json.appendByte b ++ json.appendStringBody rest
    else
      match utf8.DecodeRune (b :: rest), rest with
      | (_, 2), s1 :: t => [b, s1] ++ json.appendStringBody t
      | (c, 3), s1 :: s2 :: t =>
        if c = 0x2028 ∨ c = 0x2029 then
          str "\\u202" ++ [json.hex (Fin.ofNat (c % 16))] ++ json.appendStringBody t
        else [b, s1, s2] ++ json.appendStringBody t
      | (_, 4), s1 :: s2 :: s3 :: t => [b, s1, s2, s3] ++ json.appendStringBody t
      | _, _ => str "\\ufffd" ++ json.appendStringBody rest := by
  conv => lhs; unfold json.appendStringBody
  rfl

theorem coerceUTF8_cons (b : Byte) (rest : GoString) :
    json.coerceUTF8 (b :: rest) =
    if b < 0x80 then b :: json.coerceUTF8 rest
    else
      match utf8.DecodeRune (b :: rest), rest with
      | (_, 2), s1 :: t => b :: s1 :: json.coerceUTF8 t
      | (_, 3), s1 :: s2 :: t => b :: s1 :: s2 :: json.coerceUTF8 t
      | (_, 4), s1 :: s2 :: s3 :: t => b :: s1 :: s2 :: s3 :: json.coerceUTF8 t
      | _, _ => [0xEF, 0xBF, 0xBD] ++ json.coerceUTF8 rest := by
  conv => lhs; unfold json.coerceUTF8
  rfl

theorem validString_cons (b : Byte) (rest : GoString) :
    utf8.ValidString (b :: rest) =
    if b < 0x80 then utf8.ValidString rest
    else
      match (utf8.DecodeRune (b :: rest)).2, rest with
      | 2, _ :: t => utf8.ValidString t
      | 3, _ :: _ :: t => utf8.ValidString t
      | 4, _ :: _ :: _ :: t => utf8.ValidString t
      | _, _ => false := by
  conv => lhs; unfold utf8.ValidString
  rfl

theorem appendByte_cases (b : Byte) (h : b < 0x80) :
    (json.appendByte b = [b] ∧ b ≠ ch '"' ∧ b ≠ ch '\\' ∧ ¬ b < 0x20) ∨
    (∃ e, json.appendByte b = [ch '\\', e] ∧ e ≠ ch 'u' ∧ json.simpleEscape e = some b) ∨
    (∃ h1 h2 h3 h4, json.appendByte b = [ch '\\', ch 'u', h1, h2, h3, h4] ∧
      json.getu4 h1 h2 h3 h4 = some b.val) := by
  rcases appendByte_form b h with p | p | p
  · exact Or.inl p
  · exact Or.inr (Or.inl ⟨_, p⟩)
  · exact Or.inr (Or.inr ⟨_, _, _, _, p⟩)

theorem encode_ascii (b : Byte) (h : b < 0x80) : utf8.EncodeRune b.val = [b] := by
  revert b; decide!

theorem parse_appendByte (n : Nat) (b : Byte) (h : b < 0x80) (Y : GoString) :
    json.parseStringBody (n + 1) (json.appendByte b ++ Y)
      = (json.parseStringBody n Y).map (fun r => (b :: r.1, r.2)) := by
  rcases appendByte_cases b h with ⟨e, p1, p2, p3⟩ | ⟨x, e, p1, p2⟩ | ⟨h1, h2, h3, h4, e, p⟩
  · rw [e]; exact parse_plain n b Y p1 p2 p3 h
  · rw [e]; exact parse_simple n x b Y p1 p2
  · rw [e]
    have hb : b.val < 128 := h
    rw [show [ch '\\', ch 'u', h1, h2, h3, h4] ++ Y = ch '\\' :: ch 'u' :: h1 :: h2 :: h3 :: h4 :: Y
      from rfl, parse_u4 n h1 h2 h3 h4 b.val Y p (by omega), encode_ascii b h]
    rfl

theorem parse_replacement (n : Nat) (Y : GoString) :
    json.parseStringBody (n + 1) (str "\\ufffd" ++ Y)
      = (json.parseStringBody n Y).map (fun r => ([0xEF, 0xBF, 0xBD] ++ r.1, r.2)) := by
  rw [show str "\\ufffd" ++ Y = ch '\\' :: ch 'u' :: ch 'f' :: ch 'f' :: ch 'f' :: ch 'd' :: Y
    from rfl, parse_u4 n _ _ _ _ 0xFFFD Y (by decide) (by decide)]
  rfl

theorem appendByte_length (b : Byte) : 1 ≤ (json.appendByte b).length := by
  revert b; decide!

theorem append_bad (b : Byte) (rest : GoString) (h : ¬ b < 0x80)
    (hd : utf8.DecodeRune (b :: rest) = (utf8.RuneError, 1)) :
    json.appendStringBody (b :: rest) = str "\\ufffd" ++ json.appendStringBody rest := by
  rw [appendStringBody_cons, if_neg h, hd]

theorem coerce_bad (b : Byte) (rest : GoString) (h : ¬ b < 0x80)
    (hd : utf8.DecodeRune (b :: rest) = (utf8.RuneError, 1)) :
    json.coerceUTF8 (b :: rest) = [0xEF, 0xBF, 0xBD] ++ json.coerceUTF8 rest := by
  rw [coerceUTF8_cons, if_neg h, hd]

theorem valid_bad (b : Byte) (rest : GoString) (h : ¬ b < 0x80)
    (hd : utf8.DecodeRune (b :: rest) = (utf8.RuneError, 1)) :
    utf8.ValidString (b :: rest) = false := by
  rw [validString_cons, if_neg h, hd]
theorem append_two (b s1 : Byte) (t : GoString) (r : Nat) (h : ¬ b < 0x80)
    (hd : utf8.DecodeRune (b :: s1 :: t) = (r, 2)) :
    json.appendStringBody (b :: s1 :: t) = [b, s1] ++ json.appendStringBody t := by
  rw [appendStringBody_cons, if_neg h, hd]

theorem coerce_two (b s1 : Byte) (t : GoString) (r : Nat) (h : ¬ b < 0x80)
    (hd : utf8.DecodeRune (b :: s1 :: t) = (r, 2)) :
    json.coerceUTF8 (b :: s1 :: t) = b :: s1 :: json.coerceUTF8 t := by
  rw [coerceUTF8_cons, if_neg h, hd]

theorem valid_two (b s1 : Byte) (t : GoString) (r : Nat) (h : ¬ b < 0x80)
    (hd : utf8.DecodeRune (b :: s1 :: t) = (r, 2)) :
    utf8.ValidString (b :: s1 :: t) = utf8.ValidString t := by
  rw [validString_cons, if_neg h, hd]
  rfl

theorem parse_two (n : Nat) (b s1 : Byte) (t : GoString) (r : Nat) (h : ¬ b < 0x80)
    (hd : utf8.DecodeRune (b :: s1 :: t) = (r, 2)) :
    json.parseStringBody (n + 1) (b :: s1 :: t)
      = (json.parseStringBody n t).map (fun q => (utf8.EncodeRune r ++ q.1, q.2)) := by
  rw [parse_hi n b _ h, hd]

theorem append_three (b s1 s2 : Byte) (t : GoString) (r : Nat) (h : ¬ b < 0x80)
    (hd : utf8.DecodeRune (b :: s1 :: s2 :: t) = (r, 3)) :
    json.appendStringBody (b :: s1 :: s2 :: t) =
      if r = 0x2028 ∨ r = 0x2029 then
        str "\\u202" ++ [json.hex (Fin.ofNat (r % 16))] ++ json.appendStringBody t
      else [b, s1, s2] ++ json.appendStringBody t := by
  rw [appendStringBody_cons, if_neg h, hd]

theorem coerce_three (b s1 s2 : Byte) (t : GoString) (r : Nat) (h : ¬ b < 0x80)
    (hd : utf8.DecodeRune (b :: s1 :: s2 :: t) = (r, 3)) :
    json.coerceUTF8 (b :: s1 :: s2 :: t) = b :: s1 :: s2 :: json.coerceUTF8 t := by
  rw [coerceUTF8_cons, if_neg h, hd]

theorem valid_three (b s1 s2 : Byte) (t : GoString) (r : Nat) (h : ¬ b < 0x80)
    (hd : utf8.DecodeRune (b :: s1 :: s2 :: t) = (r, 3)) :
    utf8.ValidString (b :: s1 :: s2 :: t) = utf8.ValidString t := by
  rw [validString_cons, if_neg h, hd]
  rfl

theorem parse_three (n : Nat) (b s1 s2 : Byte) (t : GoString) (r : Nat) (h : ¬ b < 0x80)
    (hd : utf8.DecodeRune (b :: s1 :: s2 :: t) = (r, 3)) :
    json.parseStringBody (n + 1) (b :: s1 :: s2 :: t)
      = (json.parseStringBody n t).map (fun q => (utf8.EncodeRune r ++ q.1, q.2)) := by
  rw [parse_hi n b _ h, hd]

theorem append_four (b s1 s2 s3 : Byte) (t : GoString) (r : Nat) (h : ¬ b < 0x80)
    (hd : utf8.DecodeRune (b :: s1 :: s2 :: s3 :: t) = (r, 4)) :
    json.appendStringBody (b :: s1 :: s2 :: s3 :: t)
      = [b, s1, s2, s3] ++ json.appendStringBody t := by
  rw [appendStringBody_cons, if_neg h, hd]

theorem coerce_four (b s1 s2 s3 : Byte) (t : GoString) (r : Nat) (h : ¬ b < 0x80)
    (hd : utf8.DecodeRune (b :: s1 :: s2 :: s3 :: t) = (r, 4)) :
    json.coerceUTF8 (b :: s1 :: s2 :: s3 :: t) = b :: s1 :: s2 :: s3 :: json.coerceUTF8 t := by
  rw [coerceUTF8_cons, if_neg h, hd]

theorem valid_four (b s1 s2 s3 : Byte) (t : GoString) (r : Nat) (h : ¬ b < 0x80)
    (hd : utf8.DecodeRune (b :: s1 :: s2 :: s3 :: t) = (r, 4)) :
    utf8.ValidString (b :: s1 :: s2 :: s3 :: t) = utf8.ValidString t := by
  rw [validString_cons, if_neg h, hd]
  rfl

theorem parse_four (n : Nat) (b s1 s2 s3 : Byte) (t : GoString) (r : Nat) (h : ¬ b < 0x80)
    (hd : utf8.DecodeRune (b :: s1 :: s2 :: s3 :: t) = (r, 4)) :
    json.parseStringBody (n + 1) (b :: s1 :: s2 :: s3 :: t)
      = (json.parseStringBody n t).map (fun q => (utf8.EncodeRune r ++ q.1, q.2)) := by
  rw [parse_hi n b _ h, hd]

theorem lead_cases (b : Byte) (rest : GoString) (h : ¬ b < 0x80) : utf8.Lead b rest := by
  rcases first_class b with (h1 | ⟨_, h2⟩) | ⟨_, h2, h3⟩ | ⟨_, h2, h3, h4⟩ | ⟨_, h2, h3, h4⟩
  · exact absurd h1 h
  · exact .bad (decode_bad b rest h h2)
  · rcases rest with _ | ⟨s1, t⟩
    · exact .bad (by rw [decode_class2 b _ h h2 h3])
    · by_cases hc : s1 < 0x80 ∨ 0xBF < s1
      · exact .bad (by rw [decode_class2 b _ h h2 h3]; simp only [if_pos hc])
      · refine .two s1 t _ rfl (fun t2 => ?_) (encode_two b s1 h h2 h3 hc)
        rw [decode_class2 b _ h h2 h3]; simp only [if_neg hc]
  · rcases rest with _ | ⟨s1, _ | ⟨s2, t⟩⟩
    · exact .bad (by rw [decode_class3 b _ h h2 h3 h4])
    · exact .bad (by rw [decode_class3 b _ h h2 h3 h4])
    · by_cases hc : s1 < (if b = 0xE0 then 0xA0 else 0x80) ∨ (if b = 0xED then 0x9F else 0xBF) < s1
      · exact .bad (by rw [decode_class3 b _ h h2 h3 h4]; simp only [if_pos hc])
      · by_cases hc2 : s2 < 0x80 ∨ 0xBF < s2
        · exact .bad (by rw [decode_class3 b _ h h2 h3 h4]; simp only [if_neg hc, if_pos hc2])
        · refine .three s1 s2 t _ rfl (fun t2 => ?_) (encode_three b s1 s2 h h2 h3 h4 hc hc2)
          rw [decode_class3 b _ h h2 h3 h4]; simp only [if_neg hc, if_neg hc2]
  · rcases rest with _ | ⟨s1, _ | ⟨s2, _ | ⟨s3, t⟩⟩⟩
    · exact .bad (by rw [decode_class4 b _ h h2 h3 h4])
    · exact .bad (by rw [decode_class4 b _ h h2 h3 h4])
    · exact .bad (by rw [decode_class4 b _ h h2 h3 h4])
    · by_cases hc : s1 < (if b = 0xF0 then 0x90 else 0x80) ∨ (if b = 0xF4 then 0x8F else 0xBF) < s1
      · exact .bad (by rw [decode_class4 b _ h h2 h3 h4]; simp only [if_pos hc])
      · by_cases hc2 : s2 < 0x80 ∨ 0xBF < s2
        · exact .bad (by rw [decode_class4 b _ h h2 h3 h4]; simp only [if_neg hc, if_pos hc2])
        · by_cases hc3 : s3 < 0x80 ∨ 0xBF < s3
          · exact .bad (by
              rw [decode_class4 b _ h h2 h3 h4]; simp only [if_neg hc, if_neg hc2, if_pos hc3])
          · refine .four s1 s2 s3 t _ rfl (fun t2 => ?_)
              (encode_four b s1 s2 s3 h h2 h3 h4 hc hc2 hc3)
            rw [decode_class4 b _ h h2 h3 h4]; simp only [if_neg hc, if_neg hc2, if_neg hc3]

theorem u202_parse (n : Nat) (r : Nat) (Y : GoString) (hr : r = 0x2028 ∨ r = 0x2029) :
    json.parseStringBody (n + 1) (str "\\u202" ++ [json.hex (Fin.ofNat (r % 16))] ++ Y)
      = (json.parseStringBody n Y).map (fun q => (utf8.EncodeRune r ++ q.1, q.2)) := by
  rcases hr with e | e <;> subst e
  · exact parse_u4 n (ch '2') (ch '0') (ch '2') (ch '8') 0x2028 Y (by decide) (by decide)
  · exact parse_u4 n (ch '2') (ch '0') (ch '2') (ch '9') 0x2029 Y (by decide) (by decide)

theorem parse_appendStringBody (k : Nat) : ∀ (s : GoString), s.length ≤ k →
    ∀ (n : Nat) (X : GoString), (json.appendStringBody s).length < n →
      json.parseStringBody n (json.appendStringBody s ++ ch '"' :: X)
        = some (json.coerceUTF8 s, X) := by
  induction k with
  | zero =>
    intro s hs n X hn
    have : s = [] := List.length_eq_zero.mp (Nat.le_zero.mp hs)
    subst this
    obtain ⟨m, rfl⟩ : ∃ m, n = m + 1 := ⟨n - 1, by omega⟩
    exact parse_quote m X
  | succ k ih =>
    intro s hs n X hn
    rcases s with _ | ⟨b, rest⟩
    · obtain ⟨m, rfl⟩ : ∃ m, n = m + 1 := ⟨n - 1, by omega⟩
      exact parse_quote m X
    · have hrest : rest.length ≤ k := by simpa using hs
      by_cases h : b < 0x80
      · rw [appendStringBody_cons, if_pos h] at hn ⊢
        rw [coerceUTF8_cons, if_pos h]
        have h1 := appendByte_length b
        rw [List.length_append] at hn
        obtain ⟨m, rfl⟩ : ∃ m, n = m + 1 := ⟨n - 1, by omega⟩
        rw [List.append_assoc, parse_appendByte m b h, ih rest hrest m X (by omega)]
        rfl
      · rcases lead_cases b rest h with hd | ⟨s1, t, r, e, hd, he⟩ | ⟨s1, s2, t, r, e, hd, he⟩
            | ⟨s1, s2, s3, t, r, e, hd, he⟩
        · rw [append_bad b rest h hd] at hn ⊢
          rw [coerce_bad b rest h hd]
          rw [List.length_append, show (str "\\ufffd").length = 6 from rfl] at hn
          obtain ⟨m, rfl⟩ : ∃ m, n = m + 1 := ⟨n - 1, by omega⟩
          rw [List.append_assoc, parse_replacement m, ih rest hrest m X (by omega)]
          rfl
        · subst e
          have ht : t.length ≤ k := by simp at hrest; omega
          rw [append_two b s1 t r h (hd t)] at hn ⊢
          rw [coerce_two b s1 t r h (hd t)]
          rw [List.length_append] at hn
          simp only [List.length_cons, List.length_nil] at hn
          obtain ⟨m, rfl⟩ : ∃ m, n = m + 1 := ⟨n - 1, by omega⟩
          rw [show [b, s1] ++ json.appendStringBody t ++ ch '"' :: X
                = b :: s1 :: (json.appendStringBody t ++ ch '"' :: X) from rfl,
            parse_two m b s1 _ r h (hd _), ih t ht m X (by omega), he]
          rfl
        · subst e
          have ht : t.length ≤ k := by simp at hrest; omega
          rw [append_three b s1 s2 t r h (hd t)] at hn ⊢
          rw [coerce_three b s1 s2 t r h (hd t)]
          by_cases hr : r = 0x2028 ∨ r = 0x2029
          · rw [if_pos hr] at hn ⊢
            rw [List.length_append, List.length_append, show (str "\\u202").length = 5 from rfl,
              List.length_singleton] at hn
            obtain ⟨m, rfl⟩ : ∃ m, n = m + 1 := ⟨n - 1, by omega⟩
            rw [List.append_assoc, u202_parse m r _ hr, ih t ht m X (by omega), he]
            rfl
          · rw [if_neg hr] at hn ⊢
            rw [List.length_append] at hn
            simp only [List.length_cons, List.length_nil] at hn
            obtain ⟨m, rfl⟩ : ∃ m, n = m + 1 := ⟨n - 1, by omega⟩
            rw [show [b, s1, s2] ++ json.appendStringBody t ++ ch '"' :: X
                  = b :: s1 :: s2 :: (json.appendStringBody t ++ ch '"' :: X) from rfl,
              parse_three m b s1 s2 _ r h (hd _), ih t ht m X (by omega), he]
            rfl
        · subst e
          have ht : t.length ≤ k := by simp at hrest; omega
          rw [append_four b s1 s2 s3 t r h (hd t)] at hn ⊢
          rw [coerce_four b s1 s2 s3 t r h (hd t)]
          rw [List.length_append] at hn
          simp only [List.length_cons, List.length_nil] at hn
          obtain ⟨m, rfl⟩ : ∃ m, n = m + 1 := ⟨n - 1, by omega⟩
          rw [show [b, s1, s2, s3] ++ json.appendStringBody t ++ ch '"' :: X
                = b :: s1 :: s2 :: s3 :: (json.appendStringBody t ++ ch '"' :: X) from rfl,
            parse_four m b s1 s2 s3 _ r h (hd _), ih t ht m X (by omega), he]
          rfl

theorem coerce_valid (k : Nat) : ∀ (s : GoString), s.length ≤ k →
    utf8.ValidString s = true → json.coerceUTF8 s = s := by
  induction k with
  | zero =>
    intro s hs _
    have : s = [] := List.length_eq_zero.mp (Nat.le_zero.mp hs)
    subst this; rfl
  | succ k ih =>
    intro s hs hv
    rcases s with _ | ⟨b, rest⟩
    · rfl
    · have hrest : rest.length ≤ k := by simpa using hs
      by_cases h : b < 0x80
      · rw [validString_cons, if_pos h] at hv
        rw [coerceUTF8_cons, if_pos h, ih rest hrest hv]
      · rcases lead_cases b rest h with hd | ⟨s1, t, r, e, hd, he⟩ | ⟨s1, s2, t, r, e, hd, he⟩
            | ⟨s1, s2, s3, t, r, e, hd, he⟩
        · rw [valid_bad b rest h hd] at hv; exact absurd hv (by decide)
        · subst e
          have ht : t.length ≤ k := by simp at hrest; omega
          rw [valid_two b s1 t r h (hd t)] at hv
          rw [coerce_two b s1 t r h (hd t), ih t ht hv]
        · subst e
          have ht : t.length ≤ k := by simp at hrest; omega
          rw [valid_three b s1 s2 t r h (hd t)] at hv
          rw [coerce_three b s1 s2 t r h (hd t), ih t ht hv]
        · subst e
          have ht : t.length ≤ k := by simp at hrest; omega
          rw [valid_four b s1 s2 s3 t r h (hd t)] at hv
          rw [coerce_four b s1 s2 s3 t r h (hd t), ih t ht hv]

theorem coerceUTF8_of_valid (s : GoString) (h : utf8.ValidString s = true) :
    json.coerceUTF8 s = s := coerce_valid s.length s (Nat.le_refl _) h

theorem parseString_appendString (s X : GoString) :
    json.parseString (json.appendStringBody s ++ ch '"' :: X) = some (json.coerceUTF8 s, X) := by
  unfold json.parseString
  exact parse_appendStringBody s.length s (Nat.le_refl _) _ X
    (by rw [List.length_append, List.length_cons]; omega)

theorem parseValue_succ (fuel : Nat) (s : GoString) :
    json.parseValue (fuel + 1) s =
    match json.skipSpace s with
    | [] => none
    | c :: t =>
      if c = ch '"' then (json.parseString t).map (fun r => (JSON.string r.1, r.2))
      else if c = 0x7B then
        match json.skipSpace t with
        | [] => none
        | d :: t1 =>
          if d = 0x7D then some (JSON.object [], t1)
          else (json.parseMembers fuel (d :: t1)).map (fun r => (JSON.object r.1, r.2))
      else if c = ch '[' then
        match json.skipSpace t with
        | [] => none
        | d :: t1 =>
          if d = ch ']' then some (JSON.array [], t1)
          else (json.parseElems fuel (d :: t1)).map (fun r => (JSON.array r.1, r.2))
      else if strings.HasPrefix (c :: t) (str "null") then some (JSON.null, (c :: t).drop 4)
      else if strings.HasPrefix (c :: t) (str "true") then some (JSON.bool true, (c :: t).drop 4)
      else if strings.HasPrefix (c :: t) (str "false") then
        some (JSON.bool false, (c :: t).drop 5)
      else (json.parseNumber (c :: t)).map (fun r => (JSON.number r.1, r.2)) := by
  rfl

theorem parseElems_succ (fuel : Nat) (s : GoString) :
    json.parseElems (fuel + 1) s =
    match json.parseValue fuel s with
    | none => none
    | some (v, r) =>
      match json.skipSpace r with
      | [] => none
      | c :: t =>
        if c = ch ',' then (json.parseElems fuel t).map (fun q => (v :: q.1, q.2))
        else if c = ch ']' then some ([v], t)
        else none := by
  rfl

theorem parseMembers_succ (fuel : Nat) (s : GoString) :
    json.parseMembers (fuel + 1) s =
    match json.skipSpace s with
    | [] => none
    | q :: t =>
      if q = ch '"' then
        match json.parseString t with
        | none => none
        | some (k, r) =>
          match json.skipSpace r with
          | [] => none
          | colon :: r1 =>
            if colon = ch ':' then
              match json.parseValue fuel r1 with
              | none => none
              | some (v, r2) =>
                match json.skipSpace r2 with
                | [] => none
                | c :: r3 =>
                  if c = ch ',' then
                    (json.parseMembers fuel r3).map (fun m => ((k, v) :: m.1, m.2))
                  else if c = 0x7D then some ([(k, v)], r3)
                  else none
            else none
      else none := by
  rfl

theorem skipSpace_cons (c : Byte) (t : GoString) (h : json.isSpace c = false) :
    json.skipSpace (c :: t) = c :: t := by
  rw [json.skipSpace, h]; rfl

theorem render_head (v : JSON) (hp : JSON.plain v = true) :
    ∃ c t, JSON.render v = c :: t ∧ json.isSpace c = false ∧ c ≠ ch ']' ∧ c ≠ 0x7D := by
  cases v with
  | null => exact ⟨ch 'n', str "ull", rfl, by decide⟩
  | bool b => cases b
              · exact ⟨ch 'f', str "alse", rfl, by decide⟩
              · exact ⟨ch 't', str "rue", rfl, by decide⟩
  | number t => exact absurd hp (by simp [JSON.plain])
  | string s => exact ⟨ch '"', json.appendStringBody s ++ [ch '"'], rfl, by decide⟩
  | array xs => exact ⟨ch '[', JSON.renderElems xs ++ [ch ']'], by simp [JSON.render], by decide⟩
  | object kvs => exact ⟨0x7B, JSON.renderFields kvs ++ [0x7D], by simp [JSON.render], by decide⟩
theorem render_append_head (v : JSON) (hp : JSON.plain v = true) (X : GoString) :
    ∃ c t, JSON.render v ++ X = c :: t ∧ json.isSpace c = false ∧ c ≠ ch ']' ∧ c ≠ 0x7D := by
  obtain ⟨c, t, e, h⟩ := render_head v hp
  exact ⟨c, t ++ X, by rw [e]; rfl, h⟩

theorem renderElems_head (x : JSON) (xs : List JSON) (hp : JSON.plain x = true) (X : GoString) :
    ∃ c t, JSON.renderElems (x :: xs) ++ X = c :: t ∧ json.isSpace c = false ∧ c ≠ ch ']' := by
  obtain ⟨c, t, e, h⟩ := render_head x hp
  rcases xs with _ | ⟨y, rest⟩
  · exact ⟨c, t ++ X, by rw [JSON.renderElems, e]; rfl, h.1, h.2.1⟩
  · exact ⟨c, t ++ ([ch ','] ++ JSON.renderElems (y :: rest)) ++ X,
      by rw [JSON.renderElems, e]; simp, h.1, h.2.1⟩

theorem renderFields_head (k : GoString) (v : JSON) (kvs : List (GoString × JSON))
    (X : GoString) :
    ∃ t, JSON.renderFields ((k, v) :: kvs) ++ X = ch '"' :: t := by
  rcases kvs with _ | ⟨y, rest⟩
  · exact ⟨_, by rw [JSON.renderFields, json.appendString]; simp; rfl⟩
  · exact ⟨_, by rw [JSON.renderFields, json.appendString]; simp; rfl⟩

theorem fuel_succ (fuel k : Nat) (h : k + 1 ≤ fuel) : ∃ m, fuel = m + 1 ∧ k ≤ m :=
  ⟨fuel - 1, by omega, by omega⟩

theorem hasPrefix_append (p X : GoString) : strings.HasPrefix (p ++ X) p = true := by
  unfold strings.HasPrefix
  rw [List.isPrefixOf_iff_prefix]
  exact List.prefix_append p X

theorem hasPrefix_other (a b : Byte) (p q X : GoString) (h : a ≠ b) :
    strings.HasPrefix (a :: p ++ X) (b :: q) = false := by
  unfold strings.HasPrefix
  rw [← Bool.not_eq_true, List.isPrefixOf_iff_prefix]
  intro hp
  obtain ⟨t, ht⟩ := hp
  simp only [List.cons_append, List.cons.injEq] at ht
  exact h ht.1.symm

mutual
theorem parseValue_render : ∀ (v : JSON), JSON.plain v = true → ∀ (fuel : Nat) (X : GoString),
    JSON.size v ≤ fuel → json.parseValue fuel (JSON.render v ++ X) = some (JSON.coerce v, X)
  | .null, _, fuel, X, hf => by
    obtain ⟨m, rfl, _⟩ := fuel_succ fuel 0 (by simpa [JSON.size] using hf)
    rw [parseValue_succ]
    simp only [JSON.render, if_true, Bool.false_eq_true, if_false]
    have e : str "null" ++ X = ch 'n' :: (str "ull" ++ X) := rfl
    rw [e, skipSpace_cons (ch 'n') _ (by decide)]
    simp only [if_neg (show ch 'n' ≠ ch '"' by decide),
      if_neg (show ch 'n' ≠ (0x7B : Byte) by decide),
      if_neg (show ch 'n' ≠ ch '[' by decide)]
    rw [← e]
    simp only [hasPrefix_append, hasPrefix_other, if_true, Bool.false_eq_true, if_false,
      JSON.coerce]
    rfl
  | .bool true, _, fuel, X, hf => by
    obtain ⟨m, rfl, _⟩ := fuel_succ fuel 0 (by simpa [JSON.size] using hf)
    rw [parseValue_succ]
    simp only [JSON.render, if_true, Bool.false_eq_true, if_false]
    have e : str "true" ++ X = ch 't' :: (str "rue" ++ X) := rfl
    rw [e, skipSpace_cons (ch 't') _ (by decide)]
    simp only [if_neg (show ch 't' ≠ ch '"' by decide),
      if_neg (show ch 't' ≠ (0x7B : Byte) by decide),
      if_neg (show ch 't' ≠ ch '[' by decide)]
    rw [← e]
    simp only [hasPrefix_append, hasPrefix_other, if_true, Bool.false_eq_true, if_false,
      JSON.coerce]
    rfl
  | .bool false, _, fuel, X, hf => by
    obtain ⟨m, rfl, _⟩ := fuel_succ fuel 0 (by simpa [JSON.size] using hf)
    rw [parseValue_succ]
    simp only [JSON.render, if_true, Bool.false_eq_true, if_false]
    have e : str "false" ++ X = ch 'f' :: (str "alse" ++ X) := rfl
    rw [e, skipSpace_cons (ch 'f') _ (by decide)]
    simp only [if_neg (show ch 'f' ≠ ch '"' by decide),
      if_neg (show ch 'f' ≠ (0x7B : Byte) by decide),
      if_neg (show ch 'f' ≠ ch '[' by decide)]
    rw [← e]
    simp only [hasPrefix_append, hasPrefix_other, if_true, Bool.false_eq_true, if_false,
      JSON.coerce]
    rfl
  | .number _, hp, _, _, _ => by simp [JSON.plain] at hp
  | .string s, _, fuel, X, hf => by
    obtain ⟨m, rfl, _⟩ := fuel_succ fuel 0 (by simpa [JSON.size] using hf)
    rw [parseValue_succ]
    rw [show JSON.render (.string s) ++ X = ch '"' :: (json.appendStringBody s ++ ch '"' :: X) by
      simp [JSON.render, json.appendString]]
    rw [skipSpace_cons _ _ (by decide)]
    simp only [if_true, parseString_appendString, Option.map, JSON.coerce]
  | .array [], _, fuel, X, hf => by
    obtain ⟨m, rfl, _⟩ := fuel_succ fuel 0 (by simpa [JSON.size] using hf)
    rfl
  | .array (x :: xs), hp, fuel, X, hf => by
    obtain ⟨m, rfl, hm⟩ := fuel_succ fuel (JSON.sizeElems (x :: xs))
      (by simp only [JSON.size] at hf; omega)
    have hpx : JSON.plain x = true ∧ JSON.plainElems xs = true := by
      simpa [JSON.plain, JSON.plainElems] using hp
    rw [parseValue_succ]
    rw [show JSON.render (.array (x :: xs)) ++ X
        = ch '[' :: (JSON.renderElems (x :: xs) ++ ch ']' :: X) by simp [JSON.render]]
    rw [skipSpace_cons _ _ (by decide)]
    obtain ⟨c, t, e, h1, h2⟩ := renderElems_head x xs hpx.1 (ch ']' :: X)
    have ih := parseElems_render (x :: xs) (by simp) (by simpa [JSON.plain] using hp) m X hm
    rw [e] at ih ⊢
    simp only [if_neg (show ch '[' ≠ ch '"' by decide), if_neg (show ch '[' ≠ (0x7B : Byte) by decide),
      if_true, skipSpace_cons _ _ h1, if_neg h2, ih, Option.map, JSON.coerce]
  | .object [], _, fuel, X, hf => by
    obtain ⟨m, rfl, _⟩ := fuel_succ fuel 0 (by simpa [JSON.size] using hf)
    rfl
  | .object ((k, v) :: kvs), hp, fuel, X, hf => by
    obtain ⟨m, rfl, hm⟩ := fuel_succ fuel (JSON.sizeFields ((k, v) :: kvs))
      (by simp only [JSON.size] at hf; omega)
    rw [parseValue_succ]
    rw [show JSON.render (.object ((k, v) :: kvs)) ++ X
        = 0x7B :: (JSON.renderFields ((k, v) :: kvs) ++ 0x7D :: X) by simp [JSON.render]]
    rw [skipSpace_cons _ _ (by decide)]
    obtain ⟨t, e⟩ := renderFields_head k v kvs (0x7D :: X)
    have ih := parseMembers_render ((k, v) :: kvs) (by simp) (by simpa [JSON.plain] using hp) m X hm
    rw [e] at ih ⊢
    simp only [if_neg (show (0x7B : Byte) ≠ ch '"' by decide), if_true,
      skipSpace_cons _ _ (show json.isSpace (ch '"') = false by decide),
      if_neg (show ch '"' ≠ (0x7D : Byte) by decide), ih, Option.map, JSON.coerce]
theorem parseElems_render : ∀ (xs : List JSON), xs ≠ [] → JSON.plainElems xs = true →
    ∀ (fuel : Nat) (X : GoString), JSON.sizeElems xs ≤ fuel →
      json.parseElems fuel (JSON.renderElems xs ++ ch ']' :: X) = some (JSON.coerceElems xs, X)
  | [], h, _, _, _, _ => absurd rfl h
  | [x], _, hp, fuel, X, hf => by
    obtain ⟨m, rfl, hm⟩ := fuel_succ fuel (JSON.size x)
      (by simp only [JSON.sizeElems] at hf; omega)
    have hpx : JSON.plain x = true := by simpa [JSON.plainElems] using hp
    rw [parseElems_succ, JSON.renderElems, parseValue_render x hpx m _ hm]
    simp only [skipSpace_cons _ _ (show json.isSpace (ch ']') = false by decide),
      if_neg (show ch ']' ≠ ch ',' by decide), if_true, JSON.coerceElems]
  | x :: y :: rest, _, hp, fuel, X, hf => by
    obtain ⟨m, rfl, hm⟩ := fuel_succ fuel (JSON.size x + JSON.sizeElems (y :: rest))
      (by simp only [JSON.sizeElems] at hf ⊢; omega)
    have hpx : JSON.plain x = true ∧ JSON.plainElems (y :: rest) = true := by
      simpa [JSON.plainElems] using hp
    rw [parseElems_succ, JSON.renderElems]
    rw [show JSON.render x ++ [ch ','] ++ JSON.renderElems (y :: rest) ++ ch ']' :: X
        = JSON.render x ++ (ch ',' :: (JSON.renderElems (y :: rest) ++ ch ']' :: X)) by simp]
    rw [parseValue_render x hpx.1 m _ (by omega)]
    simp only [skipSpace_cons _ _ (show json.isSpace (ch ',') = false by decide), if_true,
      parseElems_render (y :: rest) (by simp) hpx.2 m X (by omega), Option.map, JSON.coerceElems]
theorem parseMembers_render : ∀ (kvs : List (GoString × JSON)), kvs ≠ [] →
    JSON.plainFields kvs = true → ∀ (fuel : Nat) (X : GoString), JSON.sizeFields kvs ≤ fuel →
      json.parseMembers fuel (JSON.renderFields kvs ++ 0x7D :: X)
        = some (JSON.coerceFields kvs, X)
  | [], h, _, _, _, _ => absurd rfl h
  | [(k, v)], _, hp, fuel, X, hf => by
    obtain ⟨m, rfl, hm⟩ := fuel_succ fuel (JSON.size v)
      (by simp only [JSON.sizeFields] at hf; omega)
    have hpx : JSON.plain v = true := by simpa [JSON.plainFields] using hp
    rw [parseMembers_succ, JSON.renderFields]
    rw [show json.appendString k ++ [ch ':'] ++ JSON.render v ++ 0x7D :: X
        = ch '"' :: (json.appendStringBody k ++ ch '"' :: (ch ':' :: (JSON.render v ++ 0x7D :: X)))
      by simp [json.appendString]]
    rw [skipSpace_cons _ _ (by decide)]
    simp only [if_true, parseString_appendString,
      skipSpace_cons _ _ (show json.isSpace (ch ':') = false by decide),
      parseValue_render v hpx m _ hm,
      skipSpace_cons _ _ (show json.isSpace (0x7D : Byte) = false by decide),
      if_neg (show (0x7D : Byte) ≠ ch ',' by decide), JSON.coerceFields]
  | (k, v) :: y :: rest, _, hp, fuel, X, hf => by
    obtain ⟨m, rfl, hm⟩ := fuel_succ fuel (JSON.size v + JSON.sizeFields (y :: rest))
      (by simp only [JSON.sizeFields] at hf ⊢; omega)
    have hpx : JSON.plain v = true ∧ JSON.plainFields (y :: rest) = true := by
      simpa [JSON.plainFields] using hp
    rw [parseMembers_succ, JSON.renderFields]
    rw [show json.appendString k ++ [ch ':'] ++ JSON.render v ++ [ch ','] ++
          JSON.renderFields (y :: rest) ++ 0x7D :: X
        = ch '"' :: (json.appendStringBody k ++ ch '"' :: (ch ':' :: (JSON.render v ++
            (ch ',' :: (JSON.renderFields (y :: rest) ++ 0x7D :: X)))))
      by simp [json.appendString]]
    rw [skipSpace_cons _ _ (by decide)]
    simp only [if_true, parseString_appendString,
      skipSpace_cons _ _ (show json.isSpace (ch ':') = false by decide),
      parseValue_render v hpx.1 m _ (by omega),
      skipSpace_cons _ _ (show json.isSpace (ch ',') = false by decide),
      parseMembers_render (y :: rest) (by simp) hpx.2 m X (by omega), Option.map,
      JSON.coerceFields]
end

mutual
theorem size_lt_render : ∀ (v : JSON), JSON.plain v = true →
    JSON.size v + 1 ≤ (JSON.render v).length
  | .null, _ => by decide
  | .bool true, _ => by decide
  | .bool false, _ => by decide
  | .number _, hp => by simp [JSON.plain] at hp
  | .string s, _ => by
    simp only [JSON.size, JSON.render, json.appendString, List.length_append, List.length_cons,
      List.length_nil]
    omega
  | .array xs, hp => by
    have := sizeElems_le_render xs (by simpa [JSON.plain] using hp)
    simp only [JSON.size, JSON.render, List.length_append, List.length_cons, List.length_nil]
    omega
  | .object kvs, hp => by
    have := sizeFields_le_render kvs (by simpa [JSON.plain] using hp)
    simp only [JSON.size, JSON.render, List.length_append, List.length_cons, List.length_nil]
    omega
theorem sizeElems_le_render : ∀ (xs : List JSON), JSON.plainElems xs = true →
    JSON.sizeElems xs ≤ (JSON.renderElems xs).length
  | [], _ => by simp [JSON.sizeElems]
  | [x], hp => by
    have := size_lt_render x (by simpa [JSON.plainElems] using hp)
    simp only [JSON.sizeElems, JSON.renderElems]
    omega
  | x :: y :: rest, hp => by
    have hpx : JSON.plain x = true ∧ JSON.plainElems (y :: rest) = true := by
      simpa [JSON.plainElems] using hp
    have h1 := size_lt_render x hpx.1
    have h2 := sizeElems_le_render (y :: rest) hpx.2
    simp only [JSON.sizeElems, JSON.renderElems, List.length_append, List.length_cons,
      List.length_nil] at h2 ⊢
    omega
theorem sizeFields_le_render : ∀ (kvs : List (GoString × JSON)), JSON.plainFields kvs = true →
    JSON.sizeFields kvs ≤ (JSON.renderFields kvs).length
  | [], _ => by simp [JSON.sizeFields]
  | [(k, v)], hp => by
    have := size_lt_render v (by simpa [JSON.plainFields] using hp)
    simp only [JSON.sizeFields, JSON.renderFields, List.length_append, List.length_cons,
      List.length_nil]
    omega
  | (k, v) :: y :: rest, hp => by
    have hpx : JSON.plain v = true ∧ JSON.plainFields (y :: rest) = true := by
      simpa [JSON.plainFields] using hp
    have h1 := size_lt_render v hpx.1
    have h2 := sizeFields_le_render (y :: rest) hpx.2
    simp only [JSON.sizeFields, JSON.renderFields, List.length_append, List.length_cons,
      List.length_nil] at h2 ⊢
    omega
end

theorem parse_render (v : JSON) (hp : JSON.plain v = true) :
    json.parse (JSON.render v) = some (JSON.coerce v) := by
  have h := parseValue_render v hp ((JSON.render v).length + 1) []
    (by have := size_lt_render v hp; omega)
  rw [List.append_nil] at h
  unfold json.parse
  rw [h]
  rfl

theorem coerceElems_map {α : Type} (enc : α → JSON) (co : α → α)
    (h : ∀ x, JSON.coerce (enc x) = enc (co x)) (xs : List α) :
    JSON.coerceElems (xs.map enc) = (xs.map co).map enc := by
  induction xs with
  | nil => rfl
  | cons x xs ih => simp only [List.map_cons, JSON.coerceElems, h, ih]

theorem coerce_slice {α : Type} (enc : α → JSON) (co : α → α)
    (h : ∀ x, JSON.coerce (enc x) = enc (co x)) (s : Option (List α)) :
    JSON.coerce (json.slice enc s) = json.slice enc (json.sliceMap co s) := by
  cases s with
  | none => rfl
  | some xs => simp only [json.slice, json.sliceMap, Option.map, JSON.coerce, coerceElems_map enc co h]

theorem plainElems_map {α : Type} (enc : α → JSON) (h : ∀ x, JSON.plain (enc x) = true)
    (xs : List α) : JSON.plainElems (xs.map enc) = true := by
  induction xs with
  | nil => rfl
  | cons x xs ih => simp only [List.map_cons, JSON.plainElems, h, ih, Bool.and_self]

theorem plain_slice {α : Type} (enc : α → JSON) (h : ∀ x, JSON.plain (enc x) = true)
    (s : Option (List α)) : JSON.plain (json.slice enc s) = true := by
  cases s with
  | none => rfl
  | some xs => simp only [json.slice, JSON.plain, plainElems_map enc h]

theorem storeElems_map {α : Type} (enc : α → JSON) (store : α → JSON → Except Error α)
    (zero : α) (h : ∀ cur y, store cur (enc y) = .ok y) (xs : List α) :
    ∀ cur, json.storeElems store zero cur (xs.map enc) = .ok xs := by
  induction xs with
  | nil => intro cur; rfl
  | cons x xs ih => intro cur; simp only [List.map_cons, json.storeElems, h, ih]

theorem store_slice {α : Type} (enc : α → JSON) (store : α → JSON → Except Error α)
    (zero : α) (h : ∀ cur y, store cur (enc y) = .ok y) (cur s : Option (List α)) :
    json.storeSlice store zero cur (json.slice enc s) = .ok s := by
  cases s with
  | none => rfl
  | some xs => simp only [json.slice, json.storeSlice, storeElems_map enc store zero h]

theorem sliceMap_valid {α : Type} (co : α → α) (valid : α → Bool)
    (h : ∀ x, valid x = true → co x = x) (s : Option (List α))
    (hv : json.sliceAll valid s = true) : json.sliceMap co s = s := by
  cases s with
  | none => rfl
  | some xs =>
    simp only [json.sliceAll, Option.getD, List.all_eq_true] at hv
    simp only [json.sliceMap, Option.map, Option.some.injEq]
    conv => rhs; rw [← List.map_id xs]
    exact List.map_congr_left (fun x hx => by rw [h x (hv x hx)]; rfl)

theorem roundTrip_of {α : Type} (enc : α → JSON) (store : α → JSON → Except Error α) (zero : α)
    (co : α → α) (hplain : ∀ x, JSON.plain (enc x) = true)
    (hco : ∀ x, JSON.coerce (enc x) = enc (co x))
    (hstore : ∀ cur y, store cur (enc y) = .ok y) (x : α) :
    json.roundTrip enc store zero x = .ok (co x) := by
  simp only [json.roundTrip, json.Marshal, json.Unmarshal, parse_render _ (hplain x), hco, hstore]

theorem param_plain (x : Param) : JSON.plain (Param.toJSON x) = true := rfl

theorem param_coerce (x : Param) : JSON.coerce (Param.toJSON x) = Param.toJSON x.coerce := rfl

theorem param_store (cur y : Param) : Param.store cur (Param.toJSON y) = .ok y := rfl

theorem param_valid (x : Param) (h : x.valid = true) : x.coerce = x := by
  simp only [Param.valid, Bool.and_eq_true] at h
  simp only [Param.coerce, coerceUTF8_of_valid _ h.1, coerceUTF8_of_valid _ h.2]

theorem receiver_plain (x : Receiver) : JSON.plain (Receiver.toJSON x) = true := by
  simp only [Receiver.toJSON, JSON.plain, JSON.plainFields, plain_slice _ param_plain,
    Bool.and_self]

theorem receiver_coerce (x : Receiver) :
    JSON.coerce (Receiver.toJSON x) = Receiver.toJSON x.coerce := by
  simp only [Receiver.toJSON, JSON.coerce, JSON.coerceFields,
    coerce_slice Param.toJSON Param.coerce param_coerce, Receiver.coerce]
  rfl

theorem receiver_store (cur y : Receiver) : Receiver.store cur (Receiver.toJSON y) = .ok y := by
  have f0 : json.fieldIndex [str "whatsappNumber", str "customParams"] (str "whatsappNumber")
      = some 0 := rfl
  have f1 : json.fieldIndex [str "whatsappNumber", str "customParams"] (str "customParams")
      = some 1 := rfl
  simp only [Receiver.store, Receiver.toJSON, json.storeStruct, json.storeMembers, f0, f1,
    json.storeString, Except.map, store_slice Param.toJSON Param.store Param.zero param_store]

theorem receiver_valid (x : Receiver) (h : x.valid = true) : x.coerce = x := by
  simp only [Receiver.valid, Bool.and_eq_true] at h
  simp only [Receiver.coerce, coerceUTF8_of_valid _ h.1,
    sliceMap_valid Param.coerce Param.valid param_valid _ h.2]
theorem media_plain (x : Media) : JSON.plain (Media.toJSON x) = true := rfl

theorem media_coerce (x : Media) : JSON.coerce (Media.toJSON x) = Media.toJSON x.coerce := rfl

theorem media_store (cur y : Media) : Media.store cur (Media.toJSON y) = .ok y := rfl

theorem media_valid (x : Media) (h : x.valid = true) : x.coerce = x := by
  simp only [Media.valid, Bool.and_eq_true] at h
  simp only [Media.coerce, coerceUTF8_of_valid _ h.1, coerceUTF8_of_valid _ h.2]

theorem header_plain (x : Header) : JSON.plain (Header.toJSON x) = true := rfl

theorem header_coerce (x : Header) : JSON.coerce (Header.toJSON x) = Header.toJSON x.coerce :=
  rfl

theorem header_store (cur y : Header) : Header.store cur (Header.toJSON y) = .ok y := rfl

theorem header_valid (x : Header) (h : x.valid = true) : x.coerce = x := by
  simp only [Header.valid, Bool.and_eq_true] at h
  simp only [Header.coerce, coerceUTF8_of_valid _ h.1.1, coerceUTF8_of_valid _ h.1.2,
    media_valid _ h.2]

theorem btn_plain (x : Btn) : JSON.plain (Btn.toJSON x) = true := rfl

theorem btn_coerce (x : Btn) : JSON.coerce (Btn.toJSON x) = Btn.toJSON x.coerce := rfl

theorem btn_store (cur y : Btn) : Btn.store cur (Btn.toJSON y) = .ok y := rfl

theorem btn_valid (x : Btn) (h : x.valid = true) : x.coerce = x := by
  simp only [Btn.valid] at h
  simp only [Btn.coerce, coerceUTF8_of_valid _ h]

theorem row_plain (x : Row) : JSON.plain (Row.toJSON x) = true := rfl

theorem row_coerce (x : Row) : JSON.coerce (Row.toJSON x) = Row.toJSON x.coerce := rfl

theorem row_store (cur y : Row) : Row.store cur (Row.toJSON y) = .ok y := rfl

theorem row_valid (x : Row) (h : x.valid = true) : x.coerce = x := by
  simp only [Row.valid, Bool.and_eq_true] at h
  simp only [Row.coerce, coerceUTF8_of_valid _ h.1, coerceUTF8_of_valid _ h.2]

theorem section_plain (x : Section) : JSON.plain (Section.toJSON x) = true := rfl

theorem section_coerce (x : Section) :
    JSON.coerce (Section.toJSON x) = Section.toJSON x.coerce := rfl

theorem section_store (cur y : Section) : Section.store cur (Section.toJSON y) = .ok y := rfl

theorem section_valid (x : Section) (h : x.valid = true) : x.coerce = x := by
  simp only [Section.valid, Bool.and_eq_true] at h
  simp only [Section.coerce, coerceUTF8_of_valid _ h.1, row_valid _ h.2]

theorem updateContactAttributes_plain (x : UpdateContactAttributesData) :
    JSON.plain (UpdateContactAttributesData.toJSON x) = true := by
  simp only [UpdateContactAttributesData.toJSON, JSON.plain, JSON.plainFields,
    plain_slice _ param_plain, Bool.and_self]

theorem updateContactAttributes_coerce (x : UpdateContactAttributesData) :
    JSON.coerce (UpdateContactAttributesData.toJSON x)
      = UpdateContactAttributesData.toJSON x.coerce := by
  simp only [UpdateContactAttributesData.toJSON, JSON.coerce, JSON.coerceFields,
    coerce_slice Param.toJSON Param.coerce param_coerce, UpdateContactAttributesData.coerce]
  rfl

theorem updateContactAttributes_store (cur y : UpdateContactAttributesData) :
    UpdateContactAttributesData.store cur (UpdateContactAttributesData.toJSON y) = .ok y := by
  have f0 : json.fieldIndex [str "customParams"] (str "customParams") = some 0 := rfl
  simp only [UpdateContactAttributesData.store, UpdateContactAttributesData.toJSON,
    json.storeStruct, json.storeMembers, f0, Except.map,
    store_slice Param.toJSON Param.store Param.zero param_store]

theorem updateContactAttributes_valid (x : UpdateContactAttributesData) (h : x.valid = true) :
    x.coerce = x := by
  simp only [UpdateContactAttributesData.valid] at h
  simp only [UpdateContactAttributesData.coerce,
    sliceMap_valid Param.coerce Param.valid param_valid _ h]

theorem addContact_plain (x : AddContactData) : JSON.plain (AddContactData.toJSON x) = true := by
  simp only [AddContactData.toJSON, JSON.plain, JSON.plainFields, plain_slice _ param_plain,
    Bool.and_self]

theorem addContact_coerce (x : AddContactData) :
    JSON.coerce (AddContactData.toJSON x) = AddContactData.toJSON x.coerce := by
  simp only [AddContactData.toJSON, JSON.coerce, JSON.coerceFields,
    coerce_slice Param.toJSON Param.coerce param_coerce, AddContactData.coerce]
  rfl

theorem addContact_store (cur y : AddContactData) :
    AddContactData.store cur (AddContactData.toJSON y) = .ok y := by
  have f0 : json.fieldIndex [str "name", str "customParams"] (str "name") = some 0 := rfl
  have f1 : json.fieldIndex [str "name", str "customParams"] (str "customParams") = some 1 := rfl
  simp only [AddContactData.store, AddContactData.toJSON, json.storeStruct, json.storeMembers,
    f0, f1, json.storeString, Except.map,
    store_slice Param.toJSON Param.store Param.zero param_store]

theorem addContact_valid (x : AddContactData) (h : x.valid = true) : x.coerce = x := by
  simp only [AddContactData.valid, Bool.and_eq_true] at h
  simp only [AddContactData.coerce, coerceUTF8_of_valid _ h.1,
    sliceMap_valid Param.coerce Param.valid param_valid _ h.2]

theorem sendTemplateMessage_plain (x : SendTemplateMessageData) :
    JSON.plain (SendTemplateMessageData.toJSON x) = true := by
  simp only [SendTemplateMessageData.toJSON, JSON.plain, JSON.plainFields,
    plain_slice _ param_plain, Bool.and_self]

theorem sendTemplateMessage_coerce (x : SendTemplateMessageData) :
    JSON.coerce (SendTemplateMessageData.toJSON x) = SendTemplateMessageData.toJSON x.coerce := by
  simp only [SendTemplateMessageData.toJSON, JSON.coerce, JSON.coerceFields,
    coerce_slice Param.toJSON Param.coerce param_coerce, SendTemplateMessageData.coerce]
  rfl

theorem sendTemplateMessage_store (cur y : SendTemplateMessageData) :
    SendTemplateMessageData.store cur (SendTemplateMessageData.toJSON y) = .ok y := by
  have f0 : json.fieldIndex [str "template_name", str "broadcast_name", str "parameters"]
      (str "template_name") = some 0 := rfl
  have f1 : json.fieldIndex [str "template_name", str "broadcast_name", str "parameters"]
      (str "broadcast_name") = some 1 := rfl
  have f2 : json.fieldIndex [str "template_name", str "broadcast_name", str "parameters"]
      (str "parameters") = some 2 := rfl
  simp only [SendTemplateMessageData.store, SendTemplateMessageData.toJSON, json.storeStruct,
    json.storeMembers, f0, f1, f2, json.storeString, Except.map,
    store_slice Param.toJSON Param.store Param.zero param_store]

theorem sendTemplateMessage_valid (x : SendTemplateMessageData) (h : x.valid = true) :
    x.coerce = x := by
  simp only [SendTemplateMessageData.valid, Bool.and_eq_true] at h
  simp only [SendTemplateMessageData.coerce, coerceUTF8_of_valid _ h.1.1,
    coerceUTF8_of_valid _ h.1.2, sliceMap_valid Param.coerce Param.valid param_valid _ h.2]

theorem sendTemplateMessages_plain (x : SendTemplateMessagesData) :
    JSON.plain (SendTemplateMessagesData.toJSON x) = true := by
  simp only [SendTemplateMessagesData.toJSON, JSON.plain, JSON.plainFields,
    plain_slice _ receiver_plain, Bool.and_self]

theorem sendTemplateMessages_coerce (x : SendTemplateMessagesData) :
    JSON.coerce (SendTemplateMessagesData.toJSON x)
      = SendTemplateMessagesData.toJSON x.coerce := by
  simp only [SendTemplateMessagesData.toJSON, JSON.coerce, JSON.coerceFields,
    coerce_slice Receiver.toJSON Receiver.coerce receiver_coerce, SendTemplateMessagesData.coerce]
  rfl

theorem sendTemplateMessages_store (cur y : SendTemplateMessagesData) :
    SendTemplateMessagesData.store cur (SendTemplateMessagesData.toJSON y) = .ok y := by
  have f0 : json.fieldIndex [str "template_name", str "broadcast_name", str "receivers"]
      (str "template_name") = some 0 := rfl
  have f1 : json.fieldIndex [str "template_name", str "broadcast_name", str "receivers"]
      (str "broadcast_name") = some 1 := rfl
  have f2 : json.fieldIndex [str "template_name", str "broadcast_name", str "receivers"]
      (str "receivers") = some 2 := rfl
  simp only [SendTemplateMessagesData.store, SendTemplateMessagesData.toJSON, json.storeStruct,
    json.storeMembers, f0, f1, f2, json.storeString, Except.map,
    store_slice Receiver.toJSON Receiver.store Receiver.zero receiver_store]

theorem sendTemplateMessages_valid (x : SendTemplateMessagesData) (h : x.valid = true) :
    x.coerce = x := by
  simp only [SendTemplateMessagesData.valid, Bool.and_eq_true] at h
  simp only [SendTemplateMessagesData.coerce, coerceUTF8_of_valid _ h.1.1,
    coerceUTF8_of_valid _ h.1.2,
    sliceMap_valid Receiver.coerce Receiver.valid receiver_valid _ h.2]

theorem sendInteractiveButtonsMessage_plain (x : SendInteractiveButtonsMessageData) :
    JSON.plain (SendInteractiveButtonsMessageData.toJSON x) = true := by
  show (JSON.plain (Header.toJSON x.Header) && (true && (true &&
    (JSON.plain (json.slice Btn.toJSON x.Buttons) && true)))) = true
  rw [header_plain, plain_slice _ btn_plain]
  rfl

theorem sendInteractiveButtonsMessage_coerce (x : SendInteractiveButtonsMessageData) :
    JSON.coerce (SendInteractiveButtonsMessageData.toJSON x)
      = SendInteractiveButtonsMessageData.toJSON x.coerce := by
  simp only [SendInteractiveButtonsMessageData.toJSON, JSON.coerceFields, header_coerce,
    coerce_slice Btn.toJSON Btn.coerce btn_coerce, SendInteractiveButtonsMessageData.coerce,
    JSON.coerce.eq_6, JSON.coerce.eq_4]
  rfl

theorem sendInteractiveButtonsMessage_store (cur y : SendInteractiveButtonsMessageData) :
    SendInteractiveButtonsMessageData.store cur (SendInteractiveButtonsMessageData.toJSON y)
      = .ok y := by
  have f0 : json.fieldIndex [str "header", str "body", str "footer", str "buttons"]
      (str "header") = some 0 := rfl
  have f1 : json.fieldIndex [str "header", str "body", str "footer", str "buttons"]
      (str "body") = some 1 := rfl
  have f2 : json.fieldIndex [str "header", str "body", str "footer", str "buttons"]
      (str "footer") = some 2 := rfl
  have f3 : json.fieldIndex [str "header", str "body", str "footer", str "buttons"]
      (str "buttons") = some 3 := rfl
  simp only [SendInteractiveButtonsMessageData.store, SendInteractiveButtonsMessageData.toJSON,
    json.storeStruct, json.storeMembers, f0, f1, f2, f3, json.storeString, Except.map,
    header_store, store_slice Btn.toJSON Btn.store Btn.zero btn_store]

theorem sendInteractiveButtonsMessage_valid (x : SendInteractiveButtonsMessageData)
    (h : x.valid = true) : x.coerce = x := by
  simp only [SendInteractiveButtonsMessageData.valid, Bool.and_eq_true] at h
  simp only [SendInteractiveButtonsMessageData.coerce, header_valid _ h.1.1.1,
    coerceUTF8_of_valid _ h.1.1.2, coerceUTF8_of_valid _ h.1.2,
    sliceMap_valid Btn.coerce Btn.valid btn_valid _ h.2]

theorem sendInteractiveListMessage_plain (x : SendInteractiveListMessageData) :
    JSON.plain (SendInteractiveListMessageData.toJSON x) = true := by
  simp only [SendInteractiveListMessageData.toJSON, JSON.plain, JSON.plainFields,
    plain_slice _ section_plain, Bool.and_self]

theorem sendInteractiveListMessage_coerce (x : SendInteractiveListMessageData) :
    JSON.coerce (SendInteractiveListMessageData.toJSON x)
      = SendInteractiveListMessageData.toJSON x.coerce := by
  simp only [SendInteractiveListMessageData.toJSON, JSON.coerce, JSON.coerceFields,
    coerce_slice Section.toJSON Section.coerce section_coerce,
    SendInteractiveListMessageData.coerce]
  rfl

theorem sendInteractiveListMessage_store (cur y : SendInteractiveListMessageData) :
    SendInteractiveListMessageData.store cur (SendInteractiveListMessageData.toJSON y)
      = .ok y := by
  have f0 : json.fieldIndex
      [str "header", str "body", str "footer", str "buttonText", str "sections"]
      (str "header") = some 0 := rfl
  have f1 : json.fieldIndex
      [str "header", str "body", str "footer", str "buttonText", str "sections"]
      (str "body") = some 1 := rfl
  have f2 : json.fieldIndex
      [str "header", str "body", str "footer", str "buttonText", str "sections"]
      (str "footer") = some 2 := rfl
  have f3 : json.fieldIndex
      [str "header", str "body", str "footer", str "buttonText", str "sections"]
      (str "buttonText") = some 3 := rfl
  have f4 : json.fieldIndex
      [str "header", str "body", str "footer", str "buttonText", str "sections"]
      (str "sections") = some 4 := rfl
  simp only [SendInteractiveListMessageData.store, SendInteractiveListMessageData.toJSON,
    json.storeStruct, json.storeMembers, f0, f1, f2, f3, f4, json.storeString, Except.map,
    store_slice Section.toJSON Section.store Section.zero section_store]

theorem sendInteractiveListMessage_valid (x : SendInteractiveListMessageData)
    (h : x.valid = true) : x.coerce = x := by
  simp only [SendInteractiveListMessageData.valid, Bool.and_eq_true] at h
  simp only [SendInteractiveListMessageData.coerce, coerceUTF8_of_valid _ h.1.1.1.1,
    coerceUTF8_of_valid _ h.1.1.1.2, coerceUTF8_of_valid _ h.1.1.2, coerceUTF8_of_valid _ h.1.2,
    sliceMap_valid Section.coerce Section.valid section_valid _ h.2]

theorem roundTrips_of {α : Type} (enc : α → JSON) (store : α → JSON → Except Error α) (zero : α)
    (co : α → α) (valid : α → Bool) (names : List GoString)
    (hkeys : ∀ x, JSON.keys (enc x) = names)
    (hplain : ∀ x, JSON.plain (enc x) = true)
    (hco : ∀ x, JSON.coerce (enc x) = enc (co x))
    (hstore : ∀ cur y, store cur (enc y) = .ok y)
    (hvalid : ∀ x, valid x = true → co x = x) :
    spec.RoundTrips enc store zero co valid names := by
  intro x
  have h := roundTrip_of enc store zero co hplain hco hstore x
  refine ⟨hkeys x, h, fun hv => ?_⟩
  rw [h, hvalid x hv]

/-- C8, as amended.  For each of the thirteen payload shapes (`Param`,
`Receiver`, `Media`, `Header`, `Btn`, `Row`, `Section` and the bodies of
`UpdateContactAttributes`, `AddContact`, `SendTemplateMessage`,
`SendTemplateMessages`, `SendInteractiveButtonsMessage`,
`SendInteractiveListMessage`) and every value of the shape: the encoding is an
object with the fixed member names of the wire shape; `json.Marshal` followed
by `json.Unmarshal` into a zero value of the same shape succeeds and gives the
value with every byte that is not part of well-formed UTF-8 replaced by
U+FFFD; and it gives the original value, field by field, when all the strings
of the value are valid UTF-8. -/
theorem payload_round_trip :
    spec.RoundTrips Param.toJSON Param.store Param.zero Param.coerce Param.valid
      [str "name", str "value"] ∧
    spec.RoundTrips Receiver.toJSON Receiver.store Receiver.zero Receiver.coerce Receiver.valid
      [str "whatsappNumber", str "customParams"] ∧
    spec.RoundTrips Media.toJSON Media.store Media.zero Media.coerce Media.valid
      [str "url", str "fileName"] ∧
    spec.RoundTrips Header.toJSON Header.store Header.zero Header.coerce Header.valid
      [str "type", str "text", str "media"] ∧
    spec.RoundTrips Btn.toJSON Btn.store Btn.zero Btn.coerce Btn.valid [str "text"] ∧
    spec.RoundTrips Row.toJSON Row.store Row.zero Row.coerce Row.valid
      [str "title", str "description"] ∧
    spec.RoundTrips Section.toJSON Section.store Section.zero Section.coerce Section.valid
      [str "title", str "rows"] ∧
    spec.RoundTrips UpdateContactAttributesData.toJSON UpdateContactAttributesData.store
      UpdateContactAttributesData.zero UpdateContactAttributesData.coerce
      UpdateContactAttributesData.valid [str "customParams"] ∧
    spec.RoundTrips AddContactData.toJSON AddContactData.store AddContactData.zero
      AddContactData.coerce AddContactData.valid [str "name", str "customParams"] ∧
    spec.RoundTrips SendTemplateMessageData.toJSON SendTemplateMessageData.store
      SendTemplateMessageData.zero SendTemplateMessageData.coerce SendTemplateMessageData.valid
      [str "template_name", str "broadcast_name", str "parameters"] ∧
    spec.RoundTrips SendTemplateMessagesData.toJSON SendTemplateMessagesData.store
      SendTemplateMessagesData.zero SendTemplateMessagesData.coerce SendTemplateMessagesData.valid
      [str "template_name", str "broadcast_name", str "receivers"] ∧
    spec.RoundTrips SendInteractiveButtonsMessageData.toJSON
      SendInteractiveButtonsMessageData.store SendInteractiveButtonsMessageData.zero
      SendInteractiveButtonsMessageData.coerce SendInteractiveButtonsMessageData.valid
      [str "header", str "body", str "footer", str "buttons"] ∧
    spec.RoundTrips SendInteractiveListMessageData.toJSON SendInteractiveListMessageData.store
      SendInteractiveListMessageData.zero SendInteractiveListMessageData.coerce
      SendInteractiveListMessageData.valid
      [str "header", str "body", str "footer", str "buttonText", str "sections"] :=
  ⟨roundTrips_of _ _ _ _ _ _ (fun _ => rfl) param_plain param_coerce param_store param_valid,
   roundTrips_of _ _ _ _ _ _ (fun _ => rfl) receiver_plain receiver_coerce receiver_store
     receiver_valid,
   roundTrips_of _ _ _ _ _ _ (fun _ => rfl) media_plain media_coerce media_store media_valid,
   roundTrips_of _ _ _ _ _ _ (fun _ => rfl) header_plain header_coerce header_store header_valid,
   roundTrips_of _ _ _ _ _ _ (fun _ => rfl) btn_plain btn_coerce btn_store btn_valid,
   roundTrips_of _ _ _ _ _ _ (fun _ => rfl) row_plain row_coerce row_store row_valid,
   roundTrips_of _ _ _ _ _ _ (fun _ => rfl) section_plain section_coerce section_store
     section_valid,
   roundTrips_of _ _ _ _ _ _ (fun _ => rfl) updateContactAttributes_plain
     updateContactAttributes_coerce updateContactAttributes_store updateContactAttributes_valid,
   roundTrips_of _ _ _ _ _ _ (fun _ => rfl) addContact_plain addContact_coerce addContact_store
     addContact_valid,
   roundTrips_of _ _ _ _ _ _ (fun _ => rfl) sendTemplateMessage_plain sendTemplateMessage_coerce
     sendTemplateMessage_store sendTemplateMessage_valid,
   roundTrips_of _ _ _ _ _ _ (fun _ => rfl) sendTemplateMessages_plain
     sendTemplateMessages_coerce sendTemplateMessages_store sendTemplateMessages_valid,
   roundTrips_of _ _ _ _ _ _ (fun _ => rfl) sendInteractiveButtonsMessage_plain
     sendInteractiveButtonsMessage_coerce sendInteractiveButtonsMessage_store
     sendInteractiveButtonsMessage_valid,
   roundTrips_of _ _ _ _ _ _ (fun _ => rfl) sendInteractiveListMessage_plain
     sendInteractiveListMessage_coerce sendInteractiveListMessage_store
     sendInteractiveListMessage_valid⟩

/-- C8, the amended property at a value: a `Receiver` with the parameter
`city` = `Zürich` is encoded with the member names `whatsappNumber` and
`customParams` and comes back from the round trip as it was. -/
theorem payload_round_trip_witness :
    json.Marshal (Receiver.toJSON
        { WhatsappNumber := str "91999999999",
          CustomParams := some [{ Name := str "city", Value := str "Zürich" }] })
      = .ok (str "\x7b\"whatsappNumber\":\"91999999999\",\"customParams\":[\x7b\"name\":\"city\",\"value\":\"Zürich\"\x7d]\x7d") ∧
    json.roundTrip Receiver.toJSON Receiver.store Receiver.zero
        { WhatsappNumber := str "91999999999",
          CustomParams := some [{ Name := str "city", Value := str "Zürich" }] }
      = .ok { WhatsappNumber := str "91999999999",
              CustomParams := some [{ Name := str "city", Value := str "Zürich" }] } :=
  ⟨by decide, (payload_round_trip.2.1 _).2.2 (by decide)⟩

/-- C8, the counterexample: the `Param` whose name is the one byte `0xFF`, a
Go string that is not valid UTF-8, is encoded as `{"name":"\ufffd","value":""}`
and decoded to the name `EF BF BD`, three bytes that are not the original
one. -/
theorem payload_round_trip_counterexample :
    json.Marshal (Param.toJSON { Name := [0xFF], Value := [] })
      = .ok (str "\x7b\"name\":\"\\ufffd\",\"value\":\"\"\x7d") ∧
    json.roundTrip Param.toJSON Param.store Param.zero { Name := [0xFF], Value := [] }
      = .ok { Name := [0xEF, 0xBF, 0xBD], Value := [] } ∧
    json.roundTrip Param.toJSON Param.store Param.zero { Name := [0xFF], Value := [] }
      ≠ .ok { Name := [0xFF], Value := [] } := by
  decide

/-! ## C6, C7: the bodies of `AddContact` and `SendTemplateMessage`, as a reader decodes them -/

theorem paramsTree_slice (params : Option (List Param)) :
    json.slice Param.toJSON params = spec.paramsTree params := by
  cases params <;> rfl

theorem paramsTree_valid (params : Option (List Param))
    (h : json.sliceAll Param.valid params = true) :
    json.sliceMap Param.coerce params = params :=
  sliceMap_valid Param.coerce Param.valid param_valid params h

theorem addContact_body_parse (n name : GoString) (params : Option (List Param)) :
    ∃ body, Call.requestBody (.AddContact n name params) = some body ∧
      json.parse body = some (spec.addContactTree (json.coerceUTF8 name)
        (json.sliceMap Param.coerce params)) ∧
      json.Unmarshal body (AddContactData.store AddContactData.zero)
        = .ok { Name := json.coerceUTF8 name,
                CustomParams := json.sliceMap Param.coerce params } := by
  refine ⟨_, rfl, ?_, ?_⟩
  · rw [parse_render _ (addContact_plain _), addContact_coerce]
    simp only [AddContactData.toJSON, AddContactData.coerce, paramsTree_slice,
      spec.addContactTree]
  · have h := roundTrip_of AddContactData.toJSON AddContactData.store AddContactData.zero
      AddContactData.coerce addContact_plain addContact_coerce addContact_store
      { Name := name, CustomParams := params }
    simpa only [json.roundTrip, json.Marshal, AddContactData.coerce] using h

/-- C6, as amended.  For every number, name and slice of `Param` values,
every request `AddContact` sends is a POST whose URL is parsed from `baseUrl
++ "/api/v1/addContact/" ++ number`, and the request is sent whenever that URL
parses.  The body of the request is a JSON text that the decoder reads as the
object with the member `name` followed by the member `customParams`: the name
is the given name and `customParams` is the array of the
`{"name":..,"value":..}` objects in the given order (`null` for the nil slice)
when all the strings are valid UTF-8; in general every byte of a string that
is not part of well-formed UTF-8 is read back as U+FFFD.  Decoded into the
struct of the method, the body gives the same fields.  For
`AddContact("91999999999", "Jane", [{city, NYC}])` there is one POST to
`/api/v1/addContact/91999999999` and its body is exactly
`{"name":"Jane","customParams":[{"name":"city","value":"NYC"}]}`. -/
theorem add_contact_request (net : http.Request → http.RoundTrip) (baseUrl token : GoString)
    (whatsappNumber name : GoString) (params : Option (List Param)) :
    (∀ req ∈ ((NewClient net baseUrl token).AddContact whatsappNumber name params).sent,
      req.Method = str "POST" ∧
      (∃ u, url.Parse (baseUrl ++ (str "/api/v1/addContact/" ++ whatsappNumber)) = .ok u ∧
        req.URL = { u with Host := http.removeEmptyPort u.Host,
                           RawQuery := url.Values.Encode u.Query }) ∧
      ∃ body, req.Body = some body ∧
        json.parse body = some (spec.addContactTree (json.coerceUTF8 name)
          (json.sliceMap Param.coerce params)) ∧
        json.Unmarshal body (AddContactData.store AddContactData.zero)
          = .ok { Name := json.coerceUTF8 name,
                  CustomParams := json.sliceMap Param.coerce params } ∧
        (utf8.ValidString name = true → json.sliceAll Param.valid params = true →
          json.parse body = some (spec.addContactTree name params) ∧
          json.Unmarshal body (AddContactData.store AddContactData.zero)
            = .ok { Name := name, CustomParams := params })) ∧
    ((∃ u, url.Parse (baseUrl ++ (str "/api/v1/addContact/" ++ whatsappNumber)) = .ok u) →
      ((NewClient net baseUrl token).AddContact whatsappNumber name params).sent.length = 1) ∧
    ((NewClient demo.okNet demo.baseUrl demo.token).AddContact (str "91999999999") (str "Jane")
        (some [{ Name := str "city", Value := str "NYC" }])).sent.map
      (fun req => (req.Method, req.URL.Path, req.URL.RawQuery, req.Body))
    = [(str "POST", str "/api/v1/addContact/91999999999", [],
        some (str "\x7b\"name\":\"Jane\",\"customParams\":[\x7b\"name\":\"city\",\"value\":\"NYC\"\x7d]\x7d"))] := by
  have hcall : (NewClient net baseUrl token).AddContact whatsappNumber name params =
      (NewClient net baseUrl token).call (.AddContact whatsappNumber name params) := rfl
  rw [hcall]
  refine ⟨?_, ?_, by decide⟩
  · intro req hreq
    obtain ⟨h1, h2, u, hu, hurl⟩ := call_request hreq
    obtain ⟨body, hb, hp, hu2⟩ := addContact_body_parse whatsappNumber name params
    refine ⟨h1, ⟨u, hu, hurl⟩, body, by rw [h2, hb], hp, hu2, fun hv hvs => ?_⟩
    rw [hp, hu2, coerceUTF8_of_valid _ hv, paramsTree_valid _ hvs]
    exact ⟨rfl, rfl⟩
  · rintro ⟨u, hu⟩
    obtain ⟨req, hreq⟩ := call_sent_one (NewClient net baseUrl token)
      (.AddContact whatsappNumber name params) u rfl hu
    rw [hreq]
    rfl

/-- C6, the amended property at a call: `AddContact("91999999999", "Zoë
"Z"", [{city, Zürich}])` sends one request, and its body decodes to the given name and
parameters. -/
theorem add_contact_scenario :
    ((NewClient demo.okNet demo.baseUrl demo.token).AddContact (str "91999999999")
        (str "Zoë \"Z\"") (some [{ Name := str "city", Value := str "Zürich" }])).sent.length = 1 ∧
    ((NewClient demo.okNet demo.baseUrl demo.token).AddContact (str "91999999999")
        (str "Zoë \"Z\"") (some [{ Name := str "city", Value := str "Zürich" }])).sent.map
      (fun req => req.Body.map
        (fun body => json.Unmarshal body (AddContactData.store AddContactData.zero)))
    = [some (.ok { Name := str "Zoë \"Z\"",
                   CustomParams := some [{ Name := str "city", Value := str "Zürich" }] })] :=
  ⟨(add_contact_request demo.okNet demo.baseUrl demo.token (str "91999999999")
      (str "Zoë \"Z\"") (some [{ Name := str "city", Value := str "Zürich" }])).2.1
      ⟨{ Scheme := str "https", Host := str "live-server.wati.io",
         Path := str "/api/v1/addContact/91999999999" }, by decide⟩,
   by decide⟩

/-- C6, the counterexample: for a nil slice of parameters the body of
`AddContact` has `"customParams":null`, not an array; for the name `0xFF`, a
Go string that is not valid UTF-8, the member `name` of the body decodes to
`EF BF BD`, not to the given name; and for the number `%zz` no POST is
sent at all. -/
theorem add_contact_counterexample :
    ((NewClient demo.okNet demo.baseUrl demo.token).AddContact (str "91999999999") (str "Jane")
        none).sent.map (fun req => req.Body)
      = [some (str "\x7b\"name\":\"Jane\",\"customParams\":null\x7d")] ∧
    ((NewClient demo.okNet demo.baseUrl demo.token).AddContact (str "91999999999") [0xFF]
        (some [])).sent.map (fun req => req.Body.map
          (fun body => json.Unmarshal body (AddContactData.store AddContactData.zero)))
      = [some (.ok { Name := [0xEF, 0xBF, 0xBD], CustomParams := some [] })] ∧
    ((NewClient demo.okNet demo.baseUrl demo.token).AddContact (str "%zz") (str "Jane")
        (some [{ Name := str "city", Value := str "NYC" }])).sent = [] := by
  decide

theorem Encode_single (k v : GoString) :
    url.Values.Encode (url.Values.Set [] k v) = url.QueryEscape k ++ ch '=' :: url.QueryEscape v := by
  simp [url.Values.Encode, url.Values.Set, url.Values.store, url.Values.lookup]

theorem template_body_parse (n templateName broadcastName : GoString)
    (params : Option (List Param)) :
    ∃ body, Call.requestBody (.SendTemplateMessage n templateName broadcastName params)
        = some body ∧
      json.parse body = some (spec.templateTree (json.coerceUTF8 templateName)
        (json.coerceUTF8 broadcastName) (json.sliceMap Param.coerce params)) ∧
      json.Unmarshal body (SendTemplateMessageData.store SendTemplateMessageData.zero)
        = .ok { TemplateName := json.coerceUTF8 templateName,
                BroadcastName := json.coerceUTF8 broadcastName,
                Parameters := json.sliceMap Param.coerce params } := by
  refine ⟨_, rfl, ?_, ?_⟩
  · rw [parse_render _ (sendTemplateMessage_plain _), sendTemplateMessage_coerce]
    simp only [SendTemplateMessageData.toJSON, SendTemplateMessageData.coerce, paramsTree_slice,
      spec.templateTree]
  · have h := roundTrip_of SendTemplateMessageData.toJSON SendTemplateMessageData.store
      SendTemplateMessageData.zero SendTemplateMessageData.coerce sendTemplateMessage_plain
      sendTemplateMessage_coerce sendTemplateMessage_store
      { TemplateName := templateName, BroadcastName := broadcastName, Parameters := params }
    simpa only [json.roundTrip, json.Marshal, SendTemplateMessageData.coerce] using h

/-- C7, as amended.  For every number, template name, broadcast name and
parameters (nil included), every request `SendTemplateMessage` sends is a POST
whose query, decoded, holds `whatsappNumber` with the given number, and whose
URL is parsed from `baseUrl ++ "/api/v1/sendTemplateMessage"`.  The body of
the request is a JSON text that the decoder reads as the object with the
members `template_name`, `broadcast_name` and `parameters`: `template_name` is
the template name and `broadcast_name` the broadcast name when all the strings
are valid UTF-8; in general every byte of a string that is not part of
well-formed UTF-8 is read back as U+FFFD.  On a base URL that parses to a URL
with a host and holds no `?` and no `#`, the request is sent, its path is the
path of the base URL followed by `/api/v1/sendTemplateMessage` and its query
string is `whatsappNumber=` and the escaped number.  For `("91999999999",
"welcome_template", "bcast1", nil)` there is one POST to
`/api/v1/sendTemplateMessage?whatsappNumber=91999999999` with the body
`{"template_name":"welcome_template","broadcast_name":"bcast1","parameters":null}`. -/
theorem send_template_message_request (net : http.Request → http.RoundTrip)
    (baseUrl token whatsappNumber templateName broadcastName : GoString)
    (params : Option (List Param)) :
    (∀ req ∈ ((NewClient net baseUrl token).SendTemplateMessage whatsappNumber templateName
        broadcastName params).sent,
      req.Method = str "POST" ∧
      url.Values.lookup req.URL.Query (str "whatsappNumber") = [whatsappNumber] ∧
      (∃ u, url.Parse (baseUrl ++ str "/api/v1/sendTemplateMessage") = .ok u ∧
        req.URL = { u with
          Host := http.removeEmptyPort u.Host,
          RawQuery := url.Values.Encode (u.Query.Set (str "whatsappNumber") whatsappNumber) }) ∧
      ∃ body, req.Body = some body ∧
        json.parse body = some (spec.templateTree (json.coerceUTF8 templateName)
          (json.coerceUTF8 broadcastName) (json.sliceMap Param.coerce params)) ∧
        json.Unmarshal body (SendTemplateMessageData.store SendTemplateMessageData.zero)
          = .ok { TemplateName := json.coerceUTF8 templateName,
                  BroadcastName := json.coerceUTF8 broadcastName,
                  Parameters := json.sliceMap Param.coerce params } ∧
        (utf8.ValidString templateName = true → utf8.ValidString broadcastName = true →
          json.sliceAll Param.valid params = true →
          json.parse body = some (spec.templateTree templateName broadcastName params) ∧
          json.Unmarshal body (SendTemplateMessageData.store SendTemplateMessageData.zero)
            = .ok { TemplateName := templateName, BroadcastName := broadcastName,
                    Parameters := params })) ∧
    (∀ ub, url.Parse baseUrl = .ok ub → ub.Host ≠ [] → ch '?' ∉ baseUrl → ch '#' ∉ baseUrl →
      ∃ req, ((NewClient net baseUrl token).SendTemplateMessage whatsappNumber templateName
          broadcastName params).sent = [req] ∧
        req.URL.Path = ub.Path ++ str "/api/v1/sendTemplateMessage" ∧
        req.URL.RawQuery = str "whatsappNumber=" ++ url.QueryEscape whatsappNumber) ∧
    ((NewClient demo.okNet demo.baseUrl demo.token).SendTemplateMessage (str "91999999999")
        (str "welcome_template") (str "bcast1") none).sent.map
      (fun req => (req.Method, req.URL.Path, req.URL.RawQuery, req.Body))
    = [(str "POST", str "/api/v1/sendTemplateMessage", str "whatsappNumber=91999999999",
        some (str "\x7b\"template_name\":\"welcome_template\",\"broadcast_name\":\"bcast1\",\"parameters\":null\x7d"))] := by
  have hcall : (NewClient net baseUrl token).SendTemplateMessage whatsappNumber templateName
        broadcastName params =
      (NewClient net baseUrl token).call
        (.SendTemplateMessage whatsappNumber templateName broadcastName params) := rfl
  rw [hcall]
  refine ⟨?_, ?_, by decide⟩
  · intro req hreq
    obtain ⟨h1, h2, u, hu, hurl⟩ := call_request hreq
    have hq := query_lookup hreq (str "whatsappNumber") whatsappNumber (by simp [Call.queryParams])
    obtain ⟨body, hb, hp, hu2⟩ := template_body_parse whatsappNumber templateName broadcastName
      params
    refine ⟨h1, hq.2, ⟨u, ?_, hurl⟩, body, by rw [h2, hb], hp, hu2, fun hv1 hv2 hvs => ?_⟩
    · simpa [Call.method, Method.route, Call.pathArg] using hu
    · rw [hp, hu2, coerceUTF8_of_valid _ hv1, coerceUTF8_of_valid _ hv2, paramsTree_valid _ hvs]
      exact ⟨rfl, rfl⟩
  · intro ub hb hh hq hf
    obtain ⟨req, hreq, hpath, -, hquery⟩ := plain_path_request net baseUrl token ub
      (.SendTemplateMessage whatsappNumber templateName broadcastName params) hb hh hq hf
      rfl (by simp [Call.pathArg]) (by simp [Call.pathArg]) (by simp [Call.pathArg]) rfl
    refine ⟨req, hreq, ?_, ?_⟩
    · simpa [Call.method, Method.route, Call.pathArg] using hpath
    · have e : url.QueryEscape (str "whatsappNumber") ++ [ch '='] = str "whatsappNumber=" := by
        decide
      rw [hquery]
      simp only [Call.queryParams, List.foldl_cons, List.foldl_nil]
      rw [Encode_single, ← e]
      simp

/-- C7, the amended property at a call on the base URL
`https://live-server.wati.io`: `SendTemplateMessage("+91 99999", "welcome
"Zoë"", "bcast1", [{city, Zürich}])` sends one request to the path
`/api/v1/sendTemplateMessage` with the query `whatsappNumber=%2B91+99999`,
and its body decodes to the given names and parameters. -/
theorem send_template_message_scenario :
    (∃ req, ((NewClient demo.okNet demo.baseUrl demo.token).SendTemplateMessage (str "+91 99999")
          (str "welcome \"Zoë\"") (str "bcast1")
          (some [{ Name := str "city", Value := str "Zürich" }])).sent = [req] ∧
        req.URL.Path = str "/api/v1/sendTemplateMessage" ∧
        req.URL.RawQuery = str "whatsappNumber=%2B91+99999") ∧
    ((NewClient demo.okNet demo.baseUrl demo.token).SendTemplateMessage (str "+91 99999")
        (str "welcome \"Zoë\"") (str "bcast1")
        (some [{ Name := str "city", Value := str "Zürich" }])).sent.map
      (fun req => req.Body.map (fun body =>
        json.Unmarshal body (SendTemplateMessageData.store SendTemplateMessageData.zero)))
    = [some (.ok { TemplateName := str "welcome \"Zoë\"", BroadcastName := str "bcast1",
                   Parameters := some [{ Name := str "city", Value := str "Zürich" }] })] :=
  ⟨(send_template_message_request demo.okNet demo.baseUrl demo.token (str "+91 99999")
      (str "welcome \"Zoë\"") (str "bcast1")
      (some [{ Name := str "city", Value := str "Zürich" }])).2.1
      { Scheme := str "https", Host := str "live-server.wati.io" }
      (by decide) (by decide) (by decide) (by decide),
   by decide⟩

/-- C7, the counterexample: for the template name `0xFF`, a Go string that is
not valid UTF-8, the member `template_name` of the body decodes to `EF BF
BD`, not to the template name. -/
theorem send_template_message_counterexample :
    ((NewClient demo.okNet demo.baseUrl demo.token).SendTemplateMessage (str "91999999999")
        [0xFF] (str "bcast1") none).sent.map
      (fun req => req.Body.map (fun body =>
        json.Unmarshal body (SendTemplateMessageData.store SendTemplateMessageData.zero)))
    = [some (.ok { TemplateName := [0xEF, 0xBF, 0xBD], BroadcastName := str "bcast1",
                   Parameters := none })] ∧
    ((NewClient demo.okNet demo.baseUrl demo.token).SendTemplateMessage (str "91999999999")
        [0xFF] (str "bcast1") none).sent.map (fun req => req.Body)
    = [some (str "\x7b\"template_name\":\"\\ufffd\",\"broadcast_name\":\"bcast1\",\"parameters\":null\x7d")] := by
  decide

/-! ## C9: the payload of `SendSessionFile`, as a reader finds it -/

theorem readSlice_append (pre rest : Bytes) (h : ch '\n' ∉ pre) :
    bufio.readSlice (pre ++ ch '\n' :: rest) = (pre ++ [ch '\n'], some rest) := by
  induction pre with
  | nil => simp [bufio.readSlice]
  | cons c pre ih =>
    have hc : c ≠ ch '\n' := fun e => h (by simp [e])
    have hp : ch '\n' ∉ pre := fun e => h (List.mem_cons_of_mem _ e)
    have := ih hp
    simp only [List.cons_append, bufio.readSlice, if_neg hc, List.append_eq, this]

theorem readLineSlice_crlf (pre rest : Bytes) (h : ch '\n' ∉ pre) :
    textproto.readLineSlice (pre ++ ch '\r' :: ch '\n' :: rest) = some (pre, rest) := by
  have h2 : ch '\n' ∉ pre ++ [ch '\r'] := by
    simp only [List.mem_append, List.mem_singleton, not_or]
    exact ⟨h, by decide⟩
  have e : pre ++ ch '\r' :: ch '\n' :: rest = (pre ++ [ch '\r']) ++ ch '\n' :: rest := by simp
  have hne : pre ++ ch '\r' :: ch '\n' :: rest ≠ [] := by simp
  unfold textproto.readLineSlice
  rw [if_neg hne, e, readSlice_append _ _ h2]
  simp [strings.HasSuffix]

theorem continuedLines_none (fuel : Nat) (c : Byte) (t : Bytes)
    (h : textproto.isSpaceTab c = false) :
    textproto.continuedLines fuel (c :: t) = ([], c :: t) := by
  cases fuel with
  | zero => rfl
  | succ n => simp [textproto.continuedLines, h]

theorem trim_id (l : Bytes) (h1 : (l.head?.map textproto.isSpaceTab) = some false)
    (h2 : (l.getLast?.map textproto.isSpaceTab) = some false) : textproto.trim l = l := by
  unfold textproto.trim
  have e1 : l.dropWhile textproto.isSpaceTab = l := by
    cases l with
    | nil => rfl
    | cons c t =>
      simp only [List.head?_cons, Option.map_some', Option.some.injEq] at h1
      simp [List.dropWhile, h1]
  rw [e1]
  have e2 : l.reverse.dropWhile textproto.isSpaceTab = l.reverse := by
    have : l.reverse.head?.map textproto.isSpaceTab = some false := by
      rw [List.head?_reverse]; exact h2
    cases hr : l.reverse with
    | nil => rfl
    | cons c t =>
      rw [hr] at this
      simp only [List.head?_cons, Option.map_some', Option.some.injEq] at this
      simp [List.dropWhile, this]
  rw [e2, List.reverse_reverse]

theorem indexByte_prefix (k rest : Bytes) (c : Byte) (h : c ∉ k) :
    strings.IndexByte (k ++ c :: rest) c = some k.length := by
  induction k with
  | nil => simp [strings.IndexByte]
  | cons x k ih =>
    simp only [List.mem_cons, not_or] at h
    have hx : x ≠ c := fun e => h.1 e.symm
    simp [strings.IndexByte, hx, ih h.2]

theorem readHeaderLines_blank (fuel : Nat) (m : http.Header) (R : Bytes) :
    textproto.readHeaderLines (fuel + 1) m (ch '\r' :: ch '\n' :: R) = .ok (m, R) := by
  have e := readLineSlice_crlf [] R (by simp)
  simp only [List.nil_append] at e
  simp [textproto.readHeaderLines, textproto.readContinuedLineSlice, e]

theorem readHeaderLines_line (fuel : Nat) (m : http.Header) (k v : Bytes) (c : Byte) (t : Bytes)
    (hk1 : ch ':' ∉ k) (hk2 : ch '\n' ∉ k)
    (hk3 : (k.head?.map textproto.isSpaceTab) = some false)
    (hk4 : http.CanonicalMIMEHeaderKey k = k)
    (hv1 : ch '\n' ∉ v)
    (hv2 : (v.head?.map textproto.isSpaceTab) = some false)
    (hv3 : (v.getLast?.map textproto.isSpaceTab) = some false)
    (hc : textproto.isSpaceTab c = false) :
    textproto.readHeaderLines (fuel + 1) m
        (k ++ ch ':' :: ch ' ' :: v ++ ch '\r' :: ch '\n' :: c :: t)
      = textproto.readHeaderLines fuel
          (http.Header.store m k (http.Header.lookup m k ++ [v])) (c :: t) := by
  have hkne : k ≠ [] := by
    intro e; rw [e] at hk3; simp at hk3
  have hvne : v ≠ [] := by
    intro e; rw [e] at hv2; simp at hv2
  have hline : ch '\n' ∉ k ++ ch ':' :: ch ' ' :: v := by
    simp only [List.mem_append, List.mem_cons, not_or]
    exact ⟨hk2, by decide, by decide, hv1⟩
  have hread := readLineSlice_crlf (k ++ ch ':' :: ch ' ' :: v) (c :: t) hline
  have hne : k ++ ch ':' :: ch ' ' :: v ≠ [] := by simp
  have hidx := indexByte_prefix k (ch ' ' :: v) (ch ':') hk1
  have hhead : ((k ++ ch ':' :: ch ' ' :: v).head?.map textproto.isSpaceTab) = some false := by
    cases k with
    | nil => exact absurd rfl hkne
    | cons x k => simpa using hk3
  have hlast : ((k ++ ch ':' :: ch ' ' :: v).getLast?.map textproto.isSpaceTab) = some false := by
    have : (k ++ ch ':' :: ch ' ' :: v).getLast? = v.getLast? := by
      rw [show k ++ ch ':' :: ch ' ' :: v = (k ++ [ch ':', ch ' ']) ++ v by simp]
      rw [List.getLast?_append_of_ne_nil _ hvne]
    rw [this]; exact hv3
  have htrim := trim_id _ hhead hlast
  have hval : (ch ' ' :: v).dropWhile textproto.isSpaceTab = v := by
    cases v with
    | nil => exact absurd rfl hvne
    | cons y v =>
      simp only [List.head?_cons, Option.map_some', Option.some.injEq] at hv2
      rw [List.dropWhile_cons_of_pos (by decide), List.dropWhile_cons_of_neg (by simp [hv2])]
  have hkne2 : http.CanonicalMIMEHeaderKey k ≠ [] := by rw [hk4]; exact hkne
  have ht : List.take k.length (k ++ ch ':' :: ch ' ' :: v) = k := by simp
  have hd : List.drop (k.length + 1) (k ++ ch ':' :: ch ' ' :: v) = ch ' ' :: v := by
    rw [show k ++ ch ':' :: ch ' ' :: v = (k ++ [ch ':']) ++ ch ' ' :: v by simp]
    exact List.drop_left' (by simp)
  conv => lhs; unfold textproto.readHeaderLines
  simp only [textproto.readContinuedLineSlice, hread, if_neg hne, hidx, continuedLines_none _ c t hc,
    htrim, List.append_nil, reduceCtorEq, if_false, ht, hk4, if_neg hkne, hd, hval]

theorem mem_escapeQuotes (F : GoString) (c : Byte) (h : c ∈ multipart.escapeQuotes F) :
    c = ch '\\' ∨ c ∈ F := by
  unfold multipart.escapeQuotes at h
  rw [List.mem_flatMap] at h
  obtain ⟨x, hx, hc⟩ := h
  by_cases e : x = ch '\\' ∨ x = ch '"'
  · rw [if_pos e] at hc
    simp only [List.mem_cons, List.mem_singleton, List.not_mem_nil, or_false] at hc
    rcases hc with hc | hc
    · exact Or.inl hc
    · exact Or.inr (hc ▸ hx)
  · rw [if_neg e] at hc
    simp only [List.mem_singleton] at hc
    exact Or.inr (hc ▸ hx)

theorem readMIMEHeader_fuel (s : Bytes) (c : Byte) (h1 : s.head? = some c)
    (h2 : textproto.isSpaceTab c = false) (h3 : 2 ≤ s.length) :
    ∃ n, textproto.ReadMIMEHeader s = textproto.readHeaderLines (n + 3) [] s := by
  refine ⟨s.length - 2, ?_⟩
  unfold textproto.ReadMIMEHeader
  rw [h1, if_neg (by simp [h2]), show s.length + 1 = s.length - 2 + 3 by omega]

theorem readMIMEHeader_formFile (F R : Bytes) (hF : ch '\n' ∉ F) :
    textproto.ReadMIMEHeader
        (str "Content-Disposition" ++ ch ':' :: ch ' ' ::
            (str "form-data; name=\"file\"; filename=\"" ++ multipart.escapeQuotes F ++ [ch '"'])
          ++ ch '\r' :: ch '\n' ::
            (str "Content-Type" ++ ch ':' :: ch ' ' :: str "application/octet-stream"
              ++ ch '\r' :: ch '\n' :: ch '\r' :: ch '\n' :: R))
      = .ok ([(str "Content-Disposition",
                [str "form-data; name=\"file\"; filename=\"" ++ multipart.escapeQuotes F
                  ++ [ch '"']]),
              (str "Content-Type", [str "application/octet-stream"])], R) := by
  have hv1 : ch '\n' ∉ str "form-data; name=\"file\"; filename=\"" ++ multipart.escapeQuotes F
      ++ [ch '"'] := by
    simp only [List.mem_append, List.mem_singleton, not_or]
    refine ⟨⟨by decide, fun h => ?_⟩, by decide⟩
    rcases mem_escapeQuotes F _ h with e | e
    · exact absurd e (by decide)
    · exact hF e
  have hv2 : ((str "form-data; name=\"file\"; filename=\"" ++ multipart.escapeQuotes F
      ++ [ch '"']).head?.map textproto.isSpaceTab) = some false := rfl
  have hv3 : ((str "form-data; name=\"file\"; filename=\"" ++ multipart.escapeQuotes F
      ++ [ch '"']).getLast?.map textproto.isSpaceTab) = some false := by
    rw [List.getLast?_append_of_ne_nil _ (by simp)]
    rfl
  obtain ⟨n, hn⟩ := readMIMEHeader_fuel
    (str "Content-Disposition" ++ ch ':' :: ch ' ' ::
            (str "form-data; name=\"file\"; filename=\"" ++ multipart.escapeQuotes F ++ [ch '"'])
          ++ ch '\r' :: ch '\n' ::
            (str "Content-Type" ++ ch ':' :: ch ' ' :: str "application/octet-stream"
              ++ ch '\r' :: ch '\n' :: ch '\r' :: ch '\n' :: R)) (ch 'C') rfl (by decide)
    (by simp only [List.length_append, List.length_cons]; omega)
  rw [hn]
  have e2 : str "Content-Type" ++ ch ':' :: ch ' ' :: str "application/octet-stream"
              ++ ch '\r' :: ch '\n' :: ch '\r' :: ch '\n' :: R
      = ch 'C' :: (str "ontent-Type" ++ ch ':' :: ch ' ' :: str "application/octet-stream"
              ++ ch '\r' :: ch '\n' :: ch '\r' :: ch '\n' :: R) := rfl
  rw [e2, readHeaderLines_line (n + 1 + 1) [] (str "Content-Disposition") _ (ch 'C') _ (by decide)
    (by decide) (by decide) (by decide) hv1 hv2 hv3 (by decide), ← e2]
  rw [readHeaderLines_line (n + 1) _ (str "Content-Type") (str "application/octet-stream")
    (ch '\r') _ (by decide) (by decide) (by decide) (by decide) (by decide) (by decide)
    (by decide) (by decide), readHeaderLines_blank]
  rfl

theorem hasPrefix_iff (s p : GoString) : strings.HasPrefix s p = true ↔ p <+: s := by
  unfold strings.HasPrefix
  exact List.isPrefixOf_iff_prefix

theorem not_prefix_delimiter (d p X : Bytes) (c0 : Byte) (hp : p ≠ [])
    (hd : ¬ p <:+: d) (hX : X.head? = some c0) (hc : c0 ∉ p) : ¬ p <+: d ++ X := by
  intro h
  have h2 : d <+: d ++ X := List.prefix_append d X
  rcases List.prefix_or_prefix_of_prefix h h2 with h3 | h3
  · exact hd h3.isInfix
  · obtain ⟨q, hq⟩ := h3
    rw [← hq] at h
    have h4 : q <+: X := (List.prefix_append_right_inj d).mp h
    cases q with
    | nil =>
      rw [List.append_nil] at hq
      exact hd (hq ▸ List.infix_refl _)
    | cons q0 q =>
      cases X with
      | nil => simp at hX
      | cons x X =>
        simp only [List.head?_cons, Option.some.injEq] at hX
        have : q0 = x := by
          obtain ⟨t, ht⟩ := h4
          simp only [List.cons_append, List.cons.injEq] at ht
          exact ht.1
        apply hc
        rw [← hq, ← hX, ← this]
        simp

theorem scanBody_content (dashB X data : Bytes) (hr : ch '\r' ∉ dashB)
    (hd : ¬ dashB <:+: data) (hX : multipart.matchAfterPrefix X = true) :
    multipart.scanBody (ch '\r' :: ch '\n' :: dashB) 0
        (data ++ (ch '\r' :: ch '\n' :: dashB ++ X))
      = some (data, ch '\r' :: ch '\n' :: dashB ++ X) := by
  induction data with
  | nil =>
    have hp : strings.HasPrefix (ch '\r' :: ch '\n' :: dashB ++ X) (ch '\r' :: ch '\n' :: dashB)
        = true := hasPrefix_append _ _
    have hdrop : (ch '\r' :: ch '\n' :: dashB ++ X).drop (ch '\r' :: ch '\n' :: dashB).length = X :=
      List.drop_left' rfl
    show multipart.scanBody _ 0 (ch '\r' :: (ch '\n' :: dashB ++ X)) = _
    rw [multipart.scanBody]
    rw [show ch '\r' :: (ch '\n' :: dashB ++ X) = ch '\r' :: ch '\n' :: dashB ++ X from rfl,
      if_pos hp, hdrop, if_pos hX]
  | cons c d ih =>
    have hd2 : ¬ dashB <:+: d := fun h => hd (h.trans (List.suffix_cons c d).isInfix)
    have hnp : ¬ strings.HasPrefix (c :: d ++ (ch '\r' :: ch '\n' :: dashB ++ X))
        (ch '\r' :: ch '\n' :: dashB) = true := by
      rw [hasPrefix_iff]
      intro h
      have h2 : c :: d <+: c :: d ++ (ch '\r' :: ch '\n' :: dashB ++ X) := List.prefix_append _ _
      have hsuf : dashB <:+ ch '\r' :: ch '\n' :: dashB :=
        (List.suffix_cons _ _).trans (List.suffix_cons _ _)
      rcases List.prefix_or_prefix_of_prefix h h2 with h3 | h3
      · exact hd (hsuf.isInfix.trans h3.isInfix)
      · obtain ⟨q, hq⟩ := h3
        have h5 : c :: d ++ q <+: c :: d ++ (ch '\r' :: ch '\n' :: dashB ++ X) := by
          rw [hq]; exact h
        have h4 : q <+: ch '\r' :: ch '\n' :: dashB ++ X :=
          (List.prefix_append_right_inj (c :: d)).mp h5
        cases q with
        | nil =>
          rw [List.append_nil] at hq
          apply hd
          rw [hq]
          exact hsuf.isInfix
        | cons q0 q =>
          have hq0 : q0 = ch '\r' := by
            obtain ⟨t, ht⟩ := h4
            simp only [List.cons_append, List.cons.injEq] at ht
            exact ht.1
          have hmem : ch '\r' ∈ ch '\n' :: dashB := by
            have e : (c :: d ++ q0 :: q).tail = (ch '\r' :: ch '\n' :: dashB).tail := by rw [hq]
            simp only [List.cons_append, List.tail_cons] at e
            rw [← e, hq0]
            simp
          simp only [List.mem_cons] at hmem
          rcases hmem with e | e
          · exact absurd e (by decide)
          · exact hr e
    show multipart.scanBody _ 0 (c :: (d ++ (ch '\r' :: ch '\n' :: dashB ++ X))) = _
    rw [multipart.scanBody]
    rw [show c :: (d ++ (ch '\r' :: ch '\n' :: dashB ++ X))
        = c :: d ++ (ch '\r' :: ch '\n' :: dashB ++ X) from rfl, if_neg hnp, ih hd2]
    rfl

theorem readLoop_succ (dashBoundary : Bytes) (fuel : Nat) (nl : Bytes) (partsRead : Nat)
    (expectNewPart : Bool) (s : Bytes) :
    multipart.readLoop dashBoundary (fuel + 1) nl partsRead expectNewPart s =
    match bufio.readSlice s with
    | (line, none) =>
      if s.length < multipart.peekBufferSize ∧ multipart.isFinalBoundary dashBoundary nl line
      then .ok []
      else if s.length < multipart.peekBufferSize then .error (.text "multipart: NextPart: EOF")
      else .error (.text "multipart: NextPart: bufio: buffer full")
    | (line, some rest) =>
      if multipart.peekBufferSize < line.length then
        .error (.text "multipart: NextPart: bufio: buffer full")
      else if (multipart.isBoundaryDelimiterLine dashBoundary nl partsRead line).1 then
        match textproto.ReadMIMEHeader rest with
        | .error e => .error e
        | .ok (header, rest1) =>
          if strings.ToLower (textproto.Get header (str "Content-Transfer-Encoding"))
              = str "quoted-printable" then
            .error (.text "not followed: a quoted-printable part")
          else
            match multipart.readBody dashBoundary
                (multipart.isBoundaryDelimiterLine dashBoundary nl partsRead line).2 rest1 with
            | none => .error (.text "unexpected EOF")
            | some (body, rest2) =>
              match multipart.readLoop dashBoundary fuel
                  (multipart.isBoundaryDelimiterLine dashBoundary nl partsRead line).2
                  (partsRead + 1) false rest2 with
              | .error e => .error e
              | .ok parts => .ok ({ Header := header, body := body } :: parts)
      else if multipart.isFinalBoundary dashBoundary nl line then .ok []
      else if expectNewPart then .error (.text "multipart: expecting a new Part")
      else if partsRead = 0 then
        multipart.readLoop dashBoundary fuel nl partsRead expectNewPart rest
      else if line = nl then multipart.readLoop dashBoundary fuel nl partsRead true rest
      else .error (.text "multipart: unexpected line in Next()") := by
  rfl

theorem boundary_facts (B : GoString) (h : multipart.isRandomBoundary B = true) :
    B.length = 60 ∧ ch '\r' ∉ ch '-' :: ch '-' :: B ∧ ch '\n' ∉ ch '-' :: ch '-' :: B ∧
      B ≠ [] := by
  simp only [multipart.isRandomBoundary, Bool.and_eq_true, decide_eq_true_eq,
    List.all_eq_true] at h
  have hex : ∀ c : Byte, ((ch '0' ≤ c && c ≤ ch '9') || (ch 'a' ≤ c && c ≤ ch 'f')) = true →
      c ≠ ch '\r' ∧ c ≠ ch '\n' := by decide!
  refine ⟨h.1, ?_, ?_, ?_⟩
  · simp only [List.mem_cons, not_or]
    exact ⟨by decide, by decide, fun hm => (hex _ (h.2 _ hm)).1 rfl⟩
  · simp only [List.mem_cons, not_or]
    exact ⟨by decide, by decide, fun hm => (hex _ (h.2 _ hm)).2 rfl⟩
  · intro e
    rw [e] at h
    simp at h

theorem delimiterLine_first (D : Bytes) :
    multipart.isBoundaryDelimiterLine D [ch '\r', ch '\n'] 0 (D ++ [ch '\r', ch '\n'])
      = (true, [ch '\r', ch '\n']) := by
  have hp : strings.HasPrefix (D ++ [ch '\r', ch '\n']) D = true := hasPrefix_append _ _
  have hdrop : (D ++ [ch '\r', ch '\n']).drop D.length = [ch '\r', ch '\n'] :=
    List.drop_left' rfl
  unfold multipart.isBoundaryDelimiterLine
  rw [if_neg (not_not.mpr hp), hdrop]
  rfl

theorem readLoop_final (D : Bytes) (n : Nat) (hn : ch '\n' ∉ D)
    (hlen : D.length + 4 ≤ multipart.peekBufferSize)
    (hD : strings.HasPrefix [ch '\r', ch '\n'] D = false) :
    multipart.readLoop D (n + 2) [ch '\r', ch '\n'] 1 false
        ([ch '\r'] ++ ch '\n' :: ((D ++ [ch '-', ch '-', ch '\r']) ++ ch '\n' :: [])) = .ok [] := by
  have e1 : bufio.readSlice ([ch '\r'] ++ ch '\n' :: ((D ++ [ch '-', ch '-', ch '\r']) ++ ch '\n' :: []))
      = ([ch '\r'] ++ [ch '\n'], some ((D ++ [ch '-', ch '-', ch '\r']) ++ ch '\n' :: [])) :=
    readSlice_append [ch '\r'] _ (by decide)
  have e2 : bufio.readSlice ((D ++ [ch '-', ch '-', ch '\r']) ++ ch '\n' :: [])
      = ((D ++ [ch '-', ch '-', ch '\r']) ++ [ch '\n'], some []) :=
    readSlice_append (D ++ [ch '-', ch '-', ch '\r']) [] (by
      simp only [List.mem_append, not_or]
      exact ⟨hn, by decide⟩)
  have hD2 : strings.HasPrefix [ch '\r', ch '\n'] (D ++ str "--") = false := by
    rw [← Bool.not_eq_true, hasPrefix_iff] at hD ⊢
    exact fun h => hD ((List.prefix_append D _).trans h)
  have d1 : (multipart.isBoundaryDelimiterLine D [ch '\r', ch '\n'] 1 [ch '\r', ch '\n']).1
      = false := by
    unfold multipart.isBoundaryDelimiterLine
    rw [if_pos (by rw [hD]; decide)]
  have f1 : multipart.isFinalBoundary D [ch '\r', ch '\n'] [ch '\r', ch '\n'] = false := by
    unfold multipart.isFinalBoundary
    rw [if_pos (by rw [hD2]; decide)]
  have eline : (D ++ [ch '-', ch '-', ch '\r']) ++ [ch '\n']
      = D ++ [ch '-', ch '-', ch '\r', ch '\n'] := by simp
  have eline2 : (D ++ [ch '-', ch '-', ch '\r']) ++ [ch '\n']
      = (D ++ str "--") ++ [ch '\r', ch '\n'] := by
    rw [show str "--" = [ch '-', ch '-'] from rfl]; simp
  have d2 : (multipart.isBoundaryDelimiterLine D [ch '\r', ch '\n'] 1
      ((D ++ [ch '-', ch '-', ch '\r']) ++ [ch '\n'])).1 = false := by
    unfold multipart.isBoundaryDelimiterLine
    rw [eline, if_neg (not_not.mpr (hasPrefix_append _ _)), List.drop_left' rfl]
    rfl
  have f2 : multipart.isFinalBoundary D [ch '\r', ch '\n']
      ((D ++ [ch '-', ch '-', ch '\r']) ++ [ch '\n']) = true := by
    unfold multipart.isFinalBoundary
    rw [eline2, if_neg (not_not.mpr (hasPrefix_append _ _)),
      List.drop_left' (by rw [List.length_append]; rfl)]
    rfl
  have l2 : ¬ multipart.peekBufferSize < ((D ++ [ch '-', ch '-', ch '\r']) ++ [ch '\n']).length := by
    simp only [List.length_append, List.length_cons, List.length_nil]
    omega
  rw [readLoop_succ, e1]
  simp only [show ¬ multipart.peekBufferSize < ([ch '\r'] ++ [ch '\n']).length by decide,
    if_false, show [ch '\r'] ++ [ch '\n'] = [ch '\r', ch '\n'] from rfl, d1,
    f1, Bool.false_eq_true, show ¬ ((1 : Nat) = 0) by decide, if_true]
  rw [readLoop_succ, e2]
  simp only [if_neg l2, d2, Bool.false_eq_true, if_false, f2, if_true]
  rw [if_neg (by decide)]

theorem readBody_content (D data : Bytes) (hne : D ≠ []) (hr : ch '\r' ∉ D)
    (hd : ¬ D <:+: data) :
    multipart.readBody D [ch '\r', ch '\n']
        (data ++ (ch '\r' :: ch '\n' :: D ++ [ch '-', ch '-', ch '\r', ch '\n']))
      = some (data, ch '\r' :: ch '\n' :: D ++ [ch '-', ch '-', ch '\r', ch '\n']) := by
  have hnp : ¬ strings.HasPrefix
      (data ++ (ch '\r' :: ch '\n' :: D ++ [ch '-', ch '-', ch '\r', ch '\n'])) D = true := by
    rw [hasPrefix_iff]
    exact not_prefix_delimiter data D _ (ch '\r') hne hd rfl hr
  unfold multipart.readBody
  rw [if_neg hnp]
  exact scanBody_content D [ch '-', ch '-', ch '\r', ch '\n'] data hr hd rfl

theorem readLoop_formFile (B F data : Bytes) (fuel : Nat) (hfuel : 3 ≤ fuel)
    (hB : multipart.isRandomBoundary B = true)
    (hF : ch '\n' ∉ F) (hd : ¬ (ch '-' :: ch '-' :: B) <:+: data) :
    multipart.readLoop (ch '-' :: ch '-' :: B) fuel [ch '\r', ch '\n'] 0 false
        (((ch '-' :: ch '-' :: B) ++ [ch '\r']) ++ ch '\n' ::
          (str "Content-Disposition" ++ ch ':' :: ch ' ' ::
              (str "form-data; name=\"file\"; filename=\"" ++ multipart.escapeQuotes F
                ++ [ch '"'])
            ++ ch '\r' :: ch '\n' ::
              (str "Content-Type" ++ ch ':' :: ch ' ' :: str "application/octet-stream"
                ++ ch '\r' :: ch '\n' :: ch '\r' :: ch '\n' ::
                  (data ++ (ch '\r' :: ch '\n' :: (ch '-' :: ch '-' :: B)
                    ++ [ch '-', ch '-', ch '\r', ch '\n'])))))
      = .ok [{ Header := [(str "Content-Disposition",
                  [str "form-data; name=\"file\"; filename=\"" ++ multipart.escapeQuotes F
                    ++ [ch '"']]),
                (str "Content-Type", [str "application/octet-stream"])],
               body := data }] := by
  obtain ⟨hlen, hr, hn, hne⟩ := boundary_facts B hB
  have hD : strings.HasPrefix [ch '\r', ch '\n'] (ch '-' :: ch '-' :: B) = false := by
    simp [strings.HasPrefix, List.isPrefixOf]
  have e1 := readSlice_append ((ch '-' :: ch '-' :: B) ++ [ch '\r'])
    (str "Content-Disposition" ++ ch ':' :: ch ' ' ::
              (str "form-data; name=\"file\"; filename=\"" ++ multipart.escapeQuotes F
                ++ [ch '"'])
            ++ ch '\r' :: ch '\n' ::
              (str "Content-Type" ++ ch ':' :: ch ' ' :: str "application/octet-stream"
                ++ ch '\r' :: ch '\n' :: ch '\r' :: ch '\n' ::
                  (data ++ (ch '\r' :: ch '\n' :: (ch '-' :: ch '-' :: B)
                    ++ [ch '-', ch '-', ch '\r', ch '\n']))))
    (by simp only [List.mem_append, List.mem_singleton, not_or]; exact ⟨hn, by decide⟩)
  have l1 : ¬ multipart.peekBufferSize
      < (((ch '-' :: ch '-' :: B) ++ [ch '\r']) ++ [ch '\n']).length := by
    simp only [List.length_append, List.length_cons, List.length_nil, hlen,
      multipart.peekBufferSize]
    omega
  have d1 : multipart.isBoundaryDelimiterLine (ch '-' :: ch '-' :: B) [ch '\r', ch '\n'] 0
      (((ch '-' :: ch '-' :: B) ++ [ch '\r']) ++ [ch '\n']) = (true, [ch '\r', ch '\n']) := by
    rw [List.append_assoc]
    exact delimiterLine_first _
  have hfinal := readLoop_final (ch '-' :: ch '-' :: B)
  have efin : ch '\r' :: ch '\n' :: (ch '-' :: ch '-' :: B) ++ [ch '-', ch '-', ch '\r', ch '\n']
      = [ch '\r'] ++ ch '\n' :: (((ch '-' :: ch '-' :: B) ++ [ch '-', ch '-', ch '\r'])
          ++ ch '\n' :: []) := by simp
  have hcte : ¬ strings.ToLower (textproto.Get
      [(str "Content-Disposition",
          [str "form-data; name=\"file\"; filename=\"" ++ multipart.escapeQuotes F ++ [ch '"']]),
       (str "Content-Type", [str "application/octet-stream"])]
      (str "Content-Transfer-Encoding")) = str "quoted-printable" := by
    have : textproto.Get
      [(str "Content-Disposition",
          [str "form-data; name=\"file\"; filename=\"" ++ multipart.escapeQuotes F ++ [ch '"']]),
       (str "Content-Type", [str "application/octet-stream"])]
      (str "Content-Transfer-Encoding") = [] := by
      have k1 : ¬ str "Content-Disposition"
          = http.CanonicalMIMEHeaderKey (str "Content-Transfer-Encoding") := by decide
      have k2 : ¬ str "Content-Type"
          = http.CanonicalMIMEHeaderKey (str "Content-Transfer-Encoding") := by decide
      simp only [textproto.Get, http.Header.Values, http.Header.lookup, if_neg k1, if_neg k2,
        List.headD_nil]
    rw [this]
    decide
  obtain ⟨n, rfl⟩ : ∃ n, fuel = n + 2 + 1 := ⟨fuel - 3, by omega⟩
  rw [readLoop_succ, e1]
  simp only [if_neg l1, d1, if_true, readMIMEHeader_formFile F _ hF, if_neg hcte,
    readBody_content _ data (by simp) hr hd]
  rw [efin, hfinal n hn (by simp only [List.length_cons, hlen, multipart.peekBufferSize]; omega)
    hD]

theorem readParts_formFile (B F data : Bytes) (hB : multipart.isRandomBoundary B = true)
    (hF : ch '\n' ∉ F) (hd : ¬ (ch '-' :: ch '-' :: B) <:+: data) :
    multipart.ReadParts B
        (((ch '-' :: ch '-' :: B) ++ [ch '\r']) ++ ch '\n' ::
          (str "Content-Disposition" ++ ch ':' :: ch ' ' ::
              (str "form-data; name=\"file\"; filename=\"" ++ multipart.escapeQuotes F
                ++ [ch '"'])
            ++ ch '\r' :: ch '\n' ::
              (str "Content-Type" ++ ch ':' :: ch ' ' :: str "application/octet-stream"
                ++ ch '\r' :: ch '\n' :: ch '\r' :: ch '\n' ::
                  (data ++ (ch '\r' :: ch '\n' :: (ch '-' :: ch '-' :: B)
                    ++ [ch '-', ch '-', ch '\r', ch '\n'])))))
      = .ok [{ Header := [(str "Content-Disposition",
                  [str "form-data; name=\"file\"; filename=\"" ++ multipart.escapeQuotes F
                    ++ [ch '"']]),
                (str "Content-Type", [str "application/octet-stream"])],
               body := data }] := by
  have hne := (boundary_facts B hB).2.2.2
  unfold multipart.ReadParts
  rw [if_neg hne, show str "--" ++ B = ch '-' :: ch '-' :: B from rfl,
    show str "\r\n" = [ch '\r', ch '\n'] from rfl]
  exact readLoop_formFile B F data _
    (by simp only [List.length_append, List.length_cons, List.length_nil]; omega) hB hF hd

theorem consumeQuoted_succ (fuel : Nat) (r : Byte) (t : GoString) :
    mime.consumeQuoted (fuel + 1) (r :: t) =
      if r = ch '"' then some ([], t)
      else if r = ch '\\' ∧ (t.head?.map mime.isTSpecial) = some true then
        (mime.consumeQuoted fuel t.tail).map (fun q => (t.headD 0 :: q.1, q.2))
      else if r = ch '\r' ∨ r = ch '\n' then none
      else (mime.consumeQuoted fuel t).map (fun q => (r :: q.1, q.2)) := by
  rfl

theorem consumeQuoted_escape (V rest : GoString) (h1 : ch '\r' ∉ V) (h2 : ch '\n' ∉ V) :
    ∀ fuel, (multipart.escapeQuotes V).length < fuel →
      mime.consumeQuoted fuel (multipart.escapeQuotes V ++ ch '"' :: rest) = some (V, rest) := by
  induction V with
  | nil =>
    intro fuel hf
    obtain ⟨n, rfl⟩ : ∃ n, fuel = n + 1 := ⟨fuel - 1, by omega⟩
    show mime.consumeQuoted (n + 1) (ch '"' :: rest) = _
    rw [consumeQuoted_succ, if_pos rfl]
  | cons c V ih =>
    intro fuel hf
    simp only [List.mem_cons, not_or] at h1 h2
    have e : multipart.escapeQuotes (c :: V)
        = (if c = ch '\\' ∨ c = ch '"' then [ch '\\', c] else [c]) ++ multipart.escapeQuotes V := by
      simp [multipart.escapeQuotes]
    rw [e] at hf ⊢
    by_cases hc : c = ch '\\' ∨ c = ch '"'
    · rw [if_pos hc] at hf ⊢
      simp only [List.length_append, List.length_cons, List.length_nil] at hf
      obtain ⟨n, rfl⟩ : ∃ n, fuel = n + 1 := ⟨fuel - 1, by omega⟩
      have hts : mime.isTSpecial c = true := by
        rcases hc with e | e <;> rw [e] <;> decide
      show mime.consumeQuoted (n + 1)
        (ch '\\' :: (c :: (multipart.escapeQuotes V ++ ch '"' :: rest))) = _
      rw [consumeQuoted_succ, if_neg (by decide), if_pos ⟨rfl, by simp [hts]⟩]
      simp only [List.tail_cons, List.headD_cons]
      rw [ih h1.2 h2.2 n (by omega)]
      rfl
    · rw [if_neg hc] at hf ⊢
      simp only [List.length_append, List.length_cons, List.length_nil] at hf
      obtain ⟨n, rfl⟩ : ∃ n, fuel = n + 1 := ⟨fuel - 1, by omega⟩
      simp only [not_or] at hc
      show mime.consumeQuoted (n + 1) (c :: (multipart.escapeQuotes V ++ ch '"' :: rest)) = _
      rw [consumeQuoted_succ, if_neg hc.2, if_neg (fun h => hc.1 h.1),
        if_neg (by
          intro h
          rcases h with h | h
          · exact h1.1 h.symm
          · exact h2.1 h.symm),
        ih h1.2 h2.2 n (by omega)]
      rfl

theorem consumeValue_quoted (V rest : GoString) (h1 : ch '\r' ∉ V) (h2 : ch '\n' ∉ V) :
    mime.consumeValue (ch '"' :: (multipart.escapeQuotes V ++ ch '"' :: rest)) = (V, rest) := by
  unfold mime.consumeValue
  simp only [ne_eq, not_true_eq_false, if_false]
  rw [consumeQuoted_escape V rest h1 h2 _ (by simp only [List.length_append, List.length_cons]; omega)]

theorem find_space_none (c : Byte) (t : GoString) (l : List GoString)
    (h : ∀ e ∈ l, e ≠ [] ∧ e.head? ≠ some c) :
    l.find? (fun e => e.isPrefixOf (c :: t)) = none := by
  rw [List.find?_eq_none]
  intro e he
  obtain ⟨h1, h2⟩ := h e he
  cases e with
  | nil => exact absurd rfl h1
  | cons e0 e =>
    have : e0 ≠ c := fun k => h2 (by simp [k])
    simp [List.isPrefixOf, this]

theorem visible_not_space (c : Byte) (h1 : 0x20 < c) (h2 : c < 0x7F) :
    ∀ e ∈ unicode.spaces, e ≠ [] ∧ e.head? ≠ some c := by
  revert c; decide!

theorem trimLeftSpace_visible (c : Byte) (t : GoString) (h1 : 0x20 < c) (h2 : c < 0x7F) :
    strings.TrimLeftSpace (c :: t) = c :: t := by
  unfold strings.TrimLeftSpace
  rw [List.length_cons, strings.trimLeftSpaceLoop,
    find_space_none c t _ (visible_not_space c h1 h2)]

theorem trimLeftSpace_blank (c : Byte) (t : GoString) (h1 : 0x20 < c) (h2 : c < 0x7F) :
    strings.TrimLeftSpace (ch ' ' :: c :: t) = c :: t := by
  have hf : unicode.spaces.find? (fun e => e.isPrefixOf (ch ' ' :: c :: t)) = some [0x20] := by
    rfl
  unfold strings.TrimLeftSpace
  rw [List.length_cons, strings.trimLeftSpaceLoop, hf]
  simp only [List.length_cons, List.length_nil, List.drop_succ_cons, List.drop_zero]
  rw [strings.trimLeftSpaceLoop, find_space_none c t _ (visible_not_space c h1 h2)]

theorem token_visible (c : Byte) (h : mime.isTokenChar c = true) : 0x20 < c ∧ c < 0x7F := by
  revert c; decide!

theorem consumeToken_key (key X : GoString) (c : Byte)
    (hk : ∀ k ∈ key, mime.isTokenChar k = true) (hc : mime.isTokenChar c = false) :
    mime.consumeToken (key ++ c :: X) = (key, c :: X) := by
  unfold mime.consumeToken
  induction key with
  | nil => simp [List.takeWhile, List.dropWhile, hc]
  | cons k key ih =>
    have hk0 := hk k (by simp)
    have := ih (fun x hx => hk x (List.mem_cons_of_mem _ hx))
    simp only [Prod.mk.injEq] at this
    simp [List.takeWhile, List.dropWhile, hk0, this.1, this.2]

theorem consumeMediaParam_quoted (key V rest : GoString) (hne : key ≠ [])
    (hk : ∀ k ∈ key, mime.isTokenChar k = true) (hl : strings.ToLower key = key)
    (h1 : ch '\r' ∉ V) (h2 : ch '\n' ∉ V) :
    mime.consumeMediaParam
        (ch ';' :: ch ' ' :: (key ++ ch '=' :: ch '"' ::
          (multipart.escapeQuotes V ++ ch '"' :: rest)))
      = (key, V, rest) := by
  obtain ⟨k0, kr, rfl⟩ : ∃ k0 kr, key = k0 :: kr := by
    cases key with
    | nil => exact absurd rfl hne
    | cons a b => exact ⟨a, b, rfl⟩
  have hv := token_visible k0 (hk k0 (by simp))
  have t1 := trimLeftSpace_visible (ch ';')
    (ch ' ' :: (k0 :: kr ++ ch '=' :: ch '"' :: (multipart.escapeQuotes V ++ ch '"' :: rest)))
    (by decide) (by decide)
  have t2 := trimLeftSpace_blank k0
    (kr ++ ch '=' :: ch '"' :: (multipart.escapeQuotes V ++ ch '"' :: rest)) hv.1 hv.2
  have t3 := trimLeftSpace_visible (ch '=')
    (ch '"' :: (multipart.escapeQuotes V ++ ch '"' :: rest)) (by decide) (by decide)
  have t4 := trimLeftSpace_visible (ch '"')
    (multipart.escapeQuotes V ++ ch '"' :: rest) (by decide) (by decide)
  have tk := consumeToken_key (k0 :: kr)
    (ch '"' :: (multipart.escapeQuotes V ++ ch '"' :: rest)) (ch '=') hk (by decide)
  have cv := consumeValue_quoted V rest h1 h2
  have hlen : rest ≠ ch '"' :: (multipart.escapeQuotes V ++ ch '"' :: rest) := by
    intro e
    have := congrArg List.length e
    simp only [List.length_cons, List.length_append] at this
    omega
  unfold mime.consumeMediaParam
  simp only [t1, strings.HasPrefix, List.isPrefixOf, beq_self_eq_true, Bool.and_self,
    not_true_eq_false, if_false, List.drop_succ_cons, List.drop_zero]
  rw [show ch ' ' :: (k0 :: kr ++ ch '=' :: ch '"' :: (multipart.escapeQuotes V ++ ch '"' :: rest))
      = ch ' ' :: k0 :: (kr ++ ch '=' :: ch '"' :: (multipart.escapeQuotes V ++ ch '"' :: rest))
      from rfl, t2,
    show k0 :: (kr ++ ch '=' :: ch '"' :: (multipart.escapeQuotes V ++ ch '"' :: rest))
      = k0 :: kr ++ ch '=' :: ch '"' :: (multipart.escapeQuotes V ++ ch '"' :: rest) from rfl, tk]
  simp only [hl, if_neg hne, t3, List.isPrefixOf, beq_self_eq_true, Bool.and_self,
    not_true_eq_false, if_false, List.drop_succ_cons, List.drop_zero, t4, cv]
  rw [if_neg (fun h => hlen h.2)]

theorem parseParams_succ (fuel : Nat) (params : List (GoString × GoString)) (v : GoString) :
    mime.parseParams (fuel + 1) params v =
      if v = [] then .ok params
      else if strings.TrimLeftSpace v = [] then .ok params
      else
        let p := mime.consumeMediaParam (strings.TrimLeftSpace v)
        if p.1 = [] then
          if strings.TrimSpace p.2.2 = [ch ';'] then .ok params
          else .error (.text "mime: invalid media parameter")
        else if ch '*' ∈ p.1 then .error (.text "not followed: a parameter of RFC 2231")
        else
          match mime.param params p.1 with
          | some old =>
            if old ≠ p.2.1 then .error (.text "mime: duplicate parameter name")
            else mime.parseParams fuel params p.2.2
          | none => mime.parseParams fuel (params ++ [(p.1, p.2.1)]) p.2.2 := by
  rfl

theorem parseParams_nil (fuel : Nat) (params : List (GoString × GoString)) :
    mime.parseParams (fuel + 1) params [] = .ok params := by
  rw [parseParams_succ, if_pos rfl]

theorem parseParams_quoted (fuel : Nat) (params : List (GoString × GoString))
    (key V rest : GoString) (hne : key ≠ [])
    (hk : ∀ k ∈ key, mime.isTokenChar k = true) (hl : strings.ToLower key = key)
    (hs : ch '*' ∉ key) (hnew : mime.param params key = none)
    (h1 : ch '\r' ∉ V) (h2 : ch '\n' ∉ V) :
    mime.parseParams (fuel + 1) params
        (ch ';' :: ch ' ' :: (key ++ ch '=' :: ch '"' ::
          (multipart.escapeQuotes V ++ ch '"' :: rest)))
      = mime.parseParams fuel (params ++ [(key, V)]) rest := by
  have t1 := trimLeftSpace_visible (ch ';')
    (ch ' ' :: (key ++ ch '=' :: ch '"' :: (multipart.escapeQuotes V ++ ch '"' :: rest)))
    (by decide) (by decide)
  rw [parseParams_succ, if_neg (by simp), t1, if_neg (by simp)]
  simp only [consumeMediaParam_quoted key V rest hne hk hl h1 h2, if_neg hne, if_neg hs, hnew]

theorem parseMediaType_formData (X : GoString) (params : List (GoString × GoString))
    (h : ∀ fuel, mime.parseParams (fuel + 3) [] (ch ';' :: X) = .ok params) :
    mime.ParseMediaType (str "form-data" ++ ch ';' :: X) = (str "form-data", .ok params) := by
  have ecut := cut_append (str "form-data") X (ch ';') (by decide)
  have e1 : (str "form-data").any (fun c => 0x80 ≤ c) = false := by decide
  have e2 : strings.TrimSpace (strings.ToLower (str "form-data")) = str "form-data" := by
    decide
  have e3 : mime.checkMediaTypeDisposition (str "form-data") = none := by decide
  have e4 : (str "form-data" ++ ch ';' :: X).drop (str "form-data").length = ch ';' :: X :=
    List.drop_left' rfl
  have e5 : (str "form-data" ++ ch ';' :: X).length + 1 = X.length + 8 + 3 := by
    simp only [List.length_append, List.length_cons,
      show (str "form-data").length = 9 from rfl]
    omega
  unfold mime.ParseMediaType
  dsimp only
  rw [ecut]
  dsimp only
  rw [e1, e2, e4, e5, h]
  simp only [Bool.false_eq_true, if_false]
  rw [e3]

theorem parseMediaType_formFile (F : GoString) (h1 : ch '\r' ∉ F) (h2 : ch '\n' ∉ F) :
    mime.ParseMediaType
        (str "form-data; name=\"file\"; filename=\"" ++ multipart.escapeQuotes F ++ [ch '"'])
      = (str "form-data", .ok [(str "name", str "file"), (str "filename", F)]) := by
  have ev : str "form-data; name=\"file\"; filename=\"" ++ multipart.escapeQuotes F ++ [ch '"']
      = str "form-data" ++ ch ';' :: (ch ' ' :: (str "name" ++ ch '=' :: ch '"' ::
          (multipart.escapeQuotes (str "file") ++ ch '"' ::
            (ch ';' :: ch ' ' :: (str "filename" ++ ch '=' :: ch '"' ::
              (multipart.escapeQuotes F ++ ch '"' :: [])))))) := by
    rw [List.append_assoc]
    rfl
  rw [ev]
  apply parseMediaType_formData
  intro fuel
  rw [parseParams_quoted (fuel + 2) [] (str "name") (str "file") _ (by decide) (by decide)
      (by decide) (by decide) rfl (by decide) (by decide),
    parseParams_quoted (fuel + 1) _ (str "filename") F [] (by decide) (by decide) (by decide)
      (by decide) (by decide) h1 h2,
    parseParams_nil]
  rfl

theorem formFile_buf (B F data : Bytes) :
    (((multipart.NewWriter B).CreateFormFile (str "file") F).Write data).Close.buf =
      ((ch '-' :: ch '-' :: B) ++ [ch '\r']) ++ ch '\n' ::
          (str "Content-Disposition" ++ ch ':' :: ch ' ' ::
              (str "form-data; name=\"file\"; filename=\"" ++ multipart.escapeQuotes F
                ++ [ch '"'])
            ++ ch '\r' :: ch '\n' ::
              (str "Content-Type" ++ ch ':' :: ch ' ' :: str "application/octet-stream"
                ++ ch '\r' :: ch '\n' :: ch '\r' :: ch '\n' ::
                  (data ++ (ch '\r' :: ch '\n' :: (ch '-' :: ch '-' :: B)
                    ++ [ch '-', ch '-', ch '\r', ch '\n'])))) := by
  have e1 : str "form-data; name=\"" ++ multipart.escapeQuotes (str "file")
      = str "form-data; name=\"file" := by decide
  have e2 : str "form-data; name=\"file\"; filename=\""
      = str "form-data; name=\"file" ++ [ch '"', ch ';', ch ' '] ++ str "filename=\"" := by
    decide
  have e3 : str "\"; filename=\"" = [ch '"', ch ';', ch ' '] ++ str "filename=\"" := by decide
  have e4 : str "--" = [ch '-', ch '-'] := rfl
  have e5 : str "\r\n" = [ch '\r', ch '\n'] := rfl
  have e6 : str ": " = [ch ':', ch ' '] := rfl
  have e7 : str "\"" = [ch '"'] := rfl
  have e8 : str "\r\n--" = [ch '\r', ch '\n', ch '-', ch '-'] := rfl
  have e9 : str "--\r\n" = [ch '-', ch '-', ch '\r', ch '\n'] := rfl
  simp only [multipart.NewWriter, multipart.Writer.CreateFormFile,
    multipart.Writer.CreatePart, multipart.Writer.Write, multipart.Writer.Close,
    e1, e2, e3, e4, e5, e6, e7, e8, e9, List.flatMap_cons, List.flatMap_nil, List.append_assoc,
    List.nil_append, List.append_nil, List.cons_append, Bool.false_eq_true, if_false]

theorem formFile_names (F data : Bytes) (h1 : ch '\r' ∉ F) (h2 : ch '\n' ∉ F) :
    multipart.Part.FormName
        { Header := [(str "Content-Disposition",
                  [str "form-data; name=\"file\"; filename=\"" ++ multipart.escapeQuotes F
                    ++ [ch '"']]),
                (str "Content-Type", [str "application/octet-stream"])],
          body := data } = str "file" ∧
    multipart.Part.FileName
        { Header := [(str "Content-Disposition",
                  [str "form-data; name=\"file\"; filename=\"" ++ multipart.escapeQuotes F
                    ++ [ch '"']]),
                (str "Content-Type", [str "application/octet-stream"])],
          body := data } = F := by
  have hget : textproto.Get [(str "Content-Disposition",
                  [str "form-data; name=\"file\"; filename=\"" ++ multipart.escapeQuotes F
                    ++ [ch '"']]),
                (str "Content-Type", [str "application/octet-stream"])]
      (str "Content-Disposition")
      = str "form-data; name=\"file\"; filename=\"" ++ multipart.escapeQuotes F ++ [ch '"'] := by
    rfl
  have hp : multipart.Part.parseContentDisposition
        { Header := [(str "Content-Disposition",
                  [str "form-data; name=\"file\"; filename=\"" ++ multipart.escapeQuotes F
                    ++ [ch '"']]),
                (str "Content-Type", [str "application/octet-stream"])],
          body := data }
      = (str "form-data", [(str "name", str "file"), (str "filename", F)]) := by
    unfold multipart.Part.parseContentDisposition
    dsimp only
    rw [hget, parseMediaType_formFile F h1 h2]
  unfold multipart.Part.FormName multipart.Part.FileName
  rw [hp]
  exact ⟨rfl, rfl⟩

/-- C9, as amended.  For every number, caption and readable file, with the
boundary the multipart writer draws (60 hexadecimal digits), a file whose base
name holds no carriage return and no line feed, and file bytes in which
`--boundary` does not occur: every request `SendSessionFile` sends is a POST
whose URL is parsed from `baseUrl ++ "/api/v1/sendSessionFile/" ++ number`;
its body, read by the multipart reader with that boundary, holds exactly one
part, whose form name is `file`, whose file name is the base name of the path
of the file and whose content is the bytes of the file; its query, decoded,
holds `caption` with the given caption; and the request is sent whenever that
URL parses. -/
theorem send_session_file_request (net : http.Request → http.RoundTrip)
    (baseUrl token boundary whatsappNumber caption : GoString) (file : os.File)
    (hread : file.readErr = none)
    (hboundary : multipart.isRandomBoundary boundary = true)
    (hcr : ch '\r' ∉ filepath.Base file.name)
    (hlf : ch '\n' ∉ filepath.Base file.name)
    (hdata : ¬ (str "--" ++ boundary) <:+: file.data) :
    (∀ req ∈ ((NewClient net baseUrl token).SendSessionFile boundary whatsappNumber caption
        file).sent,
      req.Method = str "POST" ∧
      (∃ body part, req.Body = some body ∧
        multipart.ReadParts boundary body = .ok [part] ∧
        part.FormName = str "file" ∧
        part.FileName = filepath.Base file.name ∧
        part.body = file.data) ∧
      (url.ParseQuery req.URL.RawQuery).2 = none ∧
      url.Values.lookup req.URL.Query (str "caption") = [caption] ∧
      ∃ u, url.Parse (baseUrl ++ (str "/api/v1/sendSessionFile/" ++ whatsappNumber)) = .ok u ∧
        req.URL = { u with
          Host := http.removeEmptyPort u.Host,
          RawQuery := url.Values.Encode (u.Query.Set (str "caption") caption) }) ∧
    ((∃ u, url.Parse (baseUrl ++ (str "/api/v1/sendSessionFile/" ++ whatsappNumber)) = .ok u) →
      ((NewClient net baseUrl token).SendSessionFile boundary whatsappNumber caption
        file).sent.length = 1) := by
  have hcall : (NewClient net baseUrl token).SendSessionFile boundary whatsappNumber caption file =
      (NewClient net baseUrl token).call
        (.SendSessionFile boundary whatsappNumber caption file) := rfl
  rw [hcall]
  refine ⟨?_, ?_⟩
  · intro req hreq
    obtain ⟨h1, h2, u, hu, hurl⟩ := call_request hreq
    have hq := query_lookup hreq (str "caption") caption (by simp [Call.queryParams])
    have hbody : Call.requestBody (.SendSessionFile boundary whatsappNumber caption file) =
        some (((multipart.NewWriter boundary).CreateFormFile (str "file")
          (filepath.Base file.name)).Write file.data).Close.buf := rfl
    have hnames := formFile_names (filepath.Base file.name) file.data hcr hlf
    refine ⟨h1, ⟨_, _, h2.trans hbody, ?_, hnames.1, hnames.2, rfl⟩, hq.1, hq.2, u, hu, hurl⟩
    rw [formFile_buf]
    exact readParts_formFile boundary (filepath.Base file.name) file.data hboundary hlf hdata
  · rintro ⟨u, hu⟩
    obtain ⟨req, hreq⟩ := call_sent_one (NewClient net baseUrl token)
      (.SendSessionFile boundary whatsappNumber caption file) u hread hu
    rw [hreq]
    rfl

/-- C9, at a concrete call: the upload of `/home/u/pic "1".png` with the
caption `hello & bye` sends one POST to `/api/v1/sendSessionFile/91999999999`
with the query `caption=hello+%26+bye`, and the reader finds in its body the
one part `file` with the file name `pic "1".png` and the content `PNG`. -/
theorem send_session_file_witness :
    ((NewClient demo.okNet demo.baseUrl demo.token).SendSessionFile demo.boundary
        (str "91999999999") (str "hello & bye")
        { name := str "/home/u/pic \"1\".png", data := str "PNG", readErr := none }).sent.map
      (fun req => (req.Method, req.URL.Path, req.URL.RawQuery))
    = [(str "POST", str "/api/v1/sendSessionFile/91999999999", str "caption=hello+%26+bye")] ∧
    ((NewClient demo.okNet demo.baseUrl demo.token).SendSessionFile demo.boundary
        (str "91999999999") (str "hello & bye")
        { name := str "/home/u/pic \"1\".png", data := str "PNG", readErr := none }).sent.map
      (fun req => req.Body.map (fun body => (multipart.ReadParts demo.boundary body).map
        (fun parts => parts.map (fun part => [part.FormName, part.FileName, part.body]))))
    = [some (.ok [[str "file", str "pic \"1\".png", str "PNG"]])] ∧
    ((NewClient demo.okNet demo.baseUrl demo.token).SendSessionFile demo.boundary
        (str "91999999999") (str "hello & bye")
        { name := str "/home/u/pic \"1\".png", data := str "PNG", readErr := none }).sent.length
      = 1 :=
  ⟨by decide, by decide,
   (send_session_file_request demo.okNet demo.baseUrl demo.token demo.boundary
      (str "91999999999") (str "hello & bye")
      { name := str "/home/u/pic \"1\".png", data := str "PNG", readErr := none }
      rfl (by decide) (by decide) (by decide) (by decide)).2
     ⟨{ Scheme := str "https", Host := str "live-server.wati.io",
        Path := str "/api/v1/sendSessionFile/91999999999" }, by decide⟩⟩

/-- C9, the counterexamples.  For the number `%zz` the URL of the upload does
not parse, and `SendSessionFile` with a readable file sends no POST at all.
For the file `/home/u/a\nb.png`, whose name holds a line feed, the name is
written into the header of the part as it is, and the reader finds no part
in the body but a malformed header.  For the file `/home/u/a\rb.png` the
reader finds one part with neither form name nor file name.  For a file
whose bytes hold a line `--boundary` the reader finds two parts, the second
one made of the bytes after that line. -/
theorem send_session_file_counterexample :
    ((NewClient demo.okNet demo.baseUrl demo.token).SendSessionFile demo.boundary
        (str "%zz") (str "hello & bye")
        { name := str "/home/u/pic \"1\".png", data := str "PNG", readErr := none }).sent = [] ∧
    ((NewClient demo.okNet demo.baseUrl demo.token).SendSessionFile demo.boundary
        (str "91999999999") (str "hello & bye")
        { name := str "/home/u/a\nb.png", data := str "PNG", readErr := none }).sent.map
      (fun req => req.Body.map (fun body =>
        (multipart.ReadParts demo.boundary body).toOption.isSome))
    = [some false] ∧
    ((NewClient demo.okNet demo.baseUrl demo.token).SendSessionFile demo.boundary
        (str "91999999999") (str "hello & bye")
        { name := str "/home/u/a\rb.png", data := str "PNG", readErr := none }).sent.map
      (fun req => req.Body.map (fun body => (multipart.ReadParts demo.boundary body).map
        (fun parts => parts.map (fun part => [part.FormName, part.FileName, part.body]))))
    = [some (.ok [[[], [], str "PNG"]])] ∧
    ((NewClient demo.okNet demo.baseUrl demo.token).SendSessionFile demo.boundary
        (str "91999999999") (str "hello & bye")
        { name := str "/home/u/a.png",
          data := str "one\r\n--" ++ demo.boundary
            ++ str "\r\nContent-Disposition: form-data; name=\"extra\"\r\n\r\ntwo",
          readErr := none }).sent.map
      (fun req => req.Body.map (fun body => (multipart.ReadParts demo.boundary body).map
        (fun parts => parts.map (fun part => [part.FormName, part.FileName, part.body]))))
    = [some (.ok [[str "file", str "a.png", str "one"], [str "extra", [], str "two"]])] := by
  refine ⟨by decide, by decide, by decide, by decide⟩
end Wati
